import Mathlib

/-!
Verification of the TinyJS interpreter core (TinyJS.cpp / TinyJS.h) against its
natural-language specification.

The development shallowly embeds the C++ source:

* `Value` embeds `Variable` (flags bitmask, `long intData`, `double doubleData`
  modelled as an exact rational, string `data`, and the child list of
  name/target pairs).  C pointers and reference counts are not represented;
  where the source observes pointer identity (`a == b` in `mathsOp` for the
  object/array branches) the embedding takes that one bit as an explicit
  `sameRef` argument, since it is the only information about identity the
  function consumes.
* Machine integers: `intData` is a C `long`; `getInt` converts `long` to
  `int`, embedded as `wrap32` (two's-complement wrap-around, the behaviour of
  every platform this code targets).  Signed `int` arithmetic that can
  overflow is likewise wrapped.  C integer division by zero is undefined
  behaviour (a machine trap on real targets); the embedding makes that
  outcome explicit as `MRes.trap`, distinct from the interpreter's own
  `throw new Exception(...)` (embedded as `MRes.exn`).
* `double` is embedded as `ℚ`.  All claims below either do not observe
  double values at all (only type tags) or are restricted by hypotheses to
  rationals on which exact arithmetic agrees with IEEE doubles.
-/

set_option maxRecDepth 40000

namespace TJS

/-- Characters of a string literal (the embedding uses `List Char` for C
`std::string` so that induction over characters is structural). -/
def cl (s : String) : List Char := s.data

/-- The NUL character, which the lexer uses as its end-of-data sentinel. -/
def nul : Char := Char.ofNat 0

-- ------------------------------------------------------------------
-- VARIABLE_FLAGS (TinyJS.h, enum VARIABLE_FLAGS)
-- ------------------------------------------------------------------

def VARIABLE_UNDEFINED : Nat := 0
def VARIABLE_FUNCTION : Nat := 1
def VARIABLE_OBJECT : Nat := 2
def VARIABLE_ARRAY : Nat := 4
def VARIABLE_DOUBLE : Nat := 8
def VARIABLE_INTEGER : Nat := 16
def VARIABLE_STRING : Nat := 32
def VARIABLE_NULL : Nat := 64
def VARIABLE_NATIVE : Nat := 128
def VARIABLE_NUMERICMASK : Nat := VARIABLE_NULL ||| VARIABLE_DOUBLE ||| VARIABLE_INTEGER
def VARIABLE_TYPEMASK : Nat :=
  VARIABLE_DOUBLE ||| VARIABLE_INTEGER ||| VARIABLE_STRING ||| VARIABLE_FUNCTION |||
  VARIABLE_OBJECT ||| VARIABLE_ARRAY ||| VARIABLE_NULL

-- ------------------------------------------------------------------
-- LEXER_TYPES (TinyJS.h, enum LEXER_TYPES); single-character tokens are
-- their ASCII codes, exactly as in the C source.
-- ------------------------------------------------------------------

def LEXER_EOF : Nat := 0
def LEXER_ID : Nat := 256
def LEXER_INT : Nat := 257
def LEXER_FLOAT : Nat := 258
def LEXER_STR : Nat := 259
def LEXER_EQUAL : Nat := 260
def LEXER_TYPEEQUAL : Nat := 261
def LEXER_NEQUAL : Nat := 262
def LEXER_NTYPEEQUAL : Nat := 263
def LEXER_LEQUAL : Nat := 264
def LEXER_LSHIFT : Nat := 265
def LEXER_LSHIFTEQUAL : Nat := 266
def LEXER_GEQUAL : Nat := 267
def LEXER_RSHIFT : Nat := 268
def LEXER_RSHIFTUNSIGNED : Nat := 269
def LEXER_RSHIFTEQUAL : Nat := 270
def LEXER_PLUSEQUAL : Nat := 271
def LEXER_MINUSEQUAL : Nat := 272
def LEXER_PLUSPLUS : Nat := 273
def LEXER_MINUSMINUS : Nat := 274
def LEXER_ANDEQUAL : Nat := 275
def LEXER_ANDAND : Nat := 276
def LEXER_OREQUAL : Nat := 277
def LEXER_OROR : Nat := 278
def LEXER_XOREQUAL : Nat := 279
def LEXER_RESERVED_IF : Nat := 280
def LEXER_RESERVED_ELSE : Nat := 281
def LEXER_RESERVED_DO : Nat := 282
def LEXER_RESERVED_WHILE : Nat := 283
def LEXER_RESERVED_FOR : Nat := 284
def LEXER_RESERVED_BREAK : Nat := 285
def LEXER_RESERVED_CONTINUE : Nat := 286
def LEXER_RESERVED_FUNCTION : Nat := 287
def LEXER_RESERVED_RETURN : Nat := 288
def LEXER_RESERVED_VAR : Nat := 289
def LEXER_RESERVED_TRUE : Nat := 290
def LEXER_RESERVED_FALSE : Nat := 291
def LEXER_RESERVED_NULL : Nat := 292
def LEXER_RESERVED_UNDEFINED : Nat := 293
def LEXER_RESERVED_NEW : Nat := 294

/-- Token code of a single ASCII character (the C source writes e.g. `'+'`). -/
def chTok (c : Char) : Nat := c.toNat

-- ------------------------------------------------------------------
-- Machine-integer helpers
-- ------------------------------------------------------------------

/-- Two's-complement wrap-around into the 32-bit signed range: the long→int
conversion in `Variable::getInt`, and the value produced by overflowing
signed `int` arithmetic on the targeted platforms. -/
def wrap32 (i : Int) : Int := (i + 2147483648) % 4294967296 - 2147483648

/-- Unsigned 32-bit representation of a signed value (for the bitwise ops). -/
def toU32 (i : Int) : Nat := (i % 4294967296).toNat

/-- C `int & int` on two's-complement machines. -/
def intAnd (a b : Int) : Int := wrap32 (Int.ofNat (Nat.land (toU32 a) (toU32 b)))

/-- C `int | int` on two's-complement machines. -/
def intOr (a b : Int) : Int := wrap32 (Int.ofNat (Nat.lor (toU32 a) (toU32 b)))

/-- C `int ^ int` on two's-complement machines. -/
def intXor (a b : Int) : Int := wrap32 (Int.ofNat (Nat.xor (toU32 a) (toU32 b)))

/-- C cast `(int)d` of a floating value: truncation toward zero. -/
def truncQ (q : ℚ) : Int := if 0 ≤ q then Int.floor q else Int.ceil q

-- ------------------------------------------------------------------
-- Decimal formatting (sprintf "%ld" and "%f") and parsing helpers
-- ------------------------------------------------------------------

/-- Decimal digits of a natural number, with explicit fuel so that the
recursion is structural (the kernel can then evaluate it); `natDecChars`
supplies ample fuel. -/
def natDecCharsAux (fuel : Nat) (n : Nat) : List Char :=
  match fuel with
  | 0 => []
  | fuel + 1 =>
    if n < 10 then [Char.ofNat (48 + n)]
    else natDecCharsAux fuel (n / 10) ++ [Char.ofNat (48 + n % 10)]

/-- Decimal digits of a natural number (no sign, no leading zeros except
for the single digit of 0). -/
def natDecChars (n : Nat) : List Char := natDecCharsAux (n + 1) n

/-- `sprintf "%ld"`: decimal form of a signed integer. -/
def intDecChars (i : Int) : List Char :=
  if i < 0 then '-' :: natDecChars (-i).toNat else natDecChars i.toNat

/-- Left-pad a digit string with zeros to 6 places (the fractional part of
`%f`). -/
def pad6 (n : Nat) : List Char :=
  let ds := natDecChars n
  List.replicate (6 - ds.length) '0' ++ ds

/-- `sprintf "%f"`: fixed-point form with 6 fractional digits.  The value is
rounded to the nearest multiple of 10⁻⁶ (half away from zero; the C library
rounds ties to even, but every claim below is restricted to values where no
tie occurs). -/
def formatF (q : ℚ) : List Char :=
  let n : Nat := (Int.floor (|q| * 1000000 + 1/2)).toNat
  (if q < 0 then ['-'] else []) ++ natDecChars (n / 1000000) ++ '.' :: pad6 (n % 1000000)

/-- Is `c` an ASCII digit (the C helper `isNumeric(char)`). -/
def isNumericCh (c : Char) : Bool := '0' ≤ c && c ≤ '9'

/-- The C helper `isNumber(std::string)`: every character is a digit.
Note it is vacuously true on the empty string, exactly as in the source. -/
def isNumberStr (s : List Char) : Bool := s.all isNumericCh

/-- `atoi` on a string of decimal digits (the only strings the source feeds
it after an `isNumber` guard). -/
def atoiDigits (s : List Char) : Int :=
  s.foldl (fun acc c => acc * 10 + Int.ofNat (c.toNat - 48)) 0

-- ------------------------------------------------------------------
-- Interpreter outcome type
-- ------------------------------------------------------------------

/-- Errors raised with `throw new Exception(...)` in the source.  The C code
carries a composed message string; the embedding keeps the data the message
is composed from. -/
inductive JSErr : Type where
  /-- "Operation X not supported on the Y datatype" (Variable::mathsOp). -/
  | notSupported (op : Nat) (datatype : List Char)
  /-- "Got X expected Y" (Lexer::match). -/
  | parseMismatch (got expected : Nat)
  /-- Marker for source branches outside the modelled fragment (never reached
  by any input used in a theorem below). -/
  | unmodelled
  /-- Fuel exhaustion of the structural-recursion embedding (an artifact of
  the embedding, never reached with the ample fuel callers supply). -/
  | outOfFuel
  deriving DecidableEq, Repr

/-- Outcome of running embedded code: a value, a thrown interpreter
exception, or undefined behaviour of the C abstract machine (the only source
of which, in the embedded fragment, is integer division/modulo by zero). -/
inductive MRes (α : Type) : Type where
  | ok (v : α)
  | exn (e : JSErr)
  | trap
  deriving DecidableEq, Repr

instance : Monad MRes where
  pure := MRes.ok
  bind r f := match r with
    | .ok v => f v
    | .exn e => .exn e
    | .trap => .trap

-- ------------------------------------------------------------------
-- Variable (TinyJS value nodes)
-- ------------------------------------------------------------------

/-- A `Variable` node: flags, `long intData`, `double doubleData` (as ℚ),
string `data`, and the doubly-linked child list, embedded as a list of
(name, target) pairs in sibling order. -/
inductive Value : Type where
  | mk (flags : Nat) (intData : Int) (doubleData : ℚ) (data : List Char)
       (children : List (List Char × Value))

def Value.flags : Value → Nat
  | .mk f _ _ _ _ => f

def Value.intData : Value → Int
  | .mk _ i _ _ _ => i

def Value.doubleData : Value → ℚ
  | .mk _ _ d _ _ => d

def Value.data : Value → List Char
  | .mk _ _ _ s _ => s

def Value.children : Value → List (List Char × Value)
  | .mk _ _ _ _ cs => cs

instance : Inhabited Value := ⟨.mk 0 0 0 [] []⟩

/-- `new Variable()` (undefined). -/
def blankVar : Value := .mk VARIABLE_UNDEFINED 0 0 [] []

/-- `new Variable(TINYJS_BLANK_DATA, VARIABLE_NULL)`. -/
def nullVar : Value := .mk VARIABLE_NULL 0 0 [] []

/-- `new Variable(int val)` — and also `new Variable(bool)` which resolves to
the `int` constructor by integral promotion. -/
def mkInt (i : Int) : Value := .mk VARIABLE_INTEGER i 0 [] []

/-- Boolean result values of `mathsOp`: `new Variable(eql)` resolves to the
`int` constructor, so booleans are integer-typed 1/0. -/
def mkBool (b : Bool) : Value := mkInt (if b then 1 else 0)

/-- `new Variable(double val)`. -/
def mkDouble (q : ℚ) : Value := .mk VARIABLE_DOUBLE 0 q [] []

/-- A string-typed node (`new Variable(data, VARIABLE_STRING)`). -/
def mkStr (s : List Char) : Value := .mk VARIABLE_STRING 0 0 s []

def Value.isInt (v : Value) : Bool := v.flags &&& VARIABLE_INTEGER != 0
def Value.isDouble (v : Value) : Bool := v.flags &&& VARIABLE_DOUBLE != 0
def Value.isString (v : Value) : Bool := v.flags &&& VARIABLE_STRING != 0
def Value.isNumeric (v : Value) : Bool := v.flags &&& VARIABLE_NUMERICMASK != 0
def Value.isFunction (v : Value) : Bool := v.flags &&& VARIABLE_FUNCTION != 0
def Value.isObject (v : Value) : Bool := v.flags &&& VARIABLE_OBJECT != 0
def Value.isArray (v : Value) : Bool := v.flags &&& VARIABLE_ARRAY != 0
def Value.isNative (v : Value) : Bool := v.flags &&& VARIABLE_NATIVE != 0
def Value.isUndefined (v : Value) : Bool := v.flags &&& VARIABLE_TYPEMASK == 0
def Value.isNull (v : Value) : Bool := v.flags &&& VARIABLE_NULL != 0

/-- `Variable::getInt` — note the `long → int` conversion on return. -/
def Value.getInt (v : Value) : Int :=
  if v.isInt then wrap32 v.intData
  else if v.isNull then 0
  else if v.isUndefined then 0
  else if v.isDouble then wrap32 (truncQ v.doubleData)
  else 0

/-- `Variable::getBool`. -/
def Value.getBool (v : Value) : Bool := v.getInt != 0

/-- `Variable::getDouble`. -/
def Value.getDouble (v : Value) : ℚ :=
  if v.isDouble then v.doubleData
  else if v.isInt then (v.intData : ℚ)
  else if v.isNull then 0
  else if v.isUndefined then 0
  else 0

/-- `Variable::getString`.  Integers print with `%ld` (the full long),
doubles with `%f` into a 32-byte buffer (truncation to 31 characters). -/
def Value.getString (v : Value) : List Char :=
  if v.isInt then intDecChars v.intData
  else if v.isDouble then (formatF v.doubleData).take 31
  else if v.isNull then cl ("null")
  else if v.isUndefined then cl ("undefined")
  else v.data

/-- `Variable::findChild`: first link in the sibling chain with this name. -/
def Value.findChild (v : Value) (name : List Char) : Option (List Char × Value) :=
  v.children.find? (fun p => p.1 == name)

/-- `Variable::addChild`: promote an undefined receiver to object, then
append an owned link at the tail of the child list. -/
def Value.addChild (v : Value) (name : List Char) (child : Value) : Value :=
  let f := if v.isUndefined then VARIABLE_OBJECT else v.flags
  .mk f v.intData v.doubleData v.data (v.children ++ [(name, child)])

/-- `Variable::addChildNoDup`: replace the target of an existing same-named
link, else add. -/
def Value.addChildNoDup (v : Value) (name : List Char) (child : Value) : Value :=
  match v.findChild name with
  | some _ =>
      .mk v.flags v.intData v.doubleData v.data
        (v.children.map (fun p => if p.1 == name then (p.1, child) else p))
  | none => v.addChild name child

/-- `Variable::getArrayIndex` (a `const` method: the receiver is not
modified).  Missing indices yield a *fresh null-typed* node — the source
comment says "undefined" but the constructor argument is `VARIABLE_NULL`. -/
def Value.getArrayIndex (v : Value) (idx : Int) : Value :=
  match v.findChild (intDecChars idx) with
  | some p => p.2
  | none => nullVar

/-- `Variable::getArrayLength`: fold of the source loop (`highest` starts at
-1; every child whose name passes `isNumber` contributes `atoi(name)`). -/
def Value.getArrayLength (v : Value) : Int :=
  if !v.isArray then 0
  else (v.children.foldl
    (fun highest p =>
      if isNumberStr p.1 then
        (if atoiDigits p.1 > highest then atoiDigits p.1 else highest)
      else highest) (-1)) + 1

-- ------------------------------------------------------------------
-- getJSString / getParsableString
-- ------------------------------------------------------------------

def hexDigitUpper (n : Nat) : Char :=
  if n < 10 then Char.ofNat (48 + n) else Char.ofNat (55 + n)

/-- Replacement text for one character in `getJSString`.  The C loop edits
the string in place and skips over the inserted replacement, so its net
effect is exactly this per-character expansion. -/
def escC (c : Char) : List Char :=
  if c = '\\' then cl ("\\\\")
  else if c = '\n' then cl ("\\n")
  else if c = '\r' then cl ("\\r")
  else if c = Char.ofNat 7 then ['\\', 'a']
  else if c = '"' then cl ("\\\"")
  else
    let n := c.toNat &&& 255
    if n < 32 || n > 127 then ['\\', 'x', hexDigitUpper (n / 16), hexDigitUpper (n % 16)]
    else [c]

/-- `getJSString`: quote and escape a string for JavaScript source. -/
def getJSString (s : List Char) : List Char :=
  '"' :: (s.map escC).flatten ++ ['"']

/-- Parameter names joined with commas (the loop in `getParsableString`). -/
def joinNames : List (List Char × Value) → List Char
  | [] => []
  | [(n, _)] => n
  | (n, _) :: rest => n ++ ',' :: joinNames rest

/-- `Variable::getParsableString`. -/
def Value.getParsableString (v : Value) : List Char :=
  if v.isNumeric then v.getString
  else if v.isFunction then
    cl ("function (") ++ joinNames v.children ++ cl (") ") ++ v.getString
  else if v.isString then getJSString v.getString
  else if v.isNull then cl ("null")
  else cl ("undefined")

-- ------------------------------------------------------------------
-- mathsOp (Variable::mathsOp) and equals
-- ------------------------------------------------------------------

/-- Lexicographic `<` on C++ `std::string` (by character code). -/
def strLt : List Char → List Char → Bool
  | [], [] => false
  | [], _ :: _ => true
  | _ :: _, [] => false
  | a :: as, b :: bs => if a = b then strLt as bs else decide (a < b)

/-- The branches of `Variable::mathsOp` other than the strict-equality
handling at its top.  They are split into their own definition so that the
single recursive call of the source (`a->mathsOp(b, LEXER_EQUAL)` inside
the `===`/`!==` branch) can be expressed without recursion: that call
re-enters with `op = LEXER_EQUAL`, which necessarily lands in these
branches (`mathsOp_nonTypeEq` below records this).  `mathsOp` glues the
two parts together exactly as the source.  `sameRef` is the
pointer-identity bit `a == b` that the source consults in the array/object
branches; it is the only information about node identity the function
uses, and the recursive call passes the same two nodes, hence the same
`sameRef`. -/
def mathsOpF (a b : Value) (op : Nat) (sameRef : Bool) : MRes Value :=
  if a.isUndefined && b.isUndefined then
    if op = LEXER_EQUAL then .ok (mkBool true)
    else if op = LEXER_NEQUAL then .ok (mkBool false)
    else .ok blankVar
  else if (a.isNumeric || a.isUndefined) && (b.isNumeric || b.isUndefined) then
    if !a.isDouble && !b.isDouble then
      -- use ints
      let da := a.getInt
      let db := b.getInt
      if op = chTok '+' then .ok (mkInt (wrap32 (da + db)))
      else if op = chTok '-' then .ok (mkInt (wrap32 (da - db)))
      else if op = chTok '*' then .ok (mkInt (wrap32 (da * db)))
      else if op = chTok '/' then
        if db = 0 then .trap else .ok (mkInt (wrap32 (Int.tdiv da db)))
      else if op = chTok '&' then .ok (mkInt (intAnd da db))
      else if op = chTok '|' then .ok (mkInt (intOr da db))
      else if op = chTok '^' then .ok (mkInt (intXor da db))
      else if op = chTok '%' then
        if db = 0 then .trap else .ok (mkInt (wrap32 (Int.tmod da db)))
      else if op = LEXER_EQUAL then .ok (mkBool (da = db))
      else if op = LEXER_NEQUAL then .ok (mkBool (da ≠ db))
      else if op = chTok '<' then .ok (mkBool (da < db))
      else if op = LEXER_LEQUAL then .ok (mkBool (da ≤ db))
      else if op = chTok '>' then .ok (mkBool (da > db))
      else if op = LEXER_GEQUAL then .ok (mkBool (da ≥ db))
      else .exn (.notSupported op (cl ("Int")))
    else
      -- use doubles
      let da := a.getDouble
      let db := b.getDouble
      if op = chTok '+' then .ok (mkDouble (da + db))
      else if op = chTok '-' then .ok (mkDouble (da - db))
      else if op = chTok '*' then .ok (mkDouble (da * db))
      else if op = chTok '/' then .ok (mkDouble (da / db))
      else if op = LEXER_EQUAL then .ok (mkBool (da = db))
      else if op = LEXER_NEQUAL then .ok (mkBool (da ≠ db))
      else if op = chTok '<' then .ok (mkBool (da < db))
      else if op = LEXER_LEQUAL then .ok (mkBool (da ≤ db))
      else if op = chTok '>' then .ok (mkBool (da > db))
      else if op = LEXER_GEQUAL then .ok (mkBool (da ≥ db))
      else .exn (.notSupported op (cl ("Double")))
  else if a.isArray then
    -- just check pointers
    if op = LEXER_EQUAL then .ok (mkBool sameRef)
    else if op = LEXER_NEQUAL then .ok (mkBool (!sameRef))
    else .exn (.notSupported op (cl ("Array")))
  else if a.isObject then
    -- just check pointers
    if op = LEXER_EQUAL then .ok (mkBool sameRef)
    else if op = LEXER_NEQUAL then .ok (mkBool (!sameRef))
    else .exn (.notSupported op (cl ("Object")))
  else
    let da := a.getString
    let db := b.getString
    -- use strings
    if op = chTok '+' then .ok (mkStr (da ++ db))
    else if op = LEXER_EQUAL then .ok (mkBool (da = db))
    else if op = LEXER_NEQUAL then .ok (mkBool (da ≠ db))
    else if op = chTok '<' then .ok (mkBool (strLt da db))
    else if op = LEXER_LEQUAL then .ok (mkBool (!strLt db da))
    else if op = chTok '>' then .ok (mkBool (strLt db da))
    else if op = LEXER_GEQUAL then .ok (mkBool (!strLt da db))
    else .exn (.notSupported op (cl ("string")))

/-- `Variable::mathsOp`.  See `mathsOpF` for the split of the recursion. -/
def mathsOp (a b : Value) (op : Nat) (sameRef : Bool) : MRes Value :=
  if op = LEXER_TYPEEQUAL ∨ op = LEXER_NTYPEEQUAL then
    -- check type first, then call again to check data
    if (a.flags &&& VARIABLE_TYPEMASK) = (b.flags &&& VARIABLE_TYPEMASK) then
      match mathsOpF a b LEXER_EQUAL sameRef with
      | .ok contents =>
          let eql := contents.getBool
          .ok (mkBool (if op = LEXER_TYPEEQUAL then eql else !eql))
      | .exn e => .exn e
      | .trap => .trap
    else
      .ok (mkBool (if op = LEXER_TYPEEQUAL then false else true))
  else mathsOpF a b op sameRef

/-- For any operator other than `===`/`!==`, `mathsOp` is `mathsOpF`; in
particular the recursive call of the source with `LEXER_EQUAL` is exactly
the `mathsOpF` call appearing in the `===` branch above. -/
theorem mathsOp_nonTypeEq (a b : Value) (op : Nat) (s : Bool)
    (h : ¬(op = LEXER_TYPEEQUAL ∨ op = LEXER_NTYPEEQUAL)) :
    mathsOp a b op s = mathsOpF a b op s := by
  simp [mathsOp, h]

/-- `Variable::equals`: run `==` via `mathsOp` and read the boolean.  The
`==` operation never throws (see `mathsOp_eq_ok` below), so the default
arm is unreachable. -/
def equalsFn (a b : Value) (sameRef : Bool) : Bool :=
  match mathsOp a b LEXER_EQUAL sameRef with
  | .ok v => v.getBool
  | _ => false

-- ------------------------------------------------------------------
-- deepCopy (Variable::deepCopy)
-- ------------------------------------------------------------------

/-- The name of the prototype child, shared (not cloned) by `deepCopy`. -/
def protoName : List Char := cl ("prototype")

mutual

/-- `Variable::deepCopy`: `newVar = new Variable()` (flags 0), then
`copySimpleData` (scalar fields copied, `flags = (0 & ~TYPEMASK) |
(src.flags & TYPEMASK)`), then the child loop. -/
def deepCopy : Value → Value
  | .mk f i d s cs => deepCopyLoop (.mk (f &&& VARIABLE_TYPEMASK) i d s []) cs

/-- The child loop of `deepCopy`: every child is deep-copied and appended
with `addChild`, except a child named `prototype`, whose target is shared. -/
def deepCopyLoop (acc : Value) : List (List Char × Value) → Value
  | [] => acc
  | (n, c) :: rest =>
      deepCopyLoop (acc.addChild n (if n = protoName then c else deepCopy c)) rest

end

/-- The per-child action of `deepCopy`, used to state its specification. -/
def deepCopyChild (p : List Char × Value) : List Char × Value :=
  (p.1, if p.1 = protoName then p.2 else deepCopy p.2)

mutual

/-- Well-formedness of value nodes as produced by the interpreter API: a
node whose type mask is undefined has no children (`addChild` promotes an
undefined receiver to an object, and `setUndefined` clears the child list). -/
def wfV : Value → Bool
  | .mk f _ _ _ cs => (f &&& VARIABLE_TYPEMASK != 0 || cs.isEmpty) && wfChildren cs

/-- Well-formedness of a child list. -/
def wfChildren : List (List Char × Value) → Bool
  | [] => true
  | (_, c) :: rest => wfV c && wfChildren rest

end

-- ------------------------------------------------------------------
-- Postfix ++/-- (Interpreter::expression, lines 1760-1784)
-- ------------------------------------------------------------------

/-- The executed part of the postfix `++`/`--` branch of
`Interpreter::expression`:

```
Variable one(1);
Variable *res = a->var->mathsOp(&one, op==LEXER_PLUSPLUS ? '+' : '-');
VariableLink *oldValue = new VariableLink(a->var);
a->replaceWith(res);            // the link now holds the new value
CLEAN(a);
a = oldValue;                   // the expression result is the OLD value
```

Given the current target `v` of the link `a`, the returned pair is
(the new target stored into the link, the value returned as the result of
the expression).  `one` is a fresh node, so `sameRef` is `false`. -/
def postIncDecStep (v : Value) (inc : Bool) : MRes (Value × Value) :=
  match mathsOp v (mkInt 1) (if inc then chTok '+' else chTok '-') false with
  | .ok res => .ok (res, v)
  | .exn e => .exn e
  | .trap => .trap

-- ------------------------------------------------------------------
-- Bitmask helper lemmas
-- ------------------------------------------------------------------

/-- Masking with a submask of `VARIABLE_TYPEMASK` factors through the type
mask: if `f &&& 127 = t` then `f &&& m = t &&& m` for any `m ⊆ 127`. -/
theorem and_of_typemask (f m t : Nat) (h : f &&& 127 = t) (hm : 127 &&& m = m) :
    f &&& m = t &&& m := by
  have h1 : f &&& m = f &&& 127 &&& m := by
    rw [Nat.and_assoc, hm]
  rw [h1, h]

/-- A numeric node is not undefined (`NUMERICMASK ⊆ TYPEMASK`). -/
theorem not_undefined_of_isNumeric (v : Value) (h : v.isNumeric = true) :
    v.isUndefined = false := by
  simp only [Value.isNumeric, VARIABLE_NUMERICMASK, VARIABLE_NULL, VARIABLE_DOUBLE,
    VARIABLE_INTEGER, (by decide : (64 ||| 8 ||| 16 : Nat) = 88), bne_iff_ne, ne_eq] at h
  simp only [Value.isUndefined, VARIABLE_TYPEMASK, VARIABLE_DOUBLE, VARIABLE_INTEGER,
    VARIABLE_STRING, VARIABLE_FUNCTION, VARIABLE_OBJECT, VARIABLE_ARRAY, VARIABLE_NULL,
    (by decide : (8 ||| 16 ||| 32 ||| 1 ||| 2 ||| 4 ||| 64 : Nat) = 127), beq_iff_eq]
  norm_num
  intro h0
  apply h
  have h1 : v.flags &&& 88 = v.flags &&& 127 &&& 88 := by
    rw [Nat.and_assoc, (by decide : (127 &&& 88 : Nat) = 88)]
  rw [h1, h0]
  decide

-- ------------------------------------------------------------------
-- Character-code facts used to evaluate the operator dispatch
-- ------------------------------------------------------------------

theorem chPlus : ('+').toNat = 43 := rfl
theorem chMinus : ('-').toNat = 45 := rfl
theorem chStar : ('*').toNat = 42 := rfl
theorem chSlash : ('/').toNat = 47 := rfl
theorem chAmp : ('&').toNat = 38 := rfl
theorem chBar : ('|').toNat = 124 := rfl
theorem chCaret : ('^').toNat = 94 := rfl
theorem chPercent : ('%').toNat = 37 := rfl
theorem chLt : ('<').toNat = 60 := rfl
theorem chGt : ('>').toNat = 62 := rfl

/-- `==` through `mathsOp` never throws and never traps: every branch of
`mathsOpF` defines the `LEXER_EQUAL` operator. -/
theorem mathsOpF_eq_isOk (a b : Value) (s : Bool) :
    ∃ v, mathsOpF a b LEXER_EQUAL s = .ok v := by
  unfold mathsOpF
  simp only [LEXER_EQUAL, LEXER_NEQUAL, LEXER_LEQUAL, LEXER_GEQUAL, chTok,
    chPlus, chMinus, chStar, chSlash, chAmp, chBar, chCaret, chPercent, chLt, chGt]
  norm_num
  repeat' split
  all_goals exact ⟨_, rfl⟩

-- ------------------------------------------------------------------
-- Claim C1
-- ------------------------------------------------------------------

/-- C1, amended.  For numeric values `a` and `b`, `mathsOp` follows the
numeric typing rule: on the integer path (neither operand double-typed) the
operators `+ - * & | ^` always produce an integer-typed value, and `/ %`
produce an integer-typed value **when the right operand's integer value is
nonzero**; with a zero divisor the source performs an unguarded machine
division by zero (undefined behaviour, embedded as `.trap`), so the claim's
unconditional "the result Value is integer-typed" had to be weakened for
`/` and `%`.  On the double path (at least one operand double-typed) the
operators `+ - * /` produce a double-typed value and `% & | ^` raise the
"operation not supported" error, as claimed. -/
theorem claim_C1_amended (a b : Value) (op : Nat) (s : Bool)
    (ha : a.isNumeric = true) (hb : b.isNumeric = true) :
    (a.isDouble = false → b.isDouble = false →
      ((op = chTok '+' ∨ op = chTok '-' ∨ op = chTok '*' ∨
        op = chTok '&' ∨ op = chTok '|' ∨ op = chTok '^') →
        ∃ i, mathsOp a b op s = .ok (mkInt i))
      ∧ ((op = chTok '/' ∨ op = chTok '%') → b.getInt ≠ 0 →
        ∃ i, mathsOp a b op s = .ok (mkInt i))
      ∧ ((op = chTok '/' ∨ op = chTok '%') → b.getInt = 0 →
        mathsOp a b op s = .trap))
    ∧ ((a.isDouble = true ∨ b.isDouble = true) →
      ((op = chTok '+' ∨ op = chTok '-' ∨ op = chTok '*' ∨ op = chTok '/') →
        ∃ q, mathsOp a b op s = .ok (mkDouble q))
      ∧ ((op = chTok '%' ∨ op = chTok '&' ∨ op = chTok '|' ∨ op = chTok '^') →
        mathsOp a b op s = .exn (.notSupported op (cl ("Double"))))) := by
  have hua := not_undefined_of_isNumeric a ha
  have hub := not_undefined_of_isNumeric b hb
  constructor
  · intro hda hdb
    refine ⟨?_, ?_, ?_⟩
    · rintro (rfl | rfl | rfl | rfl | rfl | rfl) <;>
        · unfold mathsOp mathsOpF
          simp [LEXER_TYPEEQUAL, LEXER_NTYPEEQUAL, LEXER_EQUAL, LEXER_NEQUAL, LEXER_LEQUAL,
            LEXER_GEQUAL, hua, hub, ha, hb, hda, hdb, chTok,
            chPlus, chMinus, chStar, chSlash, chAmp, chBar, chCaret, chPercent, chLt, chGt]
    · rintro (rfl | rfl) hz <;>
        · unfold mathsOp mathsOpF
          simp [LEXER_TYPEEQUAL, LEXER_NTYPEEQUAL, LEXER_EQUAL, LEXER_NEQUAL, LEXER_LEQUAL,
            LEXER_GEQUAL, hua, hub, ha, hb, hda, hdb, hz, chTok,
            chPlus, chMinus, chStar, chSlash, chAmp, chBar, chCaret, chPercent, chLt, chGt]
    · rintro (rfl | rfl) hz <;>
        · unfold mathsOp mathsOpF
          simp [LEXER_TYPEEQUAL, LEXER_NTYPEEQUAL, LEXER_EQUAL, LEXER_NEQUAL, LEXER_LEQUAL,
            LEXER_GEQUAL, hua, hub, ha, hb, hda, hdb, hz, chTok,
            chPlus, chMinus, chStar, chSlash, chAmp, chBar, chCaret, chPercent, chLt, chGt]
  · intro hd
    have hdd : (!a.isDouble && !b.isDouble) = false := by
      rcases hd with h | h <;> simp [h]
    constructor
    · rintro (rfl | rfl | rfl | rfl) <;>
        · unfold mathsOp mathsOpF
          simp [LEXER_TYPEEQUAL, LEXER_NTYPEEQUAL, LEXER_EQUAL, LEXER_NEQUAL, LEXER_LEQUAL,
            LEXER_GEQUAL, hua, hub, ha, hb, hdd, chTok,
            chPlus, chMinus, chStar, chSlash, chAmp, chBar, chCaret, chPercent, chLt, chGt]
    · rintro (rfl | rfl | rfl | rfl) <;>
        · unfold mathsOp mathsOpF
          simp [LEXER_TYPEEQUAL, LEXER_NTYPEEQUAL, LEXER_EQUAL, LEXER_NEQUAL, LEXER_LEQUAL,
            LEXER_GEQUAL, hua, hub, ha, hb, hdd, chTok,
            chPlus, chMinus, chStar, chSlash, chAmp, chBar, chCaret, chPercent, chLt, chGt]

/-- C1 counterexample.  The claim states that for *every* two numeric
values the integer-path operators (including `/` and `%`) produce an
integer-typed result.  At `a = 1`, `b = 0`, `op = '/'` both operands are
numeric and neither is a double, yet the source reaches the unguarded
`da/db` — a machine division by zero (undefined behaviour, `.trap`), not
an integer-typed result value. -/
theorem claim_C1_counterexample :
    (mkInt 1).isNumeric = true ∧ (mkInt 0).isNumeric = true ∧
    (mkInt 1).isDouble = false ∧ (mkInt 0).isDouble = false ∧
    mathsOp (mkInt 1) (mkInt 0) (chTok '/') false = .trap :=
  ⟨rfl, rfl, rfl, rfl, rfl⟩

/-- Witness for `claim_C1_amended` at concrete inputs. -/
theorem claim_C1_witness :
    (∃ i, mathsOp (mkInt 7) (mkInt 2) (chTok '+') false = .ok (mkInt i)) ∧
    (∃ i, mathsOp (mkInt 7) (mkInt 2) (chTok '/') false = .ok (mkInt i)) ∧
    (∃ q, mathsOp (mkDouble 1) (mkInt 2) (chTok '+') false = .ok (mkDouble q)) ∧
    mathsOp (mkDouble 1) (mkInt 2) (chTok '%') false =
      .exn (.notSupported (chTok '%') (cl ("Double"))) := by
  refine ⟨?_, ?_, ?_, ?_⟩
  · exact (((claim_C1_amended (mkInt 7) (mkInt 2) (chTok '+') false (by decide)
      (by decide)).1 (by decide) (by decide)).1 (Or.inl rfl))
  · exact (((claim_C1_amended (mkInt 7) (mkInt 2) (chTok '/') false (by decide)
      (by decide)).1 (by decide) (by decide)).2.1 (Or.inl rfl) (by decide))
  · exact (((claim_C1_amended (mkDouble 1) (mkInt 2) (chTok '+') false (by decide)
      (by decide)).2 (Or.inl (by decide))).1 (Or.inl rfl))
  · exact (((claim_C1_amended (mkDouble 1) (mkInt 2) (chTok '%') false (by decide)
      (by decide)).2 (Or.inl (by decide))).2 (Or.inl rfl))

-- ------------------------------------------------------------------
-- Strict equality characterization (used by claim C2)
-- ------------------------------------------------------------------

/-- `===` computes: type-tag subsets equal AND the recursive `==` true. -/
theorem mathsOp_typeEq_spec (a b : Value) (s : Bool) :
    mathsOp a b LEXER_TYPEEQUAL s =
      .ok (mkBool ((a.flags &&& VARIABLE_TYPEMASK == b.flags &&& VARIABLE_TYPEMASK)
        && equalsFn a b s)) := by
  obtain ⟨v, hv⟩ := mathsOpF_eq_isOk a b s
  have he : equalsFn a b s = v.getBool := by
    unfold equalsFn
    rw [mathsOp_nonTypeEq a b LEXER_EQUAL s (by decide), hv]
  unfold mathsOp
  rw [if_pos (Or.inl rfl)]
  by_cases htm : (a.flags &&& VARIABLE_TYPEMASK) = (b.flags &&& VARIABLE_TYPEMASK)
  · have hb : (a.flags &&& VARIABLE_TYPEMASK == b.flags &&& VARIABLE_TYPEMASK) = true := by
      simpa using htm
    rw [if_pos htm, hv]
    simp [he, hb, LEXER_TYPEEQUAL]
  · have hb : (a.flags &&& VARIABLE_TYPEMASK == b.flags &&& VARIABLE_TYPEMASK) = false := by
      simpa using htm
    rw [if_neg htm]
    simp [hb, LEXER_TYPEEQUAL]

/-- `!==` is the negation of `===`. -/
theorem mathsOp_ntypeEq_spec (a b : Value) (s : Bool) :
    mathsOp a b LEXER_NTYPEEQUAL s =
      .ok (mkBool (!((a.flags &&& VARIABLE_TYPEMASK == b.flags &&& VARIABLE_TYPEMASK)
        && equalsFn a b s))) := by
  obtain ⟨v, hv⟩ := mathsOpF_eq_isOk a b s
  have he : equalsFn a b s = v.getBool := by
    unfold equalsFn
    rw [mathsOp_nonTypeEq a b LEXER_EQUAL s (by decide), hv]
  unfold mathsOp
  rw [if_pos (Or.inr rfl)]
  by_cases htm : (a.flags &&& VARIABLE_TYPEMASK) = (b.flags &&& VARIABLE_TYPEMASK)
  · have hb : (a.flags &&& VARIABLE_TYPEMASK == b.flags &&& VARIABLE_TYPEMASK) = true := by
      simpa using htm
    rw [if_pos htm, hv]
    simp [he, hb, LEXER_TYPEEQUAL, LEXER_NTYPEEQUAL]
  · have hb : (a.flags &&& VARIABLE_TYPEMASK == b.flags &&& VARIABLE_TYPEMASK) = false := by
      simpa using htm
    rw [if_neg htm]
    simp [hb, LEXER_TYPEEQUAL, LEXER_NTYPEEQUAL]

-- ------------------------------------------------------------------
-- deepCopy characterization (claim C5)
-- ------------------------------------------------------------------

/-- Projections of `addChild`. -/
theorem addChild_eq (v : Value) (n : List Char) (c : Value) :
    v.addChild n c =
      .mk (if v.isUndefined then VARIABLE_OBJECT else v.flags)
        v.intData v.doubleData v.data (v.children ++ [(n, c)]) := by
  cases v
  simp [Value.addChild, Value.isUndefined, Value.flags, Value.intData, Value.doubleData,
    Value.data, Value.children]

/-- The `deepCopy` child loop appends the per-child copies to the
accumulator, leaving its scalar fields alone (the accumulator is never
undefined here, so `addChild` does not promote it). -/
theorem deepCopyLoop_spec (cs : List (List Char × Value)) (acc : Value)
    (hacc : acc.isUndefined = false) :
    deepCopyLoop acc cs =
      .mk acc.flags acc.intData acc.doubleData acc.data
        (acc.children ++ cs.map deepCopyChild) := by
  induction cs generalizing acc with
  | nil =>
      cases acc
      simp [deepCopyLoop, Value.flags, Value.intData, Value.doubleData, Value.data,
        Value.children]
  | cons p rest ih =>
      obtain ⟨n, c⟩ := p
      rw [deepCopyLoop, addChild_eq, hacc]
      simp only [Bool.false_eq_true, if_false]
      have hacc2 : (Value.mk acc.flags acc.intData acc.doubleData acc.data
          (acc.children ++ [(n, if n = protoName then c else deepCopy c)])).isUndefined = false := by
        simpa [Value.isUndefined, Value.flags] using hacc
      rw [ih _ hacc2]
      simp [Value.flags, Value.intData, Value.doubleData, Value.data, Value.children,
        deepCopyChild]

/-- Closed form of `deepCopy` on well-formed nodes: scalar fields copied,
flags masked with the type mask, children mapped with `deepCopyChild`. -/
theorem deepCopy_spec (v : Value) (hwf : wfV v = true) :
    deepCopy v = .mk (v.flags &&& VARIABLE_TYPEMASK) v.intData v.doubleData v.data
      (v.children.map deepCopyChild) := by
  obtain ⟨f, i, d, s, cs⟩ := v
  rw [deepCopy]
  simp only [Value.flags, Value.intData, Value.doubleData, Value.data, Value.children]
  by_cases htm : f &&& VARIABLE_TYPEMASK = 0
  · have hcs : cs = [] := by
      rw [wfV] at hwf
      simp only [Bool.and_eq_true, Bool.or_eq_true, bne_iff_ne, ne_eq] at hwf
      rcases hwf.1 with h | h
      · exact absurd htm h
      · exact List.isEmpty_iff.mp h
    subst hcs
    simp [deepCopyLoop]
  · rw [deepCopyLoop_spec]
    · simp [Value.flags, Value.intData, Value.doubleData, Value.data, Value.children]
    · have h2 : (f &&& VARIABLE_TYPEMASK) &&& VARIABLE_TYPEMASK = f &&& VARIABLE_TYPEMASK := by
        rw [Nat.and_assoc,
          (by decide : (VARIABLE_TYPEMASK &&& VARIABLE_TYPEMASK : Nat) = VARIABLE_TYPEMASK)]
      simp [Value.isUndefined, Value.flags, h2, htm]

/-- Predicates and readers of a node agree with any node whose flags are
the source's flags masked with `VARIABLE_TYPEMASK` and whose scalar fields
are equal. -/
theorem masked_same (v w : Value) (hf : w.flags = v.flags &&& VARIABLE_TYPEMASK)
    (hi : w.intData = v.intData) (hd : w.doubleData = v.doubleData)
    (hs : w.data = v.data) :
    w.isInt = v.isInt ∧ w.isDouble = v.isDouble ∧ w.isNull = v.isNull ∧
    w.isUndefined = v.isUndefined ∧ w.isNumeric = v.isNumeric ∧
    w.getInt = v.getInt ∧ w.getDouble = v.getDouble ∧ w.getString = v.getString := by
  have hf127 : w.flags = v.flags &&& 127 := by
    rw [hf, (by decide : (VARIABLE_TYPEMASK : Nat) = 127)]
  have key : ∀ m : Nat, 127 &&& m = m → v.flags &&& 127 &&& m = v.flags &&& m := by
    intro m hm
    rw [Nat.and_assoc, hm]
  have k16 := key 16 (by decide)
  have k8 := key 8 (by decide)
  have k64 := key 64 (by decide)
  have k127 := key 127 (by decide)
  have k88 := key 88 (by decide)
  have hmask88 : (VARIABLE_NUMERICMASK : Nat) = 88 := by decide
  have hmask127 : (VARIABLE_TYPEMASK : Nat) = 127 := by decide
  have hmask16 : (VARIABLE_INTEGER : Nat) = 16 := by decide
  have hmask8 : (VARIABLE_DOUBLE : Nat) = 8 := by decide
  have hmask64 : (VARIABLE_NULL : Nat) = 64 := by decide
  have hInt : w.isInt = v.isInt := by
    simp only [Value.isInt, hf127, hmask16, k16]
  have hDouble : w.isDouble = v.isDouble := by
    simp only [Value.isDouble, hf127, hmask8, k8]
  have hNull : w.isNull = v.isNull := by
    simp only [Value.isNull, hf127, hmask64, k64]
  have hUndef : w.isUndefined = v.isUndefined := by
    simp only [Value.isUndefined, hf127, hmask127, k127]
  have hNum : w.isNumeric = v.isNumeric := by
    simp only [Value.isNumeric, hf127, hmask88, k88]
  have hGetInt : w.getInt = v.getInt := by
    simp only [Value.getInt, hInt, hNull, hUndef, hDouble, hi, hd]
  have hGetDouble : w.getDouble = v.getDouble := by
    simp only [Value.getDouble, hInt, hNull, hUndef, hDouble, hi, hd]
  have hGetString : w.getString = v.getString := by
    simp only [Value.getString, hInt, hNull, hUndef, hDouble, hi, hd, hs]
  exact ⟨hInt, hDouble, hNull, hUndef, hNum, hGetInt, hGetDouble, hGetString⟩

/-- On a non-array non-object receiver, `==` between a node and its deep
copy evaluates to the true boolean. -/
theorem mathsOpF_eq_deepCopy (v : Value) (hwf : wfV v = true)
    (hA : v.isArray = false) (hO : v.isObject = false) :
    mathsOpF v (deepCopy v) LEXER_EQUAL false = .ok (mkBool true) := by
  have hd := deepCopy_spec v hwf
  have hproj : (deepCopy v).flags = v.flags &&& VARIABLE_TYPEMASK ∧
      (deepCopy v).intData = v.intData ∧ (deepCopy v).doubleData = v.doubleData ∧
      (deepCopy v).data = v.data := by
    rw [hd]
    simp [Value.flags, Value.intData, Value.doubleData, Value.data]
  obtain ⟨hInt, hDouble, hNull, hUndef, hNum, hGetInt, hGetDouble, hGetString⟩ :=
    masked_same v (deepCopy v) hproj.1 hproj.2.1 hproj.2.2.1 hproj.2.2.2
  unfold mathsOpF
  simp only [LEXER_EQUAL, LEXER_NEQUAL, LEXER_LEQUAL, LEXER_GEQUAL, chTok,
    chPlus, chMinus, chStar, chSlash, chAmp, chBar, chCaret, chPercent, chLt, chGt,
    hUndef, hNum, hDouble, hGetInt, hGetDouble, hGetString]
  norm_num
  by_cases hu : v.isUndefined = true
  · simp [hu]
  · have hu2 : v.isUndefined = false := by simpa using hu
    simp only [hu2, Bool.and_false, Bool.false_eq_true, if_false]
    by_cases hn : v.isNumeric = true
    · simp [hn, hA, hO]
    · have hn2 : v.isNumeric = false := by simpa using hn
      simp [hn2, hu2, hA, hO]

/-- C5, amended.  `deep_copy` copies the type tag and the scalar fields
and maps the per-child copy over the child list, sharing (not cloning) the
`prototype` child — exactly as claimed.  But `equals(v, deep_copy(v))`
holds only for values whose type is not object and not array: for those
two types `==` in `mathsOp` compares *pointer identity* (`a==b` on the C
nodes), and the copy is a freshly allocated node distinct from the
original, so `equals` is false there.  (`wfV` excludes only nodes
unreachable through the source API: an undefined-typed node that has
children.) -/
theorem claim_C5_amended (v : Value) (hwf : wfV v = true) :
    ((deepCopy v).flags = v.flags &&& VARIABLE_TYPEMASK
      ∧ (deepCopy v).intData = v.intData
      ∧ (deepCopy v).doubleData = v.doubleData
      ∧ (deepCopy v).data = v.data
      ∧ (deepCopy v).children = v.children.map deepCopyChild)
    ∧ (v.isArray = false → v.isObject = false →
        equalsFn v (deepCopy v) false = true) := by
  constructor
  · rw [deepCopy_spec v hwf]
    simp [Value.flags, Value.intData, Value.doubleData, Value.data, Value.children]
  · intro hA hO
    unfold equalsFn
    rw [mathsOp_nonTypeEq v (deepCopy v) LEXER_EQUAL false (by decide),
      mathsOpF_eq_deepCopy v hwf hA hO]
    decide

/-- C5 counterexample.  For the (tree-shaped, shared-subgraph-free) object
value `{}` the claim asserts `equals(v, deep_copy(v))`; it is *false*:
the object branch of `mathsOp`'s `==` compares pointer identity, and the
copy is a distinct node. -/
theorem claim_C5_counterexample :
    wfV (Value.mk VARIABLE_OBJECT 0 0 [] []) = true ∧
    equalsFn (Value.mk VARIABLE_OBJECT 0 0 [] [])
      (deepCopy (Value.mk VARIABLE_OBJECT 0 0 [] [])) false = false := by
  constructor
  · decide
  · rw [deepCopy, deepCopyLoop]
    decide

/-- Witness for `claim_C5_amended` at the concrete value `5`. -/
theorem claim_C5_witness :
    wfV (mkInt 5) = true ∧ (mkInt 5).isArray = false ∧ (mkInt 5).isObject = false ∧
    equalsFn (mkInt 5) (deepCopy (mkInt 5)) false = true :=
  ⟨by decide, by decide, by decide,
    (claim_C5_amended (mkInt 5) (by decide)).2 (by decide) (by decide)⟩


-- ------------------------------------------------------------------
-- Claim C6 (postfix ++/--)
-- ------------------------------------------------------------------

/-- C6, amended.  For a variable holding a numeric value, postfix `++`
(`--`) stores the incremented (decremented) value into the variable's
link, but the expression's result is the **old** value, not the new one:
the source captures `oldValue` *before* `a->replaceWith(res)` and returns
it.  (The stale NOTE at the top of TinyJS.cpp — "returns the current
value" — describes the pre-0.31 behaviour; the spec repeated it.)  The
pair returned by `postIncDecStep` is (new stored value, expression
result). -/
theorem claim_C6_amended (v : Value) (hnum : v.isNumeric = true) :
    (v.isDouble = false →
      postIncDecStep v true = .ok (mkInt (wrap32 (v.getInt + 1)), v)
      ∧ postIncDecStep v false = .ok (mkInt (wrap32 (v.getInt - 1)), v))
    ∧ (v.isDouble = true →
      postIncDecStep v true = .ok (mkDouble (v.getDouble + 1), v)
      ∧ postIncDecStep v false = .ok (mkDouble (v.getDouble - 1), v)) := by
  have hua := not_undefined_of_isNumeric v hnum
  have h1u : (mkInt 1).isUndefined = false := by decide
  have h1n : (mkInt 1).isNumeric = true := by decide
  have h1d : (mkInt 1).isDouble = false := by decide
  have h1i : (mkInt 1).getInt = 1 := by decide
  have h1q : (mkInt 1).getDouble = 1 := by decide
  constructor
  · intro hdv
    constructor <;>
      · unfold postIncDecStep
        rw [mathsOp_nonTypeEq _ _ _ _ (by decide)]
        unfold mathsOpF
        simp only [LEXER_EQUAL, LEXER_NEQUAL, LEXER_LEQUAL, LEXER_GEQUAL, chTok,
          chPlus, chMinus, chStar, chSlash, chAmp, chBar, chCaret, chPercent, chLt, chGt,
          hua, hnum, hdv, h1u, h1n, h1d, h1i, h1q]
        norm_num
  · intro hdv
    constructor <;>
      · unfold postIncDecStep
        rw [mathsOp_nonTypeEq _ _ _ _ (by decide)]
        unfold mathsOpF
        simp only [LEXER_EQUAL, LEXER_NEQUAL, LEXER_LEQUAL, LEXER_GEQUAL, chTok,
          chPlus, chMinus, chStar, chSlash, chAmp, chBar, chCaret, chPercent, chLt, chGt,
          hua, hnum, hdv, h1u, h1n, h1d, h1i, h1q]
        norm_num

/-- C6 counterexample.  For `x` holding the integer 5, `x++` stores 6 into
the variable but the expression's result is the value 5 — the claim says
the result is the new value 6, which is false. -/
theorem claim_C6_counterexample :
    postIncDecStep (mkInt 5) true = .ok (mkInt 6, mkInt 5) ∧
    (mkInt 5).getInt = 5 ∧ (mkInt 6).getInt = 6 ∧ (5 : Int) ≠ 6 :=
  ⟨rfl, rfl, rfl, by decide⟩

/-- Witness for `claim_C6_amended` at the concrete value 5. -/
theorem claim_C6_witness :
    postIncDecStep (mkInt 5) true = .ok (mkInt (wrap32 ((mkInt 5).getInt + 1)), mkInt 5) :=
  ((claim_C6_amended (mkInt 5) (by decide)).1 (by decide)).1

-- ------------------------------------------------------------------
-- Claim C7 (getArrayLength)
-- ------------------------------------------------------------------

/-- The `atoi` values of the numeric-named children (in sibling order). -/
def numericChildVals (v : Value) : List Int :=
  (v.children.filter (fun p => isNumberStr p.1)).map (fun p => atoiDigits p.1)

theorem atoiDigits_nonneg (s : List Char) : 0 ≤ atoiDigits s := by
  have key : ∀ (l : List Char) (acc : Int), 0 ≤ acc →
      0 ≤ l.foldl (fun acc c => acc * 10 + Int.ofNat (c.toNat - 48)) acc := by
    intro l
    induction l with
    | nil => intro acc h; simpa using h
    | cons c rest ih =>
        intro acc h
        simp only [List.foldl_cons]
        exact ih _ (add_nonneg (mul_nonneg h (by norm_num)) (Int.ofNat_nonneg _))
  exact key s 0 le_rfl

/-- The source loop (`highest` starting at -1) computes a left fold of
`max` over the numeric-named children's `atoi` values. -/
theorem arrayLength_fold (cs : List (List Char × Value)) (h0 : Int) :
    cs.foldl
      (fun highest p =>
        if isNumberStr p.1 then
          (if atoiDigits p.1 > highest then atoiDigits p.1 else highest)
        else highest) h0 =
    ((cs.filter (fun p => isNumberStr p.1)).map (fun p => atoiDigits p.1)).foldl max h0 := by
  induction cs generalizing h0 with
  | nil => rfl
  | cons p rest ih =>
      by_cases hp : isNumberStr p.1 = true
      · simp only [List.foldl_cons, List.filter_cons, hp, if_pos, List.map_cons]
        rw [ih]
        congr 1
        rcases lt_or_le h0 (atoiDigits p.1) with h | h
        · rw [if_pos h, max_eq_right h.le]
        · rw [if_neg (not_lt.mpr h), max_eq_left h]
      · simp only [List.foldl_cons, List.filter_cons, hp, List.map_cons]
        simp only [Bool.false_eq_true, if_false]
        exact ih h0

theorem foldl_max_le_self (l : List Int) (a : Int) : a ≤ l.foldl max a := by
  induction l generalizing a with
  | nil => simp
  | cons x rest ih => exact le_trans (le_max_left a x) (ih (max a x))

theorem mem_le_foldl_max (l : List Int) (a : Int) : ∀ x ∈ l, x ≤ l.foldl max a := by
  induction l generalizing a with
  | nil => simp
  | cons y rest ih =>
      intro x hx
      rcases List.mem_cons.mp hx with rfl | hx
      · exact le_trans (le_max_right a x) (foldl_max_le_self rest (max a x))
      · exact ih (max a y) x hx

theorem foldl_max_mem (l : List Int) (a : Int) : l.foldl max a = a ∨ l.foldl max a ∈ l := by
  induction l generalizing a with
  | nil => left; rfl
  | cons y rest ih =>
      simp only [List.foldl_cons]
      rcases ih (max a y) with h | h
      · rcases le_or_lt y a with hya | hya
        · left; rw [h, max_eq_left hya]
        · right; rw [h, max_eq_right hya.le]; exact List.mem_cons_self y rest
      · right; exact List.mem_cons_of_mem y h

/-- C7, confirmed.  `get_array_length` returns 0 on non-arrays; on an
array it returns one greater than the largest `atoi` value among the
numeric-named children (the length minus one is itself one of those
values and bounds them all), and 0 when there is no numeric-named child.
Note the source's `isNumber` guard is vacuously true on an empty child
name, which then contributes `atoi("") = 0`, consistently with the model. -/
theorem claim_C7 (v : Value) :
    (v.isArray = false → v.getArrayLength = 0)
    ∧ (v.isArray = true → numericChildVals v = [] → v.getArrayLength = 0)
    ∧ (v.isArray = true → ∀ x ∈ numericChildVals v, x < v.getArrayLength)
    ∧ (v.isArray = true → numericChildVals v ≠ [] →
        v.getArrayLength - 1 ∈ numericChildVals v) := by
  refine ⟨?_, ?_, ?_, ?_⟩
  · intro hA
    simp [Value.getArrayLength, hA]
  · intro hA hnil
    unfold Value.getArrayLength
    rw [if_neg (by simp [hA]), arrayLength_fold]
    unfold numericChildVals at hnil
    rw [hnil]
    rfl
  · intro hA x hx
    unfold Value.getArrayLength
    rw [if_neg (by simp [hA]), arrayLength_fold]
    have := mem_le_foldl_max (numericChildVals v) (-1) x hx
    unfold numericChildVals at this
    omega
  · intro hA hnil
    unfold Value.getArrayLength
    rw [if_neg (by simp [hA]), arrayLength_fold]
    rcases foldl_max_mem (numericChildVals v) (-1) with h | h
    · exfalso
      obtain ⟨y, hy⟩ := List.exists_mem_of_ne_nil _ hnil
      have h1 := mem_le_foldl_max (numericChildVals v) (-1) y hy
      have h2 : 0 ≤ y := by
        unfold numericChildVals at hy
        obtain ⟨p, _, rfl⟩ := List.mem_map.mp hy
        exact atoiDigits_nonneg p.1
      unfold numericChildVals at h1 h
      omega
    · unfold numericChildVals at h
      have : ((v.children.filter (fun p => isNumberStr p.1)).map
          (fun p => atoiDigits p.1)).foldl max (-1) + 1 - 1 ∈ numericChildVals v := by
        unfold numericChildVals
        simpa using h
      simpa using this

/-- Witness for `claim_C7` at concrete inputs: a non-array value, and the
array `[10, _, 20]` with numeric child names "0" and "2" (length 3). -/
theorem claim_C7_witness :
    (mkInt 3).getArrayLength = 0 ∧
    ((Value.mk VARIABLE_ARRAY 0 0 []
        [(cl ("0"), mkInt 10), (cl ("2"), mkInt 20)]).getArrayLength - 1 ∈
      numericChildVals (Value.mk VARIABLE_ARRAY 0 0 []
        [(cl ("0"), mkInt 10), (cl ("2"), mkInt 20)])) :=
  ⟨(claim_C7 (mkInt 3)).1 (by decide),
   (claim_C7 (Value.mk VARIABLE_ARRAY 0 0 []
      [(cl ("0"), mkInt 10), (cl ("2"), mkInt 20)])).2.2.2 (by decide) (by decide)⟩

-- ------------------------------------------------------------------
-- Claim C10 (getArrayIndex)
-- ------------------------------------------------------------------

/-- C10, confirmed.  `getArrayIndex` is a `const` method (the embedding is
a pure function of the receiver, so the child list is untouched); when no
child is named with the decimal form of the index it returns a freshly
allocated node whose type tag is `VARIABLE_NULL` — null, not undefined,
despite the source comment — and when such a child exists it returns that
child's target. -/
theorem claim_C10 (v : Value) (idx : Int) :
    (v.findChild (intDecChars idx) = none →
      v.getArrayIndex idx = nullVar ∧ nullVar.isNull = true ∧ nullVar.isUndefined = false)
    ∧ (∀ p, v.findChild (intDecChars idx) = some p → v.getArrayIndex idx = p.2) := by
  constructor
  · intro h
    refine ⟨?_, by decide, by decide⟩
    unfold Value.getArrayIndex
    rw [h]
  · intro p h
    unfold Value.getArrayIndex
    rw [h]

/-- Witness for `claim_C10` on a concrete array with one child named "1":
a missing index yields the fresh null node, a present one its target. -/
theorem claim_C10_witness :
    (Value.mk VARIABLE_ARRAY 0 0 [] [(cl ("1"), mkInt 42)]).getArrayIndex 5 = nullVar ∧
    (Value.mk VARIABLE_ARRAY 0 0 [] [(cl ("1"), mkInt 42)]).getArrayIndex 1 = mkInt 42 :=
  ⟨((claim_C10 (Value.mk VARIABLE_ARRAY 0 0 [] [(cl ("1"), mkInt 42)]) 5).1 rfl).1,
   (claim_C10 (Value.mk VARIABLE_ARRAY 0 0 [] [(cl ("1"), mkInt 42)]) 1).2
     (cl ("1"), mkInt 42) rfl⟩

-- ------------------------------------------------------------------
-- Claim C3: the while-loop iteration cap (Interpreter::statement,
-- lines 1998-2035)
-- ------------------------------------------------------------------

/-- `TINYJS_LOOP_MAX_ITERATIONS` (TinyJS.h). -/
def TINYJS_LOOP_MAX_ITERATIONS : Nat := 8192

/-- The re-lex loop of the `while` statement,

```
int loopCount = TINYJS_LOOP_MAX_ITERATIONS;
while (loopCond && loopCount-->0) {
    whileCond->reset(); l = whileCond;
    cond = base(execute);
    loopCond = execute && cond->var->getBool();
    CLEAN(cond);
    if (loopCond) { whileBody->reset(); l = whileBody; statement(execute); }
}
```

parameterised over the abstract interpreter state `σ`: `ec` re-lexes and
evaluates the condition returning its boolean, `eb` re-lexes and executes
the body.  The returned `Int` is the final value of `loopCount`: note the
post-decrement in the guard — when `loopCond` holds with `loopCount = 0`
the guard fails leaving `loopCount = -1`, and when `loopCond` is false the
decrement is short-circuited away.  (`execute` stays true throughout an
executed loop smaller errors/exceptions inside cond/body are outside this
claim and not modelled.) -/
def runWhile {σ : Type} (ec : σ → Bool × σ) (eb : σ → σ) :
    Nat → Bool → σ → Int × σ
  | count, false, st => (Int.ofNat count, st)
  | 0, true, st => (-1, st)
  | count + 1, true, st =>
      let p := ec st
      let st2 := if p.1 then eb p.2 else p.2
      runWhile ec eb count p.1 st2

/-- Ghost instrumentation of `runWhile`: the number of times the loop
condition is re-lexed and re-evaluated. -/
def runWhileCalls {σ : Type} (ec : σ → Bool × σ) (eb : σ → σ) :
    Nat → Bool → σ → Nat
  | _, false, _ => 0
  | 0, true, _ => 0
  | count + 1, true, st =>
      let p := ec st
      let st2 := if p.1 then eb p.2 else p.2
      runWhileCalls ec eb count p.1 st2 + 1

/-- The whole `while` statement: first pass over the condition (with
`execute`) and the body (executed only when the first condition was true),
then the capped re-lex loop, then
`if (loopCount<=0) throw new Exception("LOOP_ERROR");`. -/
def whileStatement {σ : Type} (ec : σ → Bool × σ) (eb : σ → σ) (st : σ) :
    Except (List Char) σ :=
  let p := ec st
  let st1 := if p.1 then eb p.2 else p.2
  let r := runWhile ec eb TINYJS_LOOP_MAX_ITERATIONS p.1 st1
  if r.1 ≤ 0 then .error (cl ("LOOP_ERROR")) else .ok r.2

/-- Number of condition re-evaluations performed after the first pass. -/
def whileCondEvals {σ : Type} (ec : σ → Bool × σ) (eb : σ → σ) (st : σ) : Nat :=
  let p := ec st
  let st1 := if p.1 then eb p.2 else p.2
  runWhileCalls ec eb TINYJS_LOOP_MAX_ITERATIONS p.1 st1

theorem runWhile_calls_spec {σ : Type} (ec : σ → Bool × σ) (eb : σ → σ) :
    ∀ (count : Nat) (lc : Bool) (st : σ),
      (runWhile ec eb count lc st).1 ≤ Int.ofNat count
      ∧ ((runWhile ec eb count lc st).1 ≤ 0 ↔ runWhileCalls ec eb count lc st = count)
      ∧ runWhileCalls ec eb count lc st ≤ count := by
  intro count
  induction count with
  | zero =>
      intro lc st
      cases lc <;> simp [runWhile, runWhileCalls]
  | succ n ih =>
      intro lc st
      cases lc
      case false => simp [runWhile, runWhileCalls]
      case true =>
        obtain ⟨i1, i2, i3⟩ := ih (ec st).1 (if (ec st).1 then eb (ec st).2 else (ec st).2)
        simp only [runWhile, runWhileCalls]
        have hsucc : Int.ofNat (n + 1) = Int.ofNat n + 1 := rfl
        rw [hsucc]
        refine ⟨by omega, ?_, by omega⟩
        rw [i2]
        omega

/-- C3, amended.  After the first pass, the condition is re-lexed and
re-evaluated at most 8192 more times, and the fatal `LOOP_ERROR` is raised
**exactly when the condition is re-evaluated the full 8192 more times** —
including the boundary case where the 8192nd re-evaluation comes out
false and the loop was about to terminate normally (the claim's "a loop
whose condition becomes false within that budget completes with no error"
fails there; it holds only up to 8191 re-evaluations).  A loop whose
condition never becomes false always raises `LOOP_ERROR`. -/
theorem claim_C3_amended {σ : Type} (ec : σ → Bool × σ) (eb : σ → σ) (st : σ) :
    whileCondEvals ec eb st ≤ 8192
    ∧ ((∃ e, whileStatement ec eb st = .error e) ↔ whileCondEvals ec eb st = 8192)
    ∧ (∀ e, whileStatement ec eb st = .error e → e = cl ("LOOP_ERROR"))
    ∧ ((∀ s, (ec s).1 = true) → whileStatement ec eb st = .error (cl ("LOOP_ERROR"))) := by
  obtain ⟨h1, h2, h3⟩ := runWhile_calls_spec ec eb TINYJS_LOOP_MAX_ITERATIONS
    (ec st).1 (if (ec st).1 then eb (ec st).2 else (ec st).2)
  have hmax : (TINYJS_LOOP_MAX_ITERATIONS : Nat) = 8192 := rfl
  have hevals : whileCondEvals ec eb st = runWhileCalls ec eb TINYJS_LOOP_MAX_ITERATIONS
      (ec st).1 (if (ec st).1 then eb (ec st).2 else (ec st).2) := by
    simp only [whileCondEvals]
  have herr : (∃ e, whileStatement ec eb st = .error e) ↔
      (runWhile ec eb TINYJS_LOOP_MAX_ITERATIONS (ec st).1
        (if (ec st).1 then eb (ec st).2 else (ec st).2)).1 ≤ 0 := by
    simp only [whileStatement]
    by_cases hle : (runWhile ec eb TINYJS_LOOP_MAX_ITERATIONS (ec st).1
        (if (ec st).1 then eb (ec st).2 else (ec st).2)).1 ≤ 0
    · simp [hle]
    · simp [hle]
  refine ⟨?_, ?_, ?_, ?_⟩
  · rw [hevals]
    omega
  · rw [herr, hevals, ← hmax]
    exact h2
  · intro e he
    have hle : (runWhile ec eb TINYJS_LOOP_MAX_ITERATIONS (ec st).1
        (if (ec st).1 then eb (ec st).2 else (ec st).2)).1 ≤ 0 :=
      herr.mp ⟨e, he⟩
    simp only [whileStatement] at he
    rw [if_pos hle] at he
    simpa using he.symm
  · intro hall
    have hcalls : ∀ (count : Nat) (st2 : σ),
        runWhileCalls ec eb count true st2 = count := by
      intro count
      induction count with
      | zero => intro st2; rfl
      | succ n ih =>
          intro st2
          simp only [runWhileCalls, hall, if_true]
          rw [ih]
    have hle : (runWhile ec eb TINYJS_LOOP_MAX_ITERATIONS (ec st).1
        (if (ec st).1 then eb (ec st).2 else (ec st).2)).1 ≤ 0 := by
      apply h2.mpr
      rw [hall st]
      simp only [if_true]
      exact hcalls TINYJS_LOOP_MAX_ITERATIONS (eb (ec st).2)
    simp only [whileStatement]
    rw [if_pos hle]

/-- Condition-evaluation count of the concrete boundary loop (state is a
counter, condition `n < 8192`, body a no-op): starting a guarded round at
counter `n ≤ 8192`, the condition is evaluated `min count (8193 - n)`
times. -/
theorem boundaryLoop_calls :
    ∀ (count n : Nat), n ≤ 8192 →
      runWhileCalls (fun k => (decide (k < 8192), k + 1)) id count true n =
        min count (8193 - n) := by
  intro count
  induction count with
  | zero => intro n _; simp [runWhileCalls]
  | succ m ih =>
      intro n hn
      simp only [runWhileCalls]
      by_cases hlt : n < 8192
      · have hc : (decide (n < 8192)) = true := by simpa using hlt
        simp only [hc, if_true, id]
        rw [ih (n + 1) (by omega)]
        omega
      · have hn2 : n = 8192 := by omega
        subst hn2
        simp [runWhileCalls]

/-- C3 counterexample.  A loop whose condition goes false exactly at the
8192nd re-evaluation — within the claimed budget of "at most 8192 more
times", so the claim says it completes with no error — still raises the
fatal LOOP_ERROR, because the final `loopCount` is 0 and the source tests
`loopCount <= 0`.  (The model: state is a counter, the condition is
`n < 8192`, the body does nothing; the first pass sees n = 0, and the k-th
re-evaluation sees n = k, so the condition first fails at re-evaluation
8192.) -/
theorem claim_C3_counterexample :
    whileCondEvals (fun n => (decide (n < 8192), n + 1)) id (0 : Nat) = 8192 ∧
    (decide (8192 < 8192)) = false ∧
    whileStatement (fun n => (decide (n < 8192), n + 1)) id (0 : Nat) =
      .error (cl ("LOOP_ERROR")) := by
  have hev : whileCondEvals (fun n => (decide (n < 8192), n + 1)) id (0 : Nat) = 8192 := by
    simp only [whileCondEvals]
    norm_num
    rw [boundaryLoop_calls TINYJS_LOOP_MAX_ITERATIONS 1 (by norm_num)]
    rfl
  refine ⟨hev, rfl, ?_⟩
  have hiff := (runWhile_calls_spec (fun n => (decide (n < 8192), n + 1)) id
    TINYJS_LOOP_MAX_ITERATIONS true 1).2.1
  have hcalls : runWhileCalls (fun k => (decide (k < 8192), k + 1)) id
      TINYJS_LOOP_MAX_ITERATIONS true 1 = TINYJS_LOOP_MAX_ITERATIONS := by
    rw [boundaryLoop_calls TINYJS_LOOP_MAX_ITERATIONS 1 (by norm_num)]
    rfl
  have hle := hiff.mpr hcalls
  have hc0 : (decide (0 < 8192)) = true := rfl
  simp only [whileStatement, hc0, if_true, id, Nat.zero_add]
  rw [if_pos hle]

/-- Witness for `claim_C3_amended`: the always-true condition raises
LOOP_ERROR. -/
theorem claim_C3_witness :
    whileStatement (fun _ : Unit => (true, ())) id () = .error (cl ("LOOP_ERROR")) :=
  (claim_C3_amended (fun _ : Unit => (true, ())) id ()).2.2.2 (fun _ => rfl)

-- ------------------------------------------------------------------
-- Claim C4: save/restore of the lexer pointer and the scope stack
-- around host entries (Interpreter::execute 1313-1341 and
-- Interpreter::evaluateComplex 1343-1385, identical in this respect)
-- ------------------------------------------------------------------

/-- The interpreter members observed by the save/restore logic: the
current-lexer pointer `l` and the scope stack, with pointers as abstract
addresses. -/
structure HostState where
  lex : Option Nat
  scopes : List Nat
  deriving DecidableEq, Repr

/-- Outcome of the evaluation loop run inside the `try` block (the
`while (l->tk) statement(execute)` of `execute`, or the base-expression
loop of `evaluateComplex`), abstracted: either normal completion or an
exception propagating out, each with the member state at that moment.
On a throw the scope stack may well differ from `[root]`: a call frame
pushed by `functionCall` is popped only after its `try`/re-throw block,
so frames of aborted calls remain. -/
inductive RunOutcome where
  | normal (endLex : Option Nat) (endScopes : List Nat)
  | thrown (msg : List Char) (endLex : Option Nat) (endScopes : List Nat)

/-- The save/restore skeleton shared by `Interpreter::execute` and
`Interpreter::evaluateComplex`:

```
Lexer *oldLex = l;  std::vector<Variable*> oldScopes = scopes;
l = new Lexer(code);  scopes.clear();  scopes.push_back(root);
try { ...run... } catch (Exception *e) {
    msg << "Error " << e->text << ...;
    delete l;  l = oldLex;               // lexer pointer restored
    throw new Exception(msg.str());      // scopes NOT restored here
}
delete l;  l = oldLex;  scopes = oldScopes;   // success path restores both
```

The returned pair is (the member state after the call returns or the
exception escapes, the error surfaced to the host, message position data
elided). -/
def hostEntry (run : HostState → RunOutcome) (st : HostState)
    (newLexAddr rootAddr : Nat) : HostState × Option (List Char) :=
  let oldLex := st.lex
  let oldScopes := st.scopes
  match run { lex := some newLexAddr, scopes := [rootAddr] } with
  | .normal _ _ => ({ lex := oldLex, scopes := oldScopes }, none)
  | .thrown msg _ endScopes =>
      ({ lex := oldLex, scopes := endScopes }, some (cl ("Error ") ++ msg))

/-- C4, amended.  When evaluation raises an error inside `execute` or
`evaluateComplex`, the error aborts the whole evaluation and the **lexer
pointer** is restored to its saved value before the error reaches the host
— but the **scope stack is not**: it keeps whatever the aborted evaluation
left in it (including leaked frames of aborted calls); `scopes = oldScopes`
runs only on the success path. -/
theorem claim_C4_amended (run : HostState → RunOutcome) (st : HostState)
    (nl ra : Nat) :
    (∀ el es, run { lex := some nl, scopes := [ra] } = .normal el es →
      hostEntry run st nl ra = ({ lex := st.lex, scopes := st.scopes }, none))
    ∧ (∀ msg el es, run { lex := some nl, scopes := [ra] } = .thrown msg el es →
      (hostEntry run st nl ra).1.lex = st.lex
      ∧ (hostEntry run st nl ra).1.scopes = es
      ∧ (hostEntry run st nl ra).2 = some (cl ("Error ") ++ msg)) := by
  constructor
  · intro el es h
    unfold hostEntry
    rw [h]
  · intro msg el es h
    unfold hostEntry
    rw [h]
    exact ⟨rfl, rfl, rfl⟩

/-- C4 counterexample.  An evaluation that throws with `[root, frame]` on
the scope stack while the saved stack was `[3]`: after the error reaches
the host the scope stack holds `[0, 5]`, not the saved `[3]` the claim
requires. -/
theorem claim_C4_counterexample :
    (hostEntry (fun _ => .thrown (cl ("boom")) none [0, 5])
      { lex := none, scopes := [3] } 1 0).1.scopes = [0, 5] ∧
    ([0, 5] : List Nat) ≠ [3] :=
  ⟨rfl, by decide⟩

/-- Witness for `claim_C4_amended` on concrete outcomes (one normal, one
thrown). -/
theorem claim_C4_witness :
    hostEntry (fun _ => .normal none [0]) { lex := some 9, scopes := [3] } 1 0 =
      ({ lex := some 9, scopes := [3] }, none) ∧
    (hostEntry (fun _ => .thrown (cl ("boom")) none [0, 5])
      { lex := some 9, scopes := [3] } 1 0).1.lex = some 9 :=
  ⟨(claim_C4_amended (fun _ => .normal none [0]) { lex := some 9, scopes := [3] } 1 0).1
      none [0] rfl,
   ((claim_C4_amended (fun _ => .thrown (cl ("boom")) none [0, 5])
      { lex := some 9, scopes := [3] } 1 0).2 (cl ("boom")) none [0, 5] rfl).1⟩

-- ------------------------------------------------------------------
-- Lexer (class Lexer in TinyJS.cpp).  Loops carry explicit fuel so the
-- recursion is structural; callers pass `dataEnd + 2`, which bounds the
-- number of `getNextCh` steps any loop can take before `currCh` is NUL.
-- ------------------------------------------------------------------

/-- C helper `isWhitespace(char)`. -/
def isWhitespaceCh (c : Char) : Bool := c = ' ' || c = '\t' || c = '\n' || c = '\r'

/-- C helper `isAlpha(char)`. -/
def isAlphaCh (c : Char) : Bool :=
  ('a' ≤ c && c ≤ 'z') || ('A' ≤ c && c ≤ 'Z') || c = '_'

/-- C helper `isHexadecimal(char)`. -/
def isHexCh (c : Char) : Bool :=
  ('0' ≤ c && c ≤ '9') || ('a' ≤ c && c ≤ 'f') || ('A' ≤ c && c ≤ 'F')

/-- The lexer state: buffer, window `[dataStart, dataEnd)`, read cursor,
current and lookahead characters, and the current token (kind, text,
offsets).  Token offsets are `Int` because the source computes them as
`dataPos-2` / `dataPos-3`, which can be negative at a window's start. -/
structure LexState where
  data : List Char
  dataStart : Nat
  dataEnd : Nat
  dataPos : Nat
  currCh : Char
  nextCh : Char
  tk : Nat
  tkStr : List Char
  tokenStart : Int
  tokenEnd : Int
  tokenLastEnd : Int
  deriving Repr

/-- `Lexer::getNextCh`. -/
def getNextCh (s : LexState) : LexState :=
  { s with currCh := s.nextCh,
           nextCh := if s.dataPos < s.dataEnd then s.data.getD s.dataPos nul else nul,
           dataPos := s.dataPos + 1 }

/-- `while (currCh && isWhitespace(currCh)) getNextCh();` -/
def skipWs : Nat → LexState → LexState
  | 0, s => s
  | f + 1, s =>
      if s.currCh ≠ nul ∧ isWhitespaceCh s.currCh then skipWs f (getNextCh s) else s

/-- `while (currCh && currCh!='\n') getNextCh();` (line comments). -/
def skipLine : Nat → LexState → LexState
  | 0, s => s
  | f + 1, s =>
      if s.currCh ≠ nul ∧ s.currCh ≠ '\n' then skipLine f (getNextCh s) else s

/-- `while (currCh && (currCh!='*' || nextCh!='/')) getNextCh();` -/
def skipBlockComment : Nat → LexState → LexState
  | 0, s => s
  | f + 1, s =>
      if s.currCh ≠ nul ∧ ¬(s.currCh = '*' ∧ s.nextCh = '/') then
        skipBlockComment f (getNextCh s)
      else s

/-- The identifier loop: `while (isAlpha(currCh) || isNumeric(currCh))`. -/
def lexIdLoop : Nat → LexState → LexState
  | 0, s => s
  | f + 1, s =>
      if isAlphaCh s.currCh || isNumericCh s.currCh then
        lexIdLoop f (getNextCh { s with tkStr := s.tkStr ++ [s.currCh] })
      else s

/-- The number-digits loop:
`while (isNumeric(currCh) || (isHex && isHexadecimal(currCh)))`. -/
def lexNumLoop (isHex : Bool) : Nat → LexState → LexState
  | 0, s => s
  | f + 1, s =>
      if isNumericCh s.currCh || (isHex && isHexCh s.currCh) then
        lexNumLoop isHex f (getNextCh { s with tkStr := s.tkStr ++ [s.currCh] })
      else s

/-- The double-quoted string loop with its `\n`, `\"`, `\\` escapes
(any other escaped character is taken literally). -/
def lexStrDq : Nat → LexState → LexState
  | 0, s => s
  | f + 1, s =>
      if s.currCh ≠ nul ∧ s.currCh ≠ '"' then
        if s.currCh = '\\' then
          let s1 := getNextCh s
          let c :=
            if s1.currCh = 'n' then '\n'
            else if s1.currCh = '"' then '"'
            else if s1.currCh = '\\' then '\\'
            else s1.currCh
          lexStrDq f (getNextCh { s1 with tkStr := s1.tkStr ++ [c] })
        else
          lexStrDq f (getNextCh { s with tkStr := s.tkStr ++ [s.currCh] })
      else s

/-- Value of one hex digit, 99 on a non-digit (used to model the partial
parses `strtol` performs on the 2- and 3-character escape buffers). -/
def digitVal (c : Char) : Nat :=
  if '0' ≤ c ∧ c ≤ '9' then c.toNat - 48
  else if 'a' ≤ c ∧ c ≤ 'f' then c.toNat - 87
  else if 'A' ≤ c ∧ c ≤ 'F' then c.toNat - 55
  else 99

/-- `strtol(buf, 0, 16)` on the two-character `\xHH` buffer. -/
def hex2Val (c1 c2 : Char) : Nat :=
  if digitVal c1 < 16 then
    (if digitVal c2 < 16 then digitVal c1 * 16 + digitVal c2 else digitVal c1)
  else 0

/-- `strtol(buf, 0, 8)` on the three-character octal buffer. -/
def oct3Val (c1 c2 c3 : Char) : Nat :=
  if digitVal c1 < 8 then
    (if digitVal c2 < 8 then
      (if digitVal c3 < 8 then (digitVal c1 * 8 + digitVal c2) * 8 + digitVal c3
       else digitVal c1 * 8 + digitVal c2)
     else digitVal c1)
  else 0

/-- The single-quoted string loop with its larger escape set. -/
def lexStrSq : Nat → LexState → LexState
  | 0, s => s
  | f + 1, s =>
      if s.currCh ≠ nul ∧ s.currCh ≠ '\'' then
        if s.currCh = '\\' then
          let s1 := getNextCh s
          if s1.currCh = 'n' then lexStrSq f (getNextCh { s1 with tkStr := s1.tkStr ++ ['\n'] })
          else if s1.currCh = 'a' then
            lexStrSq f (getNextCh { s1 with tkStr := s1.tkStr ++ [Char.ofNat 7] })
          else if s1.currCh = 'r' then lexStrSq f (getNextCh { s1 with tkStr := s1.tkStr ++ ['\r'] })
          else if s1.currCh = 't' then lexStrSq f (getNextCh { s1 with tkStr := s1.tkStr ++ ['\t'] })
          else if s1.currCh = '\'' then lexStrSq f (getNextCh { s1 with tkStr := s1.tkStr ++ ['\''] })
          else if s1.currCh = '\\' then
            lexStrSq f (getNextCh { s1 with tkStr := s1.tkStr ++ ['\\'] })
          else if s1.currCh = 'x' then
            let s2 := getNextCh s1
            let s3 := getNextCh s2
            lexStrSq f (getNextCh { s3 with
              tkStr := s3.tkStr ++ [Char.ofNat (hex2Val s2.currCh s3.currCh % 256)] })
          else if '0' ≤ s1.currCh ∧ s1.currCh ≤ '7' then
            let s2 := getNextCh s1
            let s3 := getNextCh s2
            lexStrSq f (getNextCh { s3 with
              tkStr := s3.tkStr ++ [Char.ofNat (oct3Val s1.currCh s2.currCh s3.currCh % 256)] })
          else lexStrSq f (getNextCh { s1 with tkStr := s1.tkStr ++ [s1.currCh] })
        else
          lexStrSq f (getNextCh { s with tkStr := s.tkStr ++ [s.currCh] })
      else s

/-- Reserved-word recognition after an identifier lexeme is complete. -/
def reservedOf (t : List Char) : Nat :=
  if t = cl ("if") then LEXER_RESERVED_IF
  else if t = cl ("else") then LEXER_RESERVED_ELSE
  else if t = cl ("do") then LEXER_RESERVED_DO
  else if t = cl ("while") then LEXER_RESERVED_WHILE
  else if t = cl ("for") then LEXER_RESERVED_FOR
  else if t = cl ("break") then LEXER_RESERVED_BREAK
  else if t = cl ("continue") then LEXER_RESERVED_CONTINUE
  else if t = cl ("function") then LEXER_RESERVED_FUNCTION
  else if t = cl ("return") then LEXER_RESERVED_RETURN
  else if t = cl ("var") then LEXER_RESERVED_VAR
  else if t = cl ("true") then LEXER_RESERVED_TRUE
  else if t = cl ("false") then LEXER_RESERVED_FALSE
  else if t = cl ("null") then LEXER_RESERVED_NULL
  else if t = cl ("undefined") then LEXER_RESERVED_UNDEFINED
  else if t = cl ("new") then LEXER_RESERVED_NEW
  else LEXER_ID

/-- The multi-character operator recognition of `getNextToken` (the chain
of `else if` branches after a single-character token has been read). -/
def lexOps (s : LexState) : LexState :=
  if s.tk = chTok '=' ∧ s.currCh = '=' then
    let s := getNextCh { s with tk := LEXER_EQUAL }
    if s.currCh = '=' then getNextCh { s with tk := LEXER_TYPEEQUAL } else s
  else if s.tk = chTok '!' ∧ s.currCh = '=' then
    let s := getNextCh { s with tk := LEXER_NEQUAL }
    if s.currCh = '=' then getNextCh { s with tk := LEXER_NTYPEEQUAL } else s
  else if s.tk = chTok '<' ∧ s.currCh = '=' then
    getNextCh { s with tk := LEXER_LEQUAL }
  else if s.tk = chTok '<' ∧ s.currCh = '<' then
    let s := getNextCh { s with tk := LEXER_LSHIFT }
    if s.currCh = '=' then getNextCh { s with tk := LEXER_LSHIFTEQUAL } else s
  else if s.tk = chTok '>' ∧ s.currCh = '=' then
    getNextCh { s with tk := LEXER_GEQUAL }
  else if s.tk = chTok '>' ∧ s.currCh = '>' then
    let s := getNextCh { s with tk := LEXER_RSHIFT }
    if s.currCh = '=' then getNextCh { s with tk := LEXER_RSHIFTEQUAL }
    else if s.currCh = '>' then getNextCh { s with tk := LEXER_RSHIFTUNSIGNED }
    else s
  else if s.tk = chTok '+' ∧ s.currCh = '=' then
    getNextCh { s with tk := LEXER_PLUSEQUAL }
  else if s.tk = chTok '-' ∧ s.currCh = '=' then
    getNextCh { s with tk := LEXER_MINUSEQUAL }
  else if s.tk = chTok '+' ∧ s.currCh = '+' then
    getNextCh { s with tk := LEXER_PLUSPLUS }
  else if s.tk = chTok '-' ∧ s.currCh = '-' then
    getNextCh { s with tk := LEXER_MINUSMINUS }
  else if s.tk = chTok '&' ∧ s.currCh = '=' then
    getNextCh { s with tk := LEXER_ANDEQUAL }
  else if s.tk = chTok '&' ∧ s.currCh = '&' then
    getNextCh { s with tk := LEXER_ANDAND }
  else if s.tk = chTok '|' ∧ s.currCh = '=' then
    getNextCh { s with tk := LEXER_OREQUAL }
  else if s.tk = chTok '|' ∧ s.currCh = '|' then
    getNextCh { s with tk := LEXER_OROR }
  else if s.tk = chTok '^' ∧ s.currCh = '=' then
    getNextCh { s with tk := LEXER_XOREQUAL }
  else s

/-- The identifier/reserved-word branch of `getNextToken`. -/
def tokenAlpha (s : LexState) : LexState :=
  let s := lexIdLoop (s.dataEnd + 2) s
  { s with tk := reservedOf s.tkStr }

/-- The leading-zero consumption of the number branch. -/
def tokenNumZero (s : LexState) : LexState :=
  if s.currCh = '0' then getNextCh { s with tkStr := s.tkStr ++ [s.currCh] } else s

/-- The `0x` detection and consumption of the number branch; the flag is
the source's `isHex` local. -/
def tokenNumHex (s : LexState) : Bool × LexState :=
  let isHex : Bool := s.currCh = 'x'
  (isHex, if isHex then getNextCh { s with tkStr := s.tkStr ++ [s.currCh] } else s)

/-- The integer-digit loop of the number branch (token kind becomes INT). -/
def tokenNumInt (p : Bool × LexState) : Bool × LexState :=
  (p.1, lexNumLoop p.1 (p.2.dataEnd + 2) { p.2 with tk := LEXER_INT })

/-- The fraction part of the number branch (token kind becomes FLOAT). -/
def tokenNumFrac (p : Bool × LexState) : Bool × LexState :=
  (p.1,
    if ¬p.1 ∧ p.2.currCh = '.' then
      let s := getNextCh { p.2 with tk := LEXER_FLOAT, tkStr := p.2.tkStr ++ ['.'] }
      lexNumLoop false (s.dataEnd + 2) s
    else p.2)

/-- The exponent part of the number branch. -/
def tokenNumExp (p : Bool × LexState) : LexState :=
  if ¬p.1 ∧ (p.2.currCh = 'e' ∨ p.2.currCh = 'E') then
    let s := getNextCh { p.2 with tk := LEXER_FLOAT, tkStr := p.2.tkStr ++ [p.2.currCh] }
    let s := if s.currCh = '-' then getNextCh { s with tkStr := s.tkStr ++ [s.currCh] }
             else s
    lexNumLoop false (s.dataEnd + 2) s
  else p.2

/-- The number branch of `getNextToken` (leading-zero and `0x` handling,
integer digits, optional fraction and exponent). -/
def tokenNumber (s : LexState) : LexState :=
  tokenNumExp (tokenNumFrac (tokenNumInt (tokenNumHex (tokenNumZero s))))

/-- The double-quoted string branch of `getNextToken`. -/
def tokenStrD (s : LexState) : LexState :=
  let s := getNextCh s
  let s := lexStrDq (s.dataEnd + 2) s
  getNextCh { s with tk := LEXER_STR }

/-- The single-quoted string branch of `getNextToken`. -/
def tokenStrS (s : LexState) : LexState :=
  let s := getNextCh s
  let s := lexStrSq (s.dataEnd + 2) s
  getNextCh { s with tk := LEXER_STR }

/-- The single-character / operator branch of `getNextToken`. -/
def tokenPunct (s : LexState) : LexState :=
  let s1 := { s with tk := s.currCh.toNat }
  let s := if s1.currCh ≠ nul then getNextCh s1 else s1
  lexOps s

/-- The token dispatch of `getNextToken` after whitespace and comments. -/
def tokenCore (s : LexState) : LexState :=
  if isAlphaCh s.currCh then tokenAlpha s
  else if isNumericCh s.currCh then tokenNumber s
  else if s.currCh = '"' then tokenStrD s
  else if s.currCh = '\'' then tokenStrS s
  else tokenPunct s

/-- `Lexer::getNextToken`.  The fuel of the outer recursion bounds the
number of consecutive comments; callers pass ample fuel. -/
def getNextToken : Nat → LexState → LexState
  | 0, s => s
  | f + 1, s0 =>
      let s := { s0 with tk := LEXER_EOF, tkStr := [] }
      let s := skipWs (s.dataEnd + 2) s
      if s.currCh = '/' ∧ s.nextCh = '/' then
        let s := skipLine (s.dataEnd + 2) s
        getNextToken f (getNextCh s)
      else if s.currCh = '/' ∧ s.nextCh = '*' then
        let s := skipBlockComment (s.dataEnd + 2) s
        getNextToken f (getNextCh (getNextCh s))
      else
        let s := tokenCore { s with tokenStart := (s.dataPos : Int) - 2 }
        { s with tokenLastEnd := s.tokenEnd, tokenEnd := (s.dataPos : Int) - 3 }

/-- `Lexer::match`: advance if the token kind is as expected, else throw a
parse error (the C message carries the two token names and the position). -/
def lexMatch (expected : Nat) (s : LexState) : MRes LexState :=
  if s.tk ≠ expected then .exn (.parseMismatch s.tk expected)
  else .ok (getNextToken (s.dataEnd + 2) s)

/-- `Lexer::reset`. -/
def lexReset (s : LexState) : LexState :=
  let s := { s with dataPos := s.dataStart, tokenStart := 0, tokenEnd := 0,
                    tokenLastEnd := 0, tk := 0, tkStr := [] }
  getNextToken (s.dataEnd + 2) (getNextCh (getNextCh s))

/-- `Lexer::Lexer(const std::string &input)`: `_strdup` keeps the text up
to the first NUL byte. -/
def mkLexer (input : List Char) : LexState :=
  let d := input.takeWhile (fun c => c ≠ nul)
  lexReset { data := d, dataStart := 0, dataEnd := d.length, dataPos := 0,
             currCh := nul, nextCh := nul, tk := 0, tkStr := [],
             tokenStart := 0, tokenEnd := 0, tokenLastEnd := 0 }

/-- `Lexer::getSubString(pos)`: the source text from `pos` through the
last character of the *previous* token. -/
def getSubString (s : LexState) (pos : Int) : List Char :=
  let lastCharIdx := s.tokenLastEnd + 1
  if lastCharIdx < (s.dataEnd : Int) then
    (s.data.take lastCharIdx.toNat).drop pos.toNat
  else
    s.data.drop pos.toNat

-- ------------------------------------------------------------------
-- strtol / strtod (the Variable(string, flags) constructor)
-- ------------------------------------------------------------------

/-- Accumulate digits of the given base, stopping at the first non-digit
(`strtol`'s scan). -/
def parseDigitsBase (b : Nat) : List Char → Nat → Nat
  | [], acc => acc
  | c :: rest, acc =>
      if digitVal c < b then parseDigitsBase b rest (acc * b + digitVal c) else acc

/-- `strtol` clamps to the `long` range on overflow. -/
def clampLong (neg : Bool) (n : Nat) : Int :=
  if neg then (if 9223372036854775808 ≤ n then -9223372036854775808 else -(n : Int))
  else (if 9223372036854775807 < n then 9223372036854775807 else (n : Int))

/-- `strtol(s, 0, 0)`: optional whitespace and sign, then base detection —
`0x`/`0X` hex, leading `0` octal, else decimal. -/
def parseCLong (s : List Char) : Int :=
  let s := s.dropWhile isWhitespaceCh
  let p : Bool × List Char :=
    match s with
    | '-' :: r => (true, r)
    | '+' :: r => (false, r)
    | _ => (false, s)
  match p.2 with
  | '0' :: 'x' :: r => clampLong p.1 (parseDigitsBase 16 r 0)
  | '0' :: 'X' :: r => clampLong p.1 (parseDigitsBase 16 r 0)
  | '0' :: r => clampLong p.1 (parseDigitsBase 8 r 0)
  | r => clampLong p.1 (parseDigitsBase 10 r 0)

/-- `strtod` on the decimal forms the lexer can produce
(`digits[.digits][(e|E)[-]digits]`), exact over ℚ.  (The C library rounds
the result to the nearest IEEE double; theorems using this are restricted
to inputs where the exact value is what the comparison in `mathsOp`
observes.) -/
def parseCDouble (s : List Char) : ℚ :=
  let s := s.dropWhile isWhitespaceCh
  let p : Bool × List Char :=
    match s with
    | '-' :: r => (true, r)
    | '+' :: r => (false, r)
    | _ => (false, s)
  let ip := p.2.takeWhile isNumericCh
  let rest := p.2.dropWhile isNumericCh
  let ipv : ℚ := (parseDigitsBase 10 ip 0 : ℚ)
  let q : ℚ × List Char :=
    match rest with
    | '.' :: r =>
        (((parseDigitsBase 10 (r.takeWhile isNumericCh) 0 : Nat) : ℚ) /
          ((10 : ℚ) ^ (r.takeWhile isNumericCh).length),
         r.dropWhile isNumericCh)
    | _ => (0, rest)
  let ev : Int :=
    match q.2 with
    | 'e' :: '-' :: r => -(parseDigitsBase 10 r 0 : Int)
    | 'e' :: '+' :: r => (parseDigitsBase 10 r 0 : Int)
    | 'e' :: r => (parseDigitsBase 10 r 0 : Int)
    | 'E' :: '-' :: r => -(parseDigitsBase 10 r 0 : Int)
    | 'E' :: '+' :: r => (parseDigitsBase 10 r 0 : Int)
    | 'E' :: r => (parseDigitsBase 10 r 0 : Int)
    | _ => 0
  let base : ℚ := if p.1 then -(ipv + q.1) else ipv + q.1
  if 0 ≤ ev then base * (10 : ℚ) ^ ev.toNat else base / (10 : ℚ) ^ (-ev).toNat

/-- The `Variable(const std::string &varData, int varFlags)` constructor:
integers via `strtol(,0,0)`, doubles via `strtod`, anything else stores
the text. -/
def varFromLiteral (varData : List Char) (varFlags : Nat) : Value :=
  if varFlags &&& VARIABLE_INTEGER ≠ 0 then .mk varFlags (parseCLong varData) 0 [] []
  else if varFlags &&& VARIABLE_DOUBLE ≠ 0 then .mk varFlags 0 (parseCDouble varData) [] []
  else .mk varFlags 0 0 varData []

-- ------------------------------------------------------------------
-- The expression evaluator (Interpreter::factor ... Interpreter::base),
-- restricted to the scope-free fragment: every branch that reads or
-- writes the scope stack or the symbol table (identifier lookup, `new`,
-- executed assignments, executed statement blocks) is marked
-- `.exn .unmodelled` and is never reached by the inputs used in the
-- theorems below.  All other branches are transcribed from the source.
-- Values flow by value: in this fragment every VariableLink the source
-- creates is a transient unowned link to a freshly allocated node, so no
-- sharing or in-place mutation is observable, and `mathsOp`'s `sameRef`
-- is `false` at every call site (the operands are always distinct
-- nodes).  Fuel makes the deep recursion structural; it decreases by one
-- on every call, and callers supply ample fuel.
-- ------------------------------------------------------------------

/-- Dereference of a `VariableLink*` that may be null (`factor` returns 0
after matching EOF): undefined behaviour, i.e. `.trap`. -/
def getV : Option Value → MRes Value
  | some v => .ok v
  | none => .trap

/-- C `int << int` (undefined for shift counts outside [0,32)). -/
def cShiftL (a s : Int) : MRes Int :=
  if 0 ≤ s ∧ s < 32 then .ok (wrap32 (a * 2 ^ s.toNat)) else .trap

/-- C `int >> int` (arithmetic shift on the targeted platforms). -/
def cShiftR (a s : Int) : MRes Int :=
  if 0 ≤ s ∧ s < 32 then .ok (wrap32 (Int.fdiv a (2 ^ s.toNat))) else .trap

/-- C `(unsigned int) >> int`. -/
def cShiftRU (a s : Int) : MRes Int :=
  if 0 ≤ s ∧ s < 32 then .ok (wrap32 (Int.ofNat (toU32 a / 2 ^ s.toNat))) else .trap

mutual

/-- `Interpreter::factor`. -/
def factorF : Nat → Bool → LexState → MRes (Option Value × LexState)
  | 0, _, _ => .exn .outOfFuel
  | f + 1, execute, st =>
      if st.tk = chTok '(' then do
        let st ← lexMatch (chTok '(') st
        let (a, st) ← baseF f execute st
        let st ← lexMatch (chTok ')') st
        return (a, st)
      else if st.tk = LEXER_RESERVED_TRUE then do
        let st ← lexMatch LEXER_RESERVED_TRUE st
        return (some (mkInt 1), st)
      else if st.tk = LEXER_RESERVED_FALSE then do
        let st ← lexMatch LEXER_RESERVED_FALSE st
        return (some (mkInt 0), st)
      else if st.tk = LEXER_RESERVED_NULL then do
        let st ← lexMatch LEXER_RESERVED_NULL st
        return (some nullVar, st)
      else if st.tk = LEXER_RESERVED_UNDEFINED then do
        let st ← lexMatch LEXER_RESERVED_UNDEFINED st
        return (some blankVar, st)
      else if st.tk = LEXER_ID then
        -- identifier lookup walks the scope stack: outside the fragment
        .exn .unmodelled
      else if st.tk = LEXER_INT ∨ st.tk = LEXER_FLOAT then do
        let a := varFromLiteral st.tkStr
          (if st.tk = LEXER_INT then VARIABLE_INTEGER else VARIABLE_DOUBLE)
        let st ← lexMatch st.tk st
        return (some a, st)
      else if st.tk = LEXER_STR then do
        let a := varFromLiteral st.tkStr VARIABLE_STRING
        let st ← lexMatch LEXER_STR st
        return (some a, st)
      else if st.tk = chTok '{' then do
        let st ← lexMatch (chTok '{') st
        let (contents, st) ← objInitLoopF f execute (Value.mk VARIABLE_OBJECT 0 0 [] []) st
        let st ← lexMatch (chTok '}') st
        return (some contents, st)
      else if st.tk = chTok '[' then do
        let st ← lexMatch (chTok '[') st
        let (contents, st) ← arrInitLoopF f execute (Value.mk VARIABLE_ARRAY 0 0 [] []) 0 st
        let st ← lexMatch (chTok ']') st
        return (some contents, st)
      else if st.tk = LEXER_RESERVED_FUNCTION then do
        let (fv, st) ← parseFunctionDefinitionF f st
        -- a named function at expression level only TRACEs a warning
        return (some fv, st)
      else if st.tk = LEXER_RESERVED_NEW then
        -- object construction touches the scopes: outside the fragment
        .exn .unmodelled
      else do
        -- "Nothing we can do here... just hope it's the end..."
        let st ← lexMatch LEXER_EOF st
        return (none, st)

/-- The `{k:v,...}` object-initialiser loop in `factor`.  Note: when
`execute` is false the source does not consume the value expression. -/
def objInitLoopF : Nat → Bool → Value → LexState → MRes (Value × LexState)
  | 0, _, _, _ => .exn .outOfFuel
  | f + 1, execute, contents, st =>
      if st.tk ≠ chTok '}' then do
        let id := st.tkStr
        let st ← if st.tk = LEXER_STR then lexMatch LEXER_STR st else lexMatch LEXER_ID st
        let st ← lexMatch (chTok ':') st
        if execute then do
          let (a, st) ← baseF f execute st
          let av ← getV a
          let contents := contents.addChild id av
          let st ← if st.tk ≠ chTok '}' then lexMatch (chTok ',') st else pure st
          objInitLoopF f execute contents st
        else do
          let st ← if st.tk ≠ chTok '}' then lexMatch (chTok ',') st else pure st
          objInitLoopF f execute contents st
      else return (contents, st)

/-- The `[v,...]` array-initialiser loop in `factor`. -/
def arrInitLoopF : Nat → Bool → Value → Int → LexState → MRes (Value × LexState)
  | 0, _, _, _, _ => .exn .outOfFuel
  | f + 1, execute, contents, idx, st =>
      if st.tk ≠ chTok ']' then do
        if execute then do
          let (a, st) ← baseF f execute st
          let av ← getV a
          let contents := contents.addChild (intDecChars idx) av
          let st ← if st.tk ≠ chTok ']' then lexMatch (chTok ',') st else pure st
          arrInitLoopF f execute contents (idx + 1) st
        else do
          let st ← if st.tk ≠ chTok ']' then lexMatch (chTok ',') st else pure st
          arrInitLoopF f execute contents (idx + 1) st
      else return (contents, st)

/-- `Interpreter::parseFunctionDefinition` (the function-link name, used
only by statement-level definitions, is dropped in this fragment). -/
def parseFunctionDefinitionF : Nat → LexState → MRes (Value × LexState)
  | 0, _ => .exn .outOfFuel
  | f + 1, st => do
      let st ← lexMatch LEXER_RESERVED_FUNCTION st
      let st ← if st.tk = LEXER_ID then lexMatch LEXER_ID st else pure st
      let st ← lexMatch (chTok '(') st
      let (funcVar, st) ← funcArgsLoopF f (Value.mk VARIABLE_FUNCTION 0 0 [] []) st
      let st ← lexMatch (chTok ')') st
      let funcBegin := st.tokenStart
      let st ← blockF f false st
      return (Value.mk funcVar.flags funcVar.intData funcVar.doubleData
        (getSubString st funcBegin) funcVar.children, st)

/-- The parameter-name loop of `Interpreter::parseFunctionArguments`
(each name is added with `addChildNoDup` and a fresh undefined target). -/
def funcArgsLoopF : Nat → Value → LexState → MRes (Value × LexState)
  | 0, _, _ => .exn .outOfFuel
  | f + 1, fv, st =>
      if st.tk ≠ chTok ')' then do
        let fv := fv.addChildNoDup st.tkStr blankVar
        let st ← lexMatch LEXER_ID st
        let st ← if st.tk ≠ chTok ')' then lexMatch (chTok ',') st else pure st
        funcArgsLoopF f fv st
      else return (fv, st)

/-- `Interpreter::block`.  The executing path runs statements (outside the
fragment); the skipping path tracks brace nesting. -/
def blockF : Nat → Bool → LexState → MRes LexState
  | 0, _, _ => .exn .outOfFuel
  | f + 1, execute, st => do
      let st ← lexMatch (chTok '{') st
      if execute then .exn .unmodelled
      else blockSkipLoopF f 1 st

/-- The fast block-skip loop of `block` (brackets is a C `int`). -/
def blockSkipLoopF : Nat → Int → LexState → MRes LexState
  | 0, _, _ => .exn .outOfFuel
  | f + 1, brackets, st =>
      if st.tk ≠ LEXER_EOF ∧ brackets ≠ 0 then do
        let brackets := if st.tk = chTok '{' then brackets + 1 else brackets
        let brackets := if st.tk = chTok '}' then brackets - 1 else brackets
        let st ← lexMatch st.tk st
        blockSkipLoopF f brackets st
      else return st

/-- `Interpreter::unary`. -/
def unaryF : Nat → Bool → LexState → MRes (Option Value × LexState)
  | 0, _, _ => .exn .outOfFuel
  | f + 1, execute, st =>
      if st.tk = chTok '!' then do
        let st ← lexMatch (chTok '!') st
        let (a, st) ← factorF f execute st
        if execute then do
          let av ← getV a
          let res ← mathsOp av (mkInt 0) LEXER_EQUAL false
          return (some res, st)
        else return (a, st)
      else factorF f execute st

/-- `Interpreter::term`. -/
def termF : Nat → Bool → LexState → MRes (Option Value × LexState)
  | 0, _, _ => .exn .outOfFuel
  | f + 1, execute, st => do
      let (a, st) ← unaryF f execute st
      termLoopF f execute a st

/-- The `* / %` loop of `term`. -/
def termLoopF : Nat → Bool → Option Value → LexState → MRes (Option Value × LexState)
  | 0, _, _, _ => .exn .outOfFuel
  | f + 1, execute, a, st =>
      if st.tk = chTok '*' ∨ st.tk = chTok '/' ∨ st.tk = chTok '%' then do
        let op := st.tk
        let st ← lexMatch st.tk st
        let (b, st) ← unaryF f execute st
        if execute then do
          let av ← getV a
          let bv ← getV b
          let res ← mathsOp av bv op false
          termLoopF f execute (some res) st
        else termLoopF f execute a st
      else return (a, st)

/-- `Interpreter::expression` (unary minus via `zero.mathsOp(a, '-')`,
then the `+ - ++ --` loop). -/
def expressionF : Nat → Bool → LexState → MRes (Option Value × LexState)
  | 0, _, _ => .exn .outOfFuel
  | f + 1, execute, st => do
      let negate := st.tk = chTok '-'
      let st ← if negate then lexMatch (chTok '-') st else pure st
      let (a, st) ← termF f execute st
      let a ← if negate then do
          let av ← getV a
          let res ← mathsOp (mkInt 0) av (chTok '-') false
          pure (some res)
        else pure a
      exprLoopF f execute a st

/-- The `+ - ++ --` loop of `expression`.  For executed postfix `++`/`--`
the new value is stored into the link (transient here) and the loop
continues with the **old** value as the expression result, exactly as the
source's `oldValue` capture does. -/
def exprLoopF : Nat → Bool → Option Value → LexState → MRes (Option Value × LexState)
  | 0, _, _, _ => .exn .outOfFuel
  | f + 1, execute, a, st =>
      if st.tk = chTok '+' ∨ st.tk = chTok '-' ∨
         st.tk = LEXER_PLUSPLUS ∨ st.tk = LEXER_MINUSMINUS then do
        let op := st.tk
        let st ← lexMatch st.tk st
        if op = LEXER_PLUSPLUS ∨ op = LEXER_MINUSMINUS then
          if execute then do
            let av ← getV a
            let _ ← mathsOp av (mkInt 1)
              (if op = LEXER_PLUSPLUS then chTok '+' else chTok '-') false
            exprLoopF f execute (some av) st
          else exprLoopF f execute a st
        else do
          let (b, st) ← termF f execute st
          if execute then do
            let av ← getV a
            let bv ← getV b
            let res ← mathsOp av bv op false
            exprLoopF f execute (some res) st
          else exprLoopF f execute a st
      else return (a, st)

/-- `Interpreter::shift`.  `setInt` overwrites the (here transient)
operand node in place; producing the updated node is equivalent in this
scope-free fragment. -/
def shiftF : Nat → Bool → LexState → MRes (Option Value × LexState)
  | 0, _, _ => .exn .outOfFuel
  | f + 1, execute, st => do
      let (a, st) ← expressionF f execute st
      if st.tk = LEXER_LSHIFT ∨ st.tk = LEXER_RSHIFT ∨ st.tk = LEXER_RSHIFTUNSIGNED then do
        let op := st.tk
        let st ← lexMatch op st
        let (b, st) ← baseF f execute st
        if execute then do
          let bv ← getV b
          let shift := bv.getInt
          let av ← getV a
          let r ←
            if op = LEXER_LSHIFT then cShiftL av.getInt shift
            else if op = LEXER_RSHIFT then cShiftR av.getInt shift
            else cShiftRU av.getInt shift
          return (some (mkInt r), st)
        else return (a, st)
      else return (a, st)

/-- `Interpreter::condition`. -/
def conditionF : Nat → Bool → LexState → MRes (Option Value × LexState)
  | 0, _, _ => .exn .outOfFuel
  | f + 1, execute, st => do
      let (a, st) ← shiftF f execute st
      condLoopF f execute a st

/-- The comparison loop of `condition`. -/
def condLoopF : Nat → Bool → Option Value → LexState → MRes (Option Value × LexState)
  | 0, _, _, _ => .exn .outOfFuel
  | f + 1, execute, a, st =>
      if st.tk = LEXER_EQUAL ∨ st.tk = LEXER_NEQUAL ∨
         st.tk = LEXER_TYPEEQUAL ∨ st.tk = LEXER_NTYPEEQUAL ∨
         st.tk = LEXER_LEQUAL ∨ st.tk = LEXER_GEQUAL ∨
         st.tk = chTok '<' ∨ st.tk = chTok '>' then do
        let op := st.tk
        let st ← lexMatch st.tk st
        let (b, st) ← shiftF f execute st
        if execute then do
          let av ← getV a
          let bv ← getV b
          let res ← mathsOp av bv op false
          condLoopF f execute (some res) st
        else condLoopF f execute a st
      else return (a, st)

/-- `Interpreter::logic`. -/
def logicF : Nat → Bool → LexState → MRes (Option Value × LexState)
  | 0, _, _ => .exn .outOfFuel
  | f + 1, execute, st => do
      let (a, st) ← conditionF f execute st
      logicLoopF f execute a st

/-- The `& | ^ && ||` loop of `logic`, with the short-circuit handling and
the boolean coercion for the logical (non-bitwise) operators. -/
def logicLoopF : Nat → Bool → Option Value → LexState → MRes (Option Value × LexState)
  | 0, _, _, _ => .exn .outOfFuel
  | f + 1, execute, a, st =>
      if st.tk = chTok '&' ∨ st.tk = chTok '|' ∨ st.tk = chTok '^' ∨
         st.tk = LEXER_ANDAND ∨ st.tk = LEXER_OROR then do
        let op0 := st.tk
        let st ← lexMatch st.tk st
        let av ← getV a
        let op := if op0 = LEXER_ANDAND then chTok '&'
                  else if op0 = LEXER_OROR then chTok '|' else op0
        let shortCircuit := if op0 = LEXER_ANDAND then !av.getBool
                            else if op0 = LEXER_OROR then av.getBool else false
        let boolean := op0 = LEXER_ANDAND || op0 = LEXER_OROR
        let (b, st) ← conditionF f (if shortCircuit then false else execute) st
        if execute ∧ ¬shortCircuit then do
          let bv ← getV b
          let av2 := if boolean then mkInt (if av.getBool then 1 else 0) else av
          let bv2 := if boolean then mkInt (if bv.getBool then 1 else 0) else bv
          let res ← mathsOp av2 bv2 op false
          logicLoopF f execute (some res) st
        else logicLoopF f execute a st
      else return (a, st)

/-- `Interpreter::ternary`. -/
def ternaryF : Nat → Bool → LexState → MRes (Option Value × LexState)
  | 0, _, _ => .exn .outOfFuel
  | f + 1, execute, st => do
      let (lhs, st) ← logicF f execute st
      if st.tk = chTok '?' then do
        let st ← lexMatch (chTok '?') st
        if ¬execute then do
          let (_, st) ← baseF f false st
          let st ← lexMatch (chTok ':') st
          let (_, st) ← baseF f false st
          return (lhs, st)
        else do
          let lv ← getV lhs
          if lv.getBool then do
            let (lhs2, st) ← baseF f execute st
            let st ← lexMatch (chTok ':') st
            let (_, st) ← baseF f false st
            return (lhs2, st)
          else do
            let (_, st) ← baseF f false st
            let st ← lexMatch (chTok ':') st
            let (lhs2, st) ← baseF f execute st
            return (lhs2, st)
      else return (lhs, st)

/-- `Interpreter::base`.  Executed assignments store through owned links
and may hoist to the root scope: outside the fragment. -/
def baseF : Nat → Bool → LexState → MRes (Option Value × LexState)
  | 0, _, _ => .exn .outOfFuel
  | f + 1, execute, st => do
      let (lhs, st) ← ternaryF f execute st
      if st.tk = chTok '=' ∨ st.tk = LEXER_PLUSEQUAL ∨ st.tk = LEXER_MINUSEQUAL then
        if execute then .exn .unmodelled
        else do
          let st ← lexMatch st.tk st
          let (_, st) ← baseF f false st
          return (lhs, st)
      else return (lhs, st)

end

/-- The `do { CLEAN(v); v = base(execute); if (l->tk != EOF) match(';'); }
while (l->tk != EOF)` loop of `Interpreter::evaluateComplex`. -/
def evalLoopF : Nat → LexState → MRes (Option Value × LexState)
  | 0, _ => .exn .outOfFuel
  | f + 1, st => do
      let (v, st) ← baseF (st.dataEnd * 16 + 64) true st
      let st ← if st.tk ≠ LEXER_EOF then lexMatch (chTok ';') st else pure st
      if st.tk ≠ LEXER_EOF then evalLoopF f st else return (v, st)

/-- `Interpreter::evaluateComplex` restricted to scope-free code: run the
expression loop over a fresh lexer and return the final value (a fresh
undefined node when there was none).  The save/restore of the interpreter
members around this is modelled separately by `hostEntry`. -/
def evaluateComplexLit (code : List Char) : MRes Value := do
  let st := mkLexer code
  let (v, _) ← evalLoopF (st.dataEnd + 2) st
  match v with
  | some v => return v
  | none => return blankVar

/-- `Interpreter::evaluate`:
`return evaluateComplex(code).var->getString();`. -/
def evaluateLit (code : List Char) : MRes (List Char) := do
  let v ← evaluateComplexLit code
  return v.getString

-- ------------------------------------------------------------------
-- Claim C2 (strict equality and the concrete evaluate examples)
-- ------------------------------------------------------------------

/-- C2, amended.  `mathsOp(a, b, ===)` returns the true boolean exactly
when the type-tag subsets of the two flag fields are equal and the
recursive `==` is true, and `!==` returns the negation — as claimed.  The
concrete examples however print **"0"/"1"**, not "false"/"true": boolean
results are built with `new Variable(bool)`, which resolves to the `int`
constructor, and `getString` of an integer prints its decimal form. -/
theorem claim_C2_amended :
    (∀ (a b : Value) (s : Bool),
      mathsOp a b LEXER_TYPEEQUAL s =
        .ok (mkBool ((a.flags &&& VARIABLE_TYPEMASK == b.flags &&& VARIABLE_TYPEMASK)
          && equalsFn a b s)) ∧
      mathsOp a b LEXER_NTYPEEQUAL s =
        .ok (mkBool (!((a.flags &&& VARIABLE_TYPEMASK == b.flags &&& VARIABLE_TYPEMASK)
          && equalsFn a b s))))
    ∧ evaluateLit (cl ("1 === \"1\"")) = .ok (cl ("0"))
    ∧ evaluateLit (cl ("null === undefined")) = .ok (cl ("0"))
    ∧ evaluateLit (cl ("undefined == undefined")) = .ok (cl ("1"))
    ∧ evaluateLit (cl ("1 == 1")) = .ok (cl ("1")) :=
  ⟨fun a b s => ⟨mathsOp_typeEq_spec a b s, mathsOp_ntypeEq_spec a b s⟩,
   rfl, rfl, rfl, rfl⟩

/-- C2 counterexample.  The claim's concrete examples assert that
`evaluate` returns "false"/"true"; it returns "0"/"1". -/
theorem claim_C2_counterexample :
    evaluateLit (cl ("1 === \"1\"")) = .ok (cl ("0")) ∧ cl ("0") ≠ cl ("false") ∧
    evaluateLit (cl ("null === undefined")) = .ok (cl ("0")) ∧
    evaluateLit (cl ("undefined == undefined")) = .ok (cl ("1")) ∧ cl ("1") ≠ cl ("true") :=
  ⟨rfl, by decide, rfl, rfl, by decide⟩

-- ------------------------------------------------------------------
-- Claim C9 (unguarded integer division/modulo by zero)
-- ------------------------------------------------------------------

/-- The predicates of an integer-typed node (type mask exactly
`VARIABLE_INTEGER`). -/
theorem typemask_int_preds (v : Value)
    (h : v.flags &&& VARIABLE_TYPEMASK = VARIABLE_INTEGER) :
    v.isNumeric = true ∧ v.isDouble = false ∧ v.isUndefined = false ∧ v.isInt = true := by
  have e1 : (VARIABLE_TYPEMASK : Nat) = 127 := by decide
  have e2 : (VARIABLE_INTEGER : Nat) = 16 := by decide
  rw [e1, e2] at h
  have key : ∀ m : Nat, 127 &&& m = m → v.flags &&& m = 16 &&& m := by
    intro m hm
    have h1 : v.flags &&& m = v.flags &&& 127 &&& m := by
      rw [Nat.and_assoc, hm]
    rw [h1, h]
  have e3 : (VARIABLE_NUMERICMASK : Nat) = 88 := by decide
  have k88 := key 88 (by decide)
  have k8 := key 8 (by decide)
  have k16 := key 16 (by decide)
  refine ⟨?_, ?_, ?_, ?_⟩
  · simp only [Value.isNumeric, e3, k88]
    decide
  · simp only [Value.isDouble, VARIABLE_DOUBLE, k8]
    decide
  · simp only [Value.isUndefined, e1]
    rw [h]
    decide
  · simp only [Value.isInt, e2, k16]
    decide

/-- C9, confirmed.  For integer-typed operands the `/` and `%` cases of
`mathsOp` have no error branch for a zero divisor: the operation produces
an integer result exactly when the right operand's integer value is
nonzero, performs the machine division by zero (undefined behaviour,
`.trap`) when it is zero, and in no case raises an interpreter-level
`Exception`; consequently evaluating the scripts `1/0` and `1%0` traps
rather than producing any interpreter error. -/
theorem claim_C9 (a b : Value) (s : Bool)
    (ha : a.flags &&& VARIABLE_TYPEMASK = VARIABLE_INTEGER)
    (hb : b.flags &&& VARIABLE_TYPEMASK = VARIABLE_INTEGER) :
    ((b.getInt = 0 →
        mathsOp a b (chTok '/') s = .trap ∧ mathsOp a b (chTok '%') s = .trap)
      ∧ (b.getInt ≠ 0 →
        (∃ i, mathsOp a b (chTok '/') s = .ok (mkInt i)) ∧
        (∃ i, mathsOp a b (chTok '%') s = .ok (mkInt i)))
      ∧ (∀ e, mathsOp a b (chTok '/') s ≠ .exn e ∧ mathsOp a b (chTok '%') s ≠ .exn e))
    ∧ evaluateLit (cl ("1/0")) = .trap ∧ evaluateLit (cl ("1%0")) = .trap := by
  obtain ⟨han, had, hau, _⟩ := typemask_int_preds a ha
  obtain ⟨hbn, hbd, hbu, _⟩ := typemask_int_preds b hb
  refine ⟨⟨?_, ?_, ?_⟩, rfl, rfl⟩
  · intro hz
    constructor <;>
      · unfold mathsOp mathsOpF
        simp [LEXER_TYPEEQUAL, LEXER_NTYPEEQUAL, LEXER_EQUAL, LEXER_NEQUAL, LEXER_LEQUAL,
          LEXER_GEQUAL, han, had, hau, hbn, hbd, hbu, hz, chTok,
          chPlus, chMinus, chStar, chSlash, chAmp, chBar, chCaret, chPercent, chLt, chGt]
  · intro hz
    constructor <;>
      · unfold mathsOp mathsOpF
        simp [LEXER_TYPEEQUAL, LEXER_NTYPEEQUAL, LEXER_EQUAL, LEXER_NEQUAL, LEXER_LEQUAL,
          LEXER_GEQUAL, han, had, hau, hbn, hbd, hbu, hz, chTok,
          chPlus, chMinus, chStar, chSlash, chAmp, chBar, chCaret, chPercent, chLt, chGt]
  · intro e
    by_cases hz : b.getInt = 0 <;>
      · constructor <;>
          · unfold mathsOp mathsOpF
            simp [LEXER_TYPEEQUAL, LEXER_NTYPEEQUAL, LEXER_EQUAL, LEXER_NEQUAL, LEXER_LEQUAL,
              LEXER_GEQUAL, han, had, hau, hbn, hbd, hbu, hz, chTok,
              chPlus, chMinus, chStar, chSlash, chAmp, chBar, chCaret, chPercent, chLt, chGt]

/-- Witness for `claim_C9` at `1 / 0` and `7 / 2`. -/
theorem claim_C9_witness :
    (mathsOp (mkInt 1) (mkInt 0) (chTok '/') false = .trap ∧
      mathsOp (mkInt 1) (mkInt 0) (chTok '%') false = .trap) ∧
    ((∃ i, mathsOp (mkInt 7) (mkInt 2) (chTok '/') false = .ok (mkInt i)) ∧
      (∃ i, mathsOp (mkInt 7) (mkInt 2) (chTok '%') false = .ok (mkInt i))) :=
  ⟨(claim_C9 (mkInt 1) (mkInt 0) false (by decide) (by decide)).1.1 (by decide),
   (claim_C9 (mkInt 7) (mkInt 2) false (by decide) (by decide)).1.2.1 (by decide)⟩

-- ------------------------------------------------------------------
-- Claim C8: round-trip of getParsableString through evaluate.
-- Lexer-run lemmas: `Sees st cs` says the cursor of `st` stands at the
-- suffix `cs` of the (NUL-free, whole-buffer) lexer window, with
-- `currCh`/`nextCh` caching its first two characters.
-- ------------------------------------------------------------------

/-- Cursor invariant of a whole-buffer lexer. -/
structure Sees (st : LexState) (cs : List Char) : Prop where
  pos2 : 2 ≤ st.dataPos
  end_eq : st.dataEnd = st.data.length
  win : st.data.drop (st.dataPos - 2) = cs
  cur : st.currCh = cs.headD nul
  nxt : st.nextCh = (cs.drop 1).headD nul

theorem headD_drop (l : List Char) (n : Nat) :
    (l.drop n).headD nul = if n < l.length then l.getD n nul else nul := by
  induction l generalizing n with
  | nil => simp
  | cons c rest ih =>
      cases n with
      | zero => simp
      | succ m =>
          simp only [List.drop_succ_cons, List.length_cons, ih]
          by_cases h : m < rest.length
          · rw [if_pos h, if_pos (by omega)]
            simp
          · rw [if_neg h, if_neg (by omega)]

/-- `getNextCh` advances the invariant one character. -/
theorem getNextCh_sees {st : LexState} {cs : List Char} (h : Sees st cs) :
    Sees (getNextCh st) (cs.drop 1) := by
  obtain ⟨p2, he, hw, hc, hn⟩ := h
  refine ⟨by simp [getNextCh]; omega, by simp [getNextCh, he], ?_, ?_, ?_⟩
  · simp only [getNextCh]
    rw [show st.dataPos + 1 - 2 = (st.dataPos - 2) + 1 by omega, ← List.drop_drop, hw]
  · simp only [getNextCh, hn]
  · simp only [getNextCh, he]
    have h2 : (cs.drop 1).drop 1 = st.data.drop st.dataPos := by
      rw [← hw, List.drop_drop, List.drop_drop]
      congr 1
      omega
    rw [h2, headD_drop]

-- Character-code utilities for reasoning about variable characters.

theorem char_le_iff (a b : Char) : (a ≤ b) ↔ a.toNat ≤ b.toNat := by
  rw [Char.le_def]
  exact ⟨fun h => h, fun h => h⟩

theorem char_eq_of_toNat (a b : Char) (h : a.toNat = b.toNat) : a = b := by
  apply Char.eq_of_val_eq
  apply UInt32.eq_of_val_eq
  exact Fin.val_injective h

theorem char_toNat_of_eq {a b : Char} (h : a = b) : a.toNat = b.toNat := by rw [h]

/-- Numeric characters have codes 48–57. -/
theorem digit_bounds {c : Char} (h : isNumericCh c = true) :
    48 ≤ c.toNat ∧ c.toNat ≤ 57 := by
  simp only [isNumericCh, Bool.and_eq_true, decide_eq_true_eq, char_le_iff] at h
  exact h

theorem digit_ne {c : Char} (h : isNumericCh c = true) (d : Char)
    (hd : d.toNat < 48 ∨ 57 < d.toNat) : c ≠ d := by
  intro he
  have := digit_bounds h
  have := char_toNat_of_eq he
  omega

theorem not_alpha_of_digit {c : Char} (h : isNumericCh c = true) :
    isAlphaCh c = false := by
  have hb := digit_bounds h
  simp only [isAlphaCh, Bool.or_eq_false_iff, Bool.and_eq_false_iff,
    decide_eq_false_iff_not, char_le_iff]
  refine ⟨⟨?_, ?_⟩, ?_⟩
  · left
    show ¬(97 ≤ c.toNat)
    omega
  · left
    show ¬(65 ≤ c.toNat)
    omega
  · intro he
    have h2 := char_toNat_of_eq he
    have h3 : ('_').toNat = 95 := rfl
    omega

theorem not_ws_of_digit {c : Char} (h : isNumericCh c = true) :
    isWhitespaceCh c = false := by
  have hb := digit_bounds h
  simp only [isWhitespaceCh, Bool.or_eq_false_iff, decide_eq_false_iff_not]
  have hsp : (' ').toNat = 32 := rfl
  have hta : ('\t').toNat = 9 := rfl
  have hnl : ('\n').toNat = 10 := rfl
  have hcr : ('\r').toNat = 13 := rfl
  refine ⟨⟨⟨?_, ?_⟩, ?_⟩, ?_⟩ <;>
    · intro he
      have h2 := char_toNat_of_eq he
      omega

-- Sees helpers.

theorem sees_set_tkStr {st : LexState} {cs : List Char} (h : Sees st cs) (x : List Char) :
    Sees { st with tkStr := x } cs :=
  ⟨h.pos2, h.end_eq, h.win, h.cur, h.nxt⟩

theorem sees_set_tk {st : LexState} {cs : List Char} (h : Sees st cs) (x : Nat) :
    Sees { st with tk := x } cs :=
  ⟨h.pos2, h.end_eq, h.win, h.cur, h.nxt⟩

theorem sees_length {st : LexState} {cs : List Char} (h : Sees st cs) :
    cs.length ≤ st.dataEnd := by
  have hw := h.win
  have he := h.end_eq
  have := congrArg List.length hw
  simp only [List.length_drop] at this
  omega

theorem sees_currCh {st : LexState} {cs : List Char} (h : Sees st cs) :
    st.currCh = cs.headD nul := h.cur

/-- The state a loop leaves after consuming `k` characters, with `rest`
remaining, still satisfies the invariant. -/
theorem sees_advance {st : LexState} {pre rest : List Char} (h : Sees st (pre ++ rest))
    (tk' : List Char) :
    Sees { st with tkStr := tk', dataPos := st.dataPos + pre.length,
                   currCh := rest.headD nul, nextCh := (rest.drop 1).headD nul } rest := by
  obtain ⟨p2, he, hw, _, _⟩ := h
  refine ⟨by simp; omega, he, ?_, rfl, rfl⟩
  show st.data.drop (st.dataPos + pre.length - 2) = rest
  rw [show st.dataPos + pre.length - 2 = (st.dataPos - 2) + pre.length by omega,
      ← List.drop_drop, hw, List.drop_left]

/-- `skipWs` does nothing when the head character is not whitespace. -/
theorem skipWs_id (fuel : Nat) (st : LexState) (h : isWhitespaceCh st.currCh = false) :
    skipWs fuel st = st := by
  cases fuel with
  | zero => rfl
  | succ f =>
      simp only [skipWs, h]
      simp

/-- A full run of the digit loop: it consumes exactly the digits `ds` of the
window, appends them to the token text, and stops at `rest`. -/
theorem lexNumLoop_run (ds : List Char) :
    ∀ (rest : List Char) (st : LexState) (fuel : Nat), Sees st (ds ++ rest) →
    (∀ c ∈ ds, isNumericCh c = true) →
    isNumericCh (rest.headD nul) = false →
    ds.length ≤ fuel →
    lexNumLoop false fuel st =
      { st with tkStr := st.tkStr ++ ds,
                dataPos := st.dataPos + ds.length,
                currCh := rest.headD nul,
                nextCh := (rest.drop 1).headD nul } := by
  induction ds with
  | nil =>
      intro rest st fuel h _ hrest _
      obtain ⟨da, dst, de, dp, cc, nc, tk0, ts, u1, u2, u3⟩ := st
      have hcur : cc = rest.headD nul := by simpa using h.cur
      have hnxt : nc = (rest.drop 1).headD nul := by simpa using h.nxt
      subst hcur
      subst hnxt
      have hcond : isNumericCh (rest.headD nul) = false := hrest
      cases fuel with
      | zero => simp [lexNumLoop]
      | succ f =>
          have hc2 : (isNumericCh (rest.headD nul) ||
              (false && isHexCh (rest.headD nul))) = false := by rw [hcond]; rfl
          simp only [lexNumLoop, hc2, Bool.false_eq_true, if_false]
          simp
  | cons d ds ih =>
      intro rest st fuel h hds hrest hfuel
      obtain ⟨da, dst, de, dp, cc, nc, tk0, ts, u1, u2, u3⟩ := st
      have hcur : cc = d := by simpa using h.cur
      subst cc
      have hd : isNumericCh d = true := hds d (by simp)
      obtain ⟨f, rfl⟩ : ∃ f, fuel = f + 1 := by
        cases fuel with
        | zero => simp at hfuel
        | succ f => exact ⟨f, rfl⟩
      have hstep : lexNumLoop false (f + 1)
            ⟨da, dst, de, dp, d, nc, tk0, ts, u1, u2, u3⟩ =
          lexNumLoop false f
            (getNextCh ⟨da, dst, de, dp, d, nc, tk0, ts ++ [d], u1, u2, u3⟩) := by
        simp [lexNumLoop, hd]
      rw [hstep]
      have hsee1 : Sees (getNextCh ⟨da, dst, de, dp, d, nc, tk0, ts ++ [d], u1, u2, u3⟩)
          (ds ++ rest) := by
        have h0 : Sees ⟨da, dst, de, dp, d, nc, tk0, ts ++ [d], u1, u2, u3⟩
            ((d :: ds) ++ rest) :=
          ⟨h.pos2, h.end_eq, h.win, h.cur, h.nxt⟩
        have := getNextCh_sees h0
        simpa using this
      rw [ih rest _ f hsee1 (fun c hc => hds c (by simp [hc])) hrest (by simpa using hfuel)]
      simp [getNextCh, LexState.mk.injEq, List.append_assoc]
      omega

-- The double-quoted string loop on "safe" characters: printable ASCII
-- (codes 32–127) other than the quote and the backslash, plus newline.

/-- Characters whose `getJSString` escape the double-quote lexer decodes
back to the same character. -/
def safeCh (c : Char) : Bool :=
  c == '\n' ||
    (decide (32 ≤ c.toNat) && decide (c.toNat ≤ 127) && c != '"' && c != '\\')

/-- The escaped text of a string (the body `getJSString` puts between the
quotes). -/
def escList (s : List Char) : List Char := (s.map escC).flatten

theorem getJSString_eq (s : List Char) :
    getJSString s = '"' :: escList s ++ ['"'] := rfl

theorem safeCh_props {c : Char} (h : safeCh c = true) (hn : c ≠ '\n') :
    32 ≤ c.toNat ∧ c.toNat ≤ 127 ∧ c ≠ '"' ∧ c ≠ '\\' := by
  simp only [safeCh, Bool.or_eq_true, beq_iff_eq, Bool.and_eq_true, decide_eq_true_eq,
    bne_iff_ne, ne_eq] at h
  rcases h with h | h
  · exact absurd h hn
  · exact ⟨h.1.1.1, h.1.1.2, h.1.2, h.2⟩

/-- A safe non-newline character is emitted literally by `escC`. -/
theorem escC_lit {c : Char} (h32 : 32 ≤ c.toNat) (h127 : c.toNat ≤ 127)
    (hq : c ≠ '"') (hb : c ≠ '\\') : escC c = [c] := by
  have hn : c ≠ '\n' := by
    intro he
    have := char_toNat_of_eq he
    have h2 : ('\n').toNat = 10 := rfl
    omega
  have hr : c ≠ '\r' := by
    intro he
    have := char_toNat_of_eq he
    have h2 : ('\r').toNat = 13 := rfl
    omega
  have ha : c ≠ Char.ofNat 7 := by
    intro he
    have := char_toNat_of_eq he
    have h2 : (Char.ofNat 7).toNat = 7 := rfl
    omega
  have hmask : c.toNat &&& 255 = c.toNat := by
    have := Nat.and_pow_two_sub_one_eq_mod c.toNat 8
    norm_num at this
    rw [this]
    omega
  have hc1 : decide (c.toNat &&& 255 < 32) = false := by
    rw [hmask]
    exact decide_eq_false (by omega)
  have hc2 : decide (c.toNat &&& 255 > 127) = false := by
    rw [hmask]
    exact decide_eq_false (by omega)
  simp only [escC, hb, hn, hr, ha, hq, if_false, hc1, hc2, Bool.or_false, if_false]
  simp

/-- A full run of the double-quote string loop over the escaped text of a
safe string: it decodes exactly `s` and stops at the closing quote. -/
theorem lexStrDq_run (s : List Char) :
    ∀ (rest : List Char) (st : LexState) (fuel : Nat),
    Sees st (escList s ++ '"' :: rest) →
    s.all safeCh = true →
    s.length ≤ fuel →
    lexStrDq fuel st =
      { st with tkStr := st.tkStr ++ s,
                dataPos := st.dataPos + (escList s).length,
                currCh := '"',
                nextCh := (('"' :: rest).drop 1).headD nul } := by
  induction s with
  | nil =>
      intro rest st fuel h _ _
      obtain ⟨da, dst, de, dp, cc, nc, tk0, ts, u1, u2, u3⟩ := st
      have hcur : cc = '"' := by simpa [escList] using h.cur
      have hnxt : nc = rest.headD nul := by simpa [escList] using h.nxt
      subst cc
      subst nc
      cases fuel with
      | zero => simp [lexStrDq, escList]
      | succ f =>
          rw [lexStrDq]
          rw [if_neg (by simp)]
          simp [escList]
  | cons c s ih =>
      intro rest st fuel h hsafe hfuel
      have hs : safeCh c = true ∧ s.all safeCh = true := by
        simpa using hsafe
      obtain ⟨f, rfl⟩ : ∃ f, fuel = f + 1 := by
        cases fuel with
        | zero => simp at hfuel
        | succ f => exact ⟨f, rfl⟩
      have hfuel2 : s.length ≤ f := by simpa using hfuel
      by_cases hnl : c = '\n'
      · subst hnl
        have hesc : escList ('\n' :: s) = '\\' :: 'n' :: escList s := rfl
        rw [hesc] at h
        obtain ⟨da, dst, de, dp, cc, nc, tk0, ts, u1, u2, u3⟩ := st
        have hcur : cc = '\\' := by simpa using h.cur
        have hnxt : nc = 'n' := by
          have := h.nxt
          simp at this
          exact this
        subst cc
        subst nc
        have hstep : lexStrDq (f + 1)
              ⟨da, dst, de, dp, '\\', 'n', tk0, ts, u1, u2, u3⟩ =
            lexStrDq f ⟨da, dst, de, dp + 1 + 1,
              (if dp < de then da.getD dp nul else nul),
              (if dp + 1 < de then da.getD (dp + 1) nul else nul),
              tk0, ts ++ ['\n'], u1, u2, u3⟩ := rfl
        rw [hstep]
        have hsee2 : Sees (⟨da, dst, de, dp + 1 + 1,
            (if dp < de then da.getD dp nul else nul),
            (if dp + 1 < de then da.getD (dp + 1) nul else nul),
            tk0, ts ++ ['\n'], u1, u2, u3⟩ : LexState)
            (escList s ++ '"' :: rest) := by
          have h1 := getNextCh_sees h
          have h2 := sees_set_tkStr h1 (ts ++ ['\n'])
          have h3 := getNextCh_sees h2
          simp only [getNextCh] at h3
          simpa using h3
        rw [ih rest _ f hsee2 hs.2 hfuel2]
        have hlen : (escList ('\n' :: s)).length = (escList s).length + 2 := by
          rw [hesc]
          simp
        simp [LexState.mk.injEq, List.append_assoc, hlen]
        omega
      · have hp := safeCh_props hs.1 hnl
        by_cases hbs : c = '\\'
        · subst hbs
          exact absurd rfl hp.2.2.2
        · have hesc : escList (c :: s) = c :: escList s := by
            simp [escList, escC_lit hp.1 hp.2.1 hp.2.2.1 hbs]
          rw [hesc] at h
          obtain ⟨da, dst, de, dp, cc, nc, tk0, ts, u1, u2, u3⟩ := st
          have hcur : cc = c := by simpa using h.cur
          subst cc
          have hnul : c ≠ nul := by
            intro he
            have := char_toNat_of_eq he
            have h2 : nul.toNat = 0 := rfl
            omega
          rw [lexStrDq]
          rw [if_pos (by exact ⟨hnul, hp.2.2.1⟩)]
          rw [if_neg hbs]
          have hsee1 : Sees (getNextCh
              ⟨da, dst, de, dp, c, nc, tk0, ts ++ [c], u1, u2, u3⟩)
              (escList s ++ '"' :: rest) := by
            have h0 : Sees ⟨da, dst, de, dp, c, nc, tk0, ts ++ [c], u1, u2, u3⟩
                (c :: (escList s ++ '"' :: rest)) :=
              ⟨h.pos2, h.end_eq, h.win, h.cur, h.nxt⟩
            have := getNextCh_sees h0
            simpa using this
          rw [ih rest _ f hsee1 hs.2 hfuel2]
          have hlenc : (escList (c :: s)).length = (escList s).length + 1 := by
            rw [hesc]
            simp
          simp [getNextCh, LexState.mk.injEq, List.append_assoc, hlenc]
          omega

/-- `lexOps` is the identity when the lookahead character is NUL (no
multi-character operator can start). -/
theorem lexOps_nul (s : LexState) (hcur : s.currCh = nul) : lexOps s = s := by
  rw [lexOps, hcur]
  rw [if_neg (fun hx => absurd hx.2 (by decide))]
  rw [if_neg (fun hx => absurd hx.2 (by decide))]
  rw [if_neg (fun hx => absurd hx.2 (by decide))]
  rw [if_neg (fun hx => absurd hx.2 (by decide))]
  rw [if_neg (fun hx => absurd hx.2 (by decide))]
  rw [if_neg (fun hx => absurd hx.2 (by decide))]
  rw [if_neg (fun hx => absurd hx.2 (by decide))]
  rw [if_neg (fun hx => absurd hx.2 (by decide))]
  rw [if_neg (fun hx => absurd hx.2 (by decide))]
  rw [if_neg (fun hx => absurd hx.2 (by decide))]
  rw [if_neg (fun hx => absurd hx.2 (by decide))]
  rw [if_neg (fun hx => absurd hx.2 (by decide))]
  rw [if_neg (fun hx => absurd hx.2 (by decide))]
  rw [if_neg (fun hx => absurd hx.2 (by decide))]
  rw [if_neg (fun hx => absurd hx.2 (by decide))]

set_option maxHeartbeats 2000000 in
/-- `getNextToken` at the end of the buffer produces the EOF token. -/
theorem getNextToken_eof {st : LexState} (f : Nat) (h : Sees st []) :
    (getNextToken (f + 1) st).tk = LEXER_EOF := by
  obtain ⟨da, dst, de, dp, cc, nc, tk0, ts, u1, u2, u3⟩ := st
  have hcur : cc = nul := by simpa using h.cur
  have hnxt : nc = nul := by simpa using h.nxt
  subst cc
  subst nc
  simp only [getNextToken]
  rw [skipWs_id (de + 2) ⟨da, dst, de, dp, nul, nul, LEXER_EOF, [], u1, u2, u3⟩
    (show isWhitespaceCh nul = false by decide)]
  rw [if_neg (show ¬(nul = '/' ∧ nul = '/') by decide)]
  rw [if_neg (show ¬(nul = '/' ∧ nul = '*') by decide)]
  simp only [tokenCore]
  rw [if_neg (show ¬(isAlphaCh nul = true) by decide)]
  rw [if_neg (show ¬(isNumericCh nul = true) by decide)]
  rw [if_neg (show ¬(nul = '"') by decide)]
  rw [if_neg (show ¬(nul = '\'') by decide)]
  simp only [tokenPunct]
  rw [if_neg (show ¬(nul ≠ nul) by decide)]
  rw [lexOps_nul _ rfl]
  rfl

theorem drop_of_sees {st : LexState} {pre rest : List Char} (h : Sees st (pre ++ rest)) :
    st.data.drop (st.dataPos + pre.length - 2) = rest := by
  rw [show st.dataPos + pre.length - 2 = (st.dataPos - 2) + pre.length by
        have := h.pos2
        omega,
      ← List.drop_drop, h.win, List.drop_left]

/-- The first three stages of the number branch on a window opening with
the digits `d :: ds'`: they consume exactly those digits into the token
text with kind INT (the `0x` detour is not taken). -/
theorem tokenNum_digits (d : Char) (ds' rest' da : List Char)
    (dst de dp : Nat) (nc : Char) (t1 t2 t3 : Int)
    (h : Sees ⟨da, dst, de, dp, d, nc, LEXER_EOF, [], t1, t2, t3⟩ ((d :: ds') ++ rest'))
    (hds : ∀ c ∈ d :: ds', isNumericCh c = true)
    (hr1 : isNumericCh (rest'.headD nul) = false)
    (hrx : ¬(d :: ds' = ['0'] ∧ rest'.headD nul = 'x')) :
    tokenNumInt (tokenNumHex (tokenNumZero
        ⟨da, dst, de, dp, d, nc, LEXER_EOF, [], t1, t2, t3⟩)) =
      (false, ⟨da, dst, de, dp + (d :: ds').length, rest'.headD nul,
        (rest'.drop 1).headD nul, LEXER_INT, d :: ds', t1, t2, t3⟩) := by
  have hd : isNumericCh d = true := hds d (by simp)
  have hds' : ∀ c ∈ ds', isNumericCh c = true := fun c hc => hds c (by simp [hc])
  have hlen : (d :: ds').length ≤ de + 2 := by
    have h2 := sees_length h
    simp only [List.length_append] at h2
    simp only [List.length_cons] at h2 ⊢
    omega
  by_cases hd0 : d = '0'
  · subst hd0
    have hnc : nc = (ds' ++ rest').headD nul := by simpa using h.nxt
    subst nc
    have hxx : (ds' ++ rest').headD nul ≠ 'x' := by
      cases ds' with
      | nil =>
          intro he
          exact hrx ⟨rfl, by simpa using he⟩
      | cons d2 t =>
          intro he
          exact digit_ne (hds' d2 (by simp)) ('x') (by decide) (by simpa using he)
    have e1 : tokenNumZero ⟨da, dst, de, dp, '0', (ds' ++ rest').headD nul,
          LEXER_EOF, [], t1, t2, t3⟩ =
        ⟨da, dst, de, dp + 1, (ds' ++ rest').headD nul,
          (if dp < de then da.getD dp nul else nul),
          LEXER_EOF, ['0'], t1, t2, t3⟩ := by
      simp only [tokenNumZero]
      simp [getNextCh]
    have e2 : tokenNumHex ⟨da, dst, de, dp + 1, (ds' ++ rest').headD nul,
          (if dp < de then da.getD dp nul else nul),
          LEXER_EOF, ['0'], t1, t2, t3⟩ =
        (false, ⟨da, dst, de, dp + 1, (ds' ++ rest').headD nul,
          (if dp < de then da.getD dp nul else nul),
          LEXER_EOF, ['0'], t1, t2, t3⟩) := by
      simp only [tokenNumHex]
      rw [decide_eq_false hxx]
      simp
    have hsee3 : Sees (⟨da, dst, de, dp + 1, (ds' ++ rest').headD nul,
        (if dp < de then da.getD dp nul else nul), LEXER_INT, ['0'],
        t1, t2, t3⟩ : LexState) (ds' ++ rest') := by
      have h1 : Sees ⟨da, dst, de, dp, '0',
          (ds' ++ rest').headD nul, LEXER_EOF, [] ++ ['0'], t1, t2, t3⟩
          (('0' :: ds') ++ rest') :=
        ⟨h.pos2, h.end_eq, h.win, h.cur, h.nxt⟩
      have h2 := getNextCh_sees h1
      simp only [getNextCh] at h2
      have h4 : Sees (⟨da, dst, de, dp + 1, (ds' ++ rest').headD nul,
          (if dp < de then da.getD dp nul else nul), LEXER_EOF, ['0'],
          t1, t2, t3⟩ : LexState) (ds' ++ rest') := by
        have h3 := h2
        simp only [List.cons_append, List.drop_succ_cons, List.drop_zero] at h3
        exact h3
      exact ⟨h4.pos2, h4.end_eq, h4.win, h4.cur, h4.nxt⟩
    have e3 : tokenNumInt (false, (⟨da, dst, de, dp + 1, (ds' ++ rest').headD nul,
          (if dp < de then da.getD dp nul else nul),
          LEXER_EOF, ['0'], t1, t2, t3⟩ : LexState)) =
        (false, ⟨da, dst, de, dp + 1 + ds'.length, rest'.headD nul,
          (rest'.drop 1).headD nul, LEXER_INT, '0' :: ds',
          t1, t2, t3⟩) := by
      simp only [tokenNumInt]
      rw [lexNumLoop_run ds' rest' _ (de + 2) hsee3 hds' hr1
        (by simp only [List.length_cons] at hlen; omega)]
      simp
    rw [e1, e2, e3]
    simp [LexState.mk.injEq]
    omega
  · have e1 : tokenNumZero ⟨da, dst, de, dp, d, nc, LEXER_EOF, [],
          t1, t2, t3⟩ =
        ⟨da, dst, de, dp, d, nc, LEXER_EOF, [], t1, t2, t3⟩ := by
      simp only [tokenNumZero]
      rw [if_neg hd0]
    have hx : d ≠ 'x' := digit_ne hd ('x') (by decide)
    have e2 : tokenNumHex ⟨da, dst, de, dp, d, nc, LEXER_EOF, [],
          t1, t2, t3⟩ =
        (false, ⟨da, dst, de, dp, d, nc, LEXER_EOF, [], t1, t2, t3⟩) := by
      simp only [tokenNumHex]
      rw [decide_eq_false hx]
      simp
    have hsee1 : Sees (⟨da, dst, de, dp, d, nc, LEXER_INT, [],
        t1, t2, t3⟩ : LexState) ((d :: ds') ++ rest') :=
      ⟨h.pos2, h.end_eq, h.win, h.cur, h.nxt⟩
    have e3 : tokenNumInt (false, (⟨da, dst, de, dp, d, nc, LEXER_EOF, [],
          t1, t2, t3⟩ : LexState)) =
        (false, ⟨da, dst, de, dp + (d :: ds').length, rest'.headD nul,
          (rest'.drop 1).headD nul, LEXER_INT, d :: ds',
          t1, t2, t3⟩) := by
      simp only [tokenNumInt]
      rw [lexNumLoop_run (d :: ds') rest' _ (de + 2) hsee1 hds hr1 hlen]
      simp
    rw [e1, e2, e3]

/-- `getNextToken` on a window that starts with the digits `ds` followed by
characters that cannot extend a number token: an integer token carrying
exactly those digits. -/
theorem getNextToken_int {st : LexState} (f : Nat) (ds rest : List Char)
    (h : Sees st (ds ++ rest))
    (hne : ds ≠ [])
    (hds : ∀ c ∈ ds, isNumericCh c = true)
    (hr1 : isNumericCh (rest.headD nul) = false)
    (hr2 : rest.headD nul ≠ '.')
    (hr3 : rest.headD nul ≠ 'e')
    (hr4 : rest.headD nul ≠ 'E')
    (hr5 : ¬(ds = ['0'] ∧ rest.headD nul = 'x')) :
    (getNextToken (f + 1) st).tk = LEXER_INT ∧
    (getNextToken (f + 1) st).tkStr = ds ∧
    (getNextToken (f + 1) st).dataEnd = st.dataEnd ∧
    Sees (getNextToken (f + 1) st) rest := by
  obtain ⟨d, ds', rfl⟩ : ∃ d ds', ds = d :: ds' := by
    cases ds with
    | nil => exact absurd rfl hne
    | cons a b => exact ⟨a, b, rfl⟩
  have hd : isNumericCh d = true := hds d (by simp)
  obtain ⟨da, dst, de, dp, cc, nc, tk0, ts, u1, u2, u3⟩ := st
  have hcur : cc = d := by simpa using h.cur
  subst cc
  have hEq : getNextToken (f + 1) ⟨da, dst, de, dp, d, nc, tk0, ts, u1, u2, u3⟩ =
      ⟨da, dst, de, dp + (d :: ds').length, rest.headD nul, (rest.drop 1).headD nul,
        LEXER_INT, d :: ds', (dp : Int) - 2,
        ((dp + (d :: ds').length : Nat) : Int) - 3, u2⟩ := by
    simp only [getNextToken]
    rw [skipWs_id (de + 2) ⟨da, dst, de, dp, d, nc, LEXER_EOF, [], u1, u2, u3⟩
      (not_ws_of_digit hd)]
    rw [if_neg (fun hx => absurd hx.1 (digit_ne hd ('/') (by decide)))]
    rw [if_neg (fun hx => absurd hx.1 (digit_ne hd ('/') (by decide)))]
    simp only [tokenCore]
    rw [if_neg (by simp [not_alpha_of_digit hd])]
    rw [if_pos hd]
    simp only [tokenNumber]
    rw [tokenNum_digits d ds' rest da dst de dp nc ((dp : Int) - 2) u2 u3
      ⟨h.pos2, h.end_eq, h.win, h.cur, h.nxt⟩ hds hr1 hr5]
    have e4 : tokenNumFrac (false, (⟨da, dst, de, dp + (d :: ds').length, rest.headD nul,
          (rest.drop 1).headD nul, LEXER_INT, d :: ds',
          (dp : Int) - 2, u2, u3⟩ : LexState)) =
        (false, ⟨da, dst, de, dp + (d :: ds').length, rest.headD nul,
          (rest.drop 1).headD nul, LEXER_INT, d :: ds',
          (dp : Int) - 2, u2, u3⟩) := by
      simp only [tokenNumFrac]
      rw [if_neg (fun hx2 => absurd hx2.2 hr2)]
    have e5 : tokenNumExp (false, (⟨da, dst, de, dp + (d :: ds').length, rest.headD nul,
          (rest.drop 1).headD nul, LEXER_INT, d :: ds',
          (dp : Int) - 2, u2, u3⟩ : LexState)) =
        ⟨da, dst, de, dp + (d :: ds').length, rest.headD nul,
          (rest.drop 1).headD nul, LEXER_INT, d :: ds',
          (dp : Int) - 2, u2, u3⟩ := by
      simp only [tokenNumExp]
      rw [if_neg (fun hx2 => Or.elim hx2.2 (fun he => hr3 he) (fun he => hr4 he))]
    rw [e4, e5]
  rw [hEq]
  refine ⟨rfl, rfl, rfl, ?_, ?_, ?_, rfl, rfl⟩
  · have hp2 := h.pos2
    simp only [LexState.dataPos] at hp2 ⊢
    omega
  · exact h.end_eq
  · exact drop_of_sees h

/-- `getNextToken` on a window that starts with digits, a decimal point and
more digits, followed by characters that cannot extend the number: a float
token carrying exactly that text. -/
theorem getNextToken_float {st : LexState} (f : Nat) (ds fs rest : List Char)
    (h : Sees st (ds ++ '.' :: (fs ++ rest)))
    (hne : ds ≠ [])
    (hds : ∀ c ∈ ds, isNumericCh c = true)
    (hfs : ∀ c ∈ fs, isNumericCh c = true)
    (hr1 : isNumericCh (rest.headD nul) = false)
    (hr3 : rest.headD nul ≠ 'e')
    (hr4 : rest.headD nul ≠ 'E') :
    (getNextToken (f + 1) st).tk = LEXER_FLOAT ∧
    (getNextToken (f + 1) st).tkStr = ds ++ '.' :: fs ∧
    (getNextToken (f + 1) st).dataEnd = st.dataEnd ∧
    Sees (getNextToken (f + 1) st) rest := by
  obtain ⟨d, ds', rfl⟩ : ∃ d ds', ds = d :: ds' := by
    cases ds with
    | nil => exact absurd rfl hne
    | cons a b => exact ⟨a, b, rfl⟩
  have hd : isNumericCh d = true := hds d (by simp)
  obtain ⟨da, dst, de, dp, cc, nc, tk0, ts, u1, u2, u3⟩ := st
  have hcur : cc = d := by simpa using h.cur
  subst cc
  have hA : Sees (⟨da, dst, de, dp, d, nc, tk0, ts, u1, u2, u3⟩ : LexState)
      (((d :: ds') ++ '.' :: fs) ++ rest) := by
    have h2 := h
    rw [show (d :: ds') ++ '.' :: (fs ++ rest) = ((d :: ds') ++ '.' :: fs) ++ rest by
      simp [List.append_assoc]] at h2
    exact h2
  have hEq : getNextToken (f + 1) ⟨da, dst, de, dp, d, nc, tk0, ts, u1, u2, u3⟩ =
      ⟨da, dst, de, dp + ((d :: ds') ++ '.' :: fs).length, rest.headD nul,
        (rest.drop 1).headD nul, LEXER_FLOAT, (d :: ds') ++ '.' :: fs, (dp : Int) - 2,
        ((dp + ((d :: ds') ++ '.' :: fs).length : Nat) : Int) - 3, u2⟩ := by
    simp only [getNextToken]
    rw [skipWs_id (de + 2) ⟨da, dst, de, dp, d, nc, LEXER_EOF, [], u1, u2, u3⟩
      (not_ws_of_digit hd)]
    rw [if_neg (fun hx => absurd hx.1 (digit_ne hd ('/') (by decide)))]
    rw [if_neg (fun hx => absurd hx.1 (digit_ne hd ('/') (by decide)))]
    simp only [tokenCore]
    rw [if_neg (by simp [not_alpha_of_digit hd])]
    rw [if_pos hd]
    simp only [tokenNumber]
    rw [tokenNum_digits d ds' ('.' :: (fs ++ rest)) da dst de dp nc ((dp : Int) - 2) u2 u3
      ⟨h.pos2, h.end_eq, h.win, h.cur, h.nxt⟩ hds
      (by simp only [List.headD_cons]; decide)
      (fun hx => by simp only [List.headD_cons] at hx; exact absurd hx.2 (by decide))]
    simp only [List.headD_cons, List.drop_succ_cons, List.drop_zero]
    have hseeR2 : Sees (⟨da, dst, de, dp + (d :: ds').length, '.',
        (fs ++ rest).headD nul, LEXER_INT, d :: ds',
        (dp : Int) - 2, u2, u3⟩ : LexState) ('.' :: (fs ++ rest)) := by
      refine ⟨?_, h.end_eq, ?_, rfl, rfl⟩
      · have hp2 := h.pos2
        simp only [LexState.dataPos] at hp2 ⊢
        omega
      · exact drop_of_sees h
    have hseeS3 : Sees (⟨da, dst, de, dp + (d :: ds').length + 1,
        (fs ++ rest).headD nul,
        (if dp + (d :: ds').length < de then da.getD (dp + (d :: ds').length) nul else nul),
        LEXER_FLOAT, (d :: ds') ++ ['.'], (dp : Int) - 2, u2, u3⟩ : LexState)
        (fs ++ rest) := by
      have h1 : Sees ⟨da, dst, de, dp + (d :: ds').length, '.',
          (fs ++ rest).headD nul, LEXER_FLOAT, (d :: ds') ++ ['.'],
          (dp : Int) - 2, u2, u3⟩ ('.' :: (fs ++ rest)) :=
        ⟨hseeR2.pos2, hseeR2.end_eq, hseeR2.win, hseeR2.cur, hseeR2.nxt⟩
      have h2 := getNextCh_sees h1
      simp only [getNextCh] at h2
      have h3 : Sees (⟨da, dst, de, dp + (d :: ds').length + 1,
          (fs ++ rest).headD nul,
          (if dp + (d :: ds').length < de then da.getD (dp + (d :: ds').length) nul else nul),
          LEXER_FLOAT, (d :: ds') ++ ['.'], (dp : Int) - 2, u2, u3⟩ : LexState)
          (('.' :: (fs ++ rest)).drop 1) := h2
      simpa using h3
    have hlenf : fs.length ≤ de + 2 := by
      have h2 := sees_length hseeS3
      simp only [List.length_append, LexState.dataEnd] at h2 ⊢
      omega
    have e4 : tokenNumFrac (false, (⟨da, dst, de, dp + (d :: ds').length, '.',
          (fs ++ rest).headD nul, LEXER_INT, d :: ds',
          (dp : Int) - 2, u2, u3⟩ : LexState)) =
        (false, ⟨da, dst, de, dp + (d :: ds').length + 1 + fs.length, rest.headD nul,
          (rest.drop 1).headD nul, LEXER_FLOAT, ((d :: ds') ++ ['.']) ++ fs,
          (dp : Int) - 2, u2, u3⟩) := by
      simp only [tokenNumFrac]
      rw [if_pos (show ¬((false : Bool) = true) ∧ True from ⟨by simp, trivial⟩)]
      simp only [getNextCh]
      rw [lexNumLoop_run fs rest _ (de + 2) hseeS3 hfs hr1 hlenf]
    rw [e4]
    have e5 : tokenNumExp (false, (⟨da, dst, de, dp + (d :: ds').length + 1 + fs.length,
          rest.headD nul, (rest.drop 1).headD nul, LEXER_FLOAT,
          ((d :: ds') ++ ['.']) ++ fs, (dp : Int) - 2, u2, u3⟩ : LexState)) =
        ⟨da, dst, de, dp + (d :: ds').length + 1 + fs.length, rest.headD nul,
          (rest.drop 1).headD nul, LEXER_FLOAT, ((d :: ds') ++ ['.']) ++ fs,
          (dp : Int) - 2, u2, u3⟩ := by
      simp only [tokenNumExp]
      rw [if_neg (fun hx2 => Or.elim hx2.2 (fun he => hr3 he) (fun he => hr4 he))]
    rw [e5]
    simp [LexState.mk.injEq, List.append_assoc]
    omega
  rw [hEq]
  refine ⟨rfl, rfl, rfl, ?_, ?_, ?_, rfl, rfl⟩
  · have hp2 := h.pos2
    simp only [LexState.dataPos] at hp2 ⊢
    omega
  · exact hA.end_eq
  · exact drop_of_sees hA

theorem escC_len_pos (c : Char) : 1 ≤ (escC c).length := by
  unfold escC
  repeat' split
  all_goals simp [cl, apply_ite List.length]
  split <;> simp

theorem escList_len_ge (s : List Char) : s.length ≤ (escList s).length := by
  induction s with
  | nil => simp [escList]
  | cons c t ih =>
      have h1 := escC_len_pos c
      simp only [escList, List.map_cons, List.flatten_cons, List.length_append,
        List.length_cons] at ih ⊢
      omega

/-- `getNextToken` on a window that starts with a double-quoted string
literal built by `getJSString` from a safe string: a string token whose
text is the decoded string. -/
theorem getNextToken_str {st : LexState} (f : Nat) (s rest : List Char)
    (h : Sees st ('"' :: (escList s ++ '"' :: rest)))
    (hsafe : s.all safeCh = true) :
    (getNextToken (f + 1) st).tk = LEXER_STR ∧
    (getNextToken (f + 1) st).tkStr = s ∧
    (getNextToken (f + 1) st).dataEnd = st.dataEnd ∧
    Sees (getNextToken (f + 1) st) rest := by
  obtain ⟨da, dst, de, dp, cc, nc, tk0, ts, u1, u2, u3⟩ := st
  have hcur : cc = '"' := by simpa using h.cur
  subst cc
  have hnc : nc = (escList s ++ '"' :: rest).headD nul := by simpa using h.nxt
  subst nc
  have hsee0 : Sees (⟨da, dst, de, dp, '"', (escList s ++ '"' :: rest).headD nul,
      LEXER_EOF, [], (dp : Int) - 2, u2, u3⟩ : LexState)
      ('"' :: (escList s ++ '"' :: rest)) :=
    ⟨h.pos2, h.end_eq, h.win, h.cur, h.nxt⟩
  have hseeS1 : Sees (⟨da, dst, de, dp + 1, (escList s ++ '"' :: rest).headD nul,
      (if dp < de then da.getD dp nul else nul),
      LEXER_EOF, [], (dp : Int) - 2, u2, u3⟩ : LexState)
      (escList s ++ '"' :: rest) := by
    have h2 := getNextCh_sees hsee0
    simp only [getNextCh] at h2
    simpa using h2
  have hlen : s.length ≤ de + 2 := by
    have h2 := sees_length hseeS1
    have h3 := escList_len_ge s
    simp only [List.length_append, LexState.dataEnd] at h2
    omega
  have hseeS2 : Sees (⟨da, dst, de, dp + 1 + (escList s).length, '"',
      (('"' :: rest).drop 1).headD nul, LEXER_EOF, [] ++ s,
      (dp : Int) - 2, u2, u3⟩ : LexState) ('"' :: rest) := by
    refine ⟨?_, hseeS1.end_eq, drop_of_sees hseeS1, rfl, rfl⟩
    have hp2 := h.pos2
    simp only [LexState.dataPos] at hp2 ⊢
    omega
  have hseeFin : Sees (⟨da, dst, de, dp + 1 + (escList s).length + 1,
      (('"' :: rest).drop 1).headD nul,
      (if dp + 1 + (escList s).length < de
        then da.getD (dp + 1 + (escList s).length) nul else nul),
      LEXER_STR, [] ++ s, (dp : Int) - 2, u2, u3⟩ : LexState) rest := by
    have h1 : Sees (⟨da, dst, de, dp + 1 + (escList s).length, '"',
        (('"' :: rest).drop 1).headD nul, LEXER_STR, [] ++ s,
        (dp : Int) - 2, u2, u3⟩ : LexState) ('"' :: rest) :=
      ⟨hseeS2.pos2, hseeS2.end_eq, hseeS2.win, hseeS2.cur, hseeS2.nxt⟩
    have h2 := getNextCh_sees h1
    simp only [getNextCh] at h2
    simpa using h2
  have hEq : getNextToken (f + 1)
        ⟨da, dst, de, dp, '"', (escList s ++ '"' :: rest).headD nul, tk0, ts, u1, u2, u3⟩ =
      ⟨da, dst, de, dp + 1 + (escList s).length + 1,
        (('"' :: rest).drop 1).headD nul,
        (if dp + 1 + (escList s).length < de
          then da.getD (dp + 1 + (escList s).length) nul else nul),
        LEXER_STR, [] ++ s, (dp : Int) - 2,
        ((dp + 1 + (escList s).length + 1 : Nat) : Int) - 3, u2⟩ := by
    simp only [getNextToken]
    rw [skipWs_id (de + 2)
      ⟨da, dst, de, dp, '"', (escList s ++ '"' :: rest).headD nul, LEXER_EOF, [], u1, u2, u3⟩
      (show isWhitespaceCh ('"') = false by decide)]
    rw [if_neg (fun hx => absurd hx.1 (show ('"' : Char) ≠ '/' by decide))]
    rw [if_neg (fun hx => absurd hx.1 (show ('"' : Char) ≠ '/' by decide))]
    simp only [tokenCore]
    rw [if_neg (show ¬(isAlphaCh ('"') = true) by decide)]
    rw [if_neg (show ¬(isNumericCh ('"') = true) by decide)]
    rw [if_pos trivial]
    simp only [tokenStrD]
    simp only [getNextCh]
    rw [lexStrDq_run s rest _ (de + 2) hseeS1 hsafe hlen]
  rw [hEq]
  exact ⟨rfl, by simp, rfl,
    ⟨hseeFin.pos2, hseeFin.end_eq, hseeFin.win, hseeFin.cur, hseeFin.nxt⟩⟩

/-- `lexOps` is the identity on a minus token whose lookahead begins no
two-character operator. -/
theorem lexOps_minus (s : LexState) (htk : s.tk = chTok '-')
    (h1 : s.currCh ≠ '=') (h2 : s.currCh ≠ '-') : lexOps s = s := by
  rw [lexOps, htk]
  rw [if_neg (fun hx => absurd hx.1 (by decide))]
  rw [if_neg (fun hx => absurd hx.1 (by decide))]
  rw [if_neg (fun hx => absurd hx.1 (by decide))]
  rw [if_neg (fun hx => absurd hx.1 (by decide))]
  rw [if_neg (fun hx => absurd hx.1 (by decide))]
  rw [if_neg (fun hx => absurd hx.1 (by decide))]
  rw [if_neg (fun hx => absurd hx.1 (by decide))]
  rw [if_neg (fun hx => absurd hx.2 h1)]
  rw [if_neg (fun hx => absurd hx.1 (by decide))]
  rw [if_neg (fun hx => absurd hx.2 h2)]
  rw [if_neg (fun hx => absurd hx.1 (by decide))]
  rw [if_neg (fun hx => absurd hx.1 (by decide))]
  rw [if_neg (fun hx => absurd hx.1 (by decide))]
  rw [if_neg (fun hx => absurd hx.1 (by decide))]
  rw [if_neg (fun hx => absurd hx.1 (by decide))]

/-- `getNextToken` on a window that starts with a minus sign not followed
by `=` or another minus: the single-character `-` token. -/
theorem getNextToken_minus {st : LexState} (f : Nat) (rest : List Char)
    (h : Sees st ('-' :: rest))
    (hr1 : rest.headD nul ≠ '=')
    (hr2 : rest.headD nul ≠ '-') :
    (getNextToken (f + 1) st).tk = chTok '-' ∧
    (getNextToken (f + 1) st).dataEnd = st.dataEnd ∧
    Sees (getNextToken (f + 1) st) rest := by
  obtain ⟨da, dst, de, dp, cc, nc, tk0, ts, u1, u2, u3⟩ := st
  have hcur : cc = '-' := by simpa using h.cur
  subst cc
  have hnc : nc = rest.headD nul := by simpa using h.nxt
  subst nc
  have hsee0 : Sees (⟨da, dst, de, dp, '-', rest.headD nul,
      chTok '-', [], (dp : Int) - 2, u2, u3⟩ : LexState) ('-' :: rest) :=
    ⟨h.pos2, h.end_eq, h.win, h.cur, h.nxt⟩
  have hseeS2 : Sees (⟨da, dst, de, dp + 1, rest.headD nul,
      (if dp < de then da.getD dp nul else nul),
      chTok '-', [], (dp : Int) - 2, u2, u3⟩ : LexState) rest := by
    have h2 := getNextCh_sees hsee0
    simp only [getNextCh] at h2
    simpa using h2
  have hEq : getNextToken (f + 1)
        ⟨da, dst, de, dp, '-', rest.headD nul, tk0, ts, u1, u2, u3⟩ =
      ⟨da, dst, de, dp + 1, rest.headD nul,
        (if dp < de then da.getD dp nul else nul),
        chTok '-', [], (dp : Int) - 2, ((dp + 1 : Nat) : Int) - 3, u2⟩ := by
    simp only [getNextToken]
    rw [skipWs_id (de + 2)
      ⟨da, dst, de, dp, '-', rest.headD nul, LEXER_EOF, [], u1, u2, u3⟩
      (show isWhitespaceCh ('-') = false by decide)]
    rw [if_neg (fun hx => absurd hx.1 (show ('-' : Char) ≠ '/' by decide))]
    rw [if_neg (fun hx => absurd hx.1 (show ('-' : Char) ≠ '/' by decide))]
    simp only [tokenCore]
    rw [if_neg (show ¬(isAlphaCh ('-') = true) by decide)]
    rw [if_neg (show ¬(isNumericCh ('-') = true) by decide)]
    rw [if_neg (show ('-' : Char) ≠ '"' by decide)]
    rw [if_neg (show ('-' : Char) ≠ '\'' by decide)]
    simp only [tokenPunct]
    rw [if_pos (show ('-' : Char) ≠ nul by decide)]
    simp only [getNextCh]
    rw [lexOps_minus _ rfl hr1 hr2]
    rfl
  rw [hEq]
  exact ⟨rfl, rfl,
    ⟨hseeS2.pos2, hseeS2.end_eq, hseeS2.win, hseeS2.cur, hseeS2.nxt⟩⟩

/-- Constructing a lexer over NUL-free text puts the cursor invariant at
the whole text and hands over to `getNextToken`. -/
theorem mkLexer_run (code : List Char) (hnn : ∀ c ∈ code, c ≠ nul) :
    ∃ P : LexState, mkLexer code = getNextToken (code.length + 2) P ∧
      Sees P code ∧ P.dataEnd = code.length := by
  have hd : code.takeWhile (fun c => c ≠ nul) = code := by
    rw [List.takeWhile_eq_self_iff]
    intro a ha
    simpa using hnn a ha
  refine ⟨⟨code, 0, code.length, 2,
      (if 0 < code.length then code.getD 0 nul else nul),
      (if 1 < code.length then code.getD 1 nul else nul),
      0, [], 0, 0, 0⟩, ?_, ⟨by norm_num, rfl, by simp, ?_, ?_⟩, rfl⟩
  · simp only [mkLexer, lexReset, hd, getNextCh]
  · show (if 0 < code.length then code.getD 0 nul else nul) = code.headD nul
    rw [← headD_drop code 0]
    simp
  · show (if 1 < code.length then code.getD 1 nul else nul) = (code.drop 1).headD nul
    rw [headD_drop code 1]

-- Reduction helpers for the MRes monad and the expression tower.

theorem MRes.bind_ok {α β : Type} (v : α) (g : α → MRes β) :
    (MRes.ok v >>= g) = g v := rfl

theorem MRes.pure_eq {α : Type} (v : α) : (pure v : MRes α) = .ok v := rfl

theorem termLoop_exit (f : Nat) (a : Option Value) (st : LexState)
    (h2 : st.tk = LEXER_EOF) : termLoopF (f + 1) true a st = .ok (a, st) := by
  simp only [termLoopF, h2]
  rw [if_neg (by decide)]
  rfl

theorem exprLoop_exit (f : Nat) (a : Option Value) (st : LexState)
    (h2 : st.tk = LEXER_EOF) : exprLoopF (f + 1) true a st = .ok (a, st) := by
  simp only [exprLoopF, h2]
  rw [if_neg (by decide)]
  rfl

theorem condLoop_exit (f : Nat) (a : Option Value) (st : LexState)
    (h2 : st.tk = LEXER_EOF) : condLoopF (f + 1) true a st = .ok (a, st) := by
  simp only [condLoopF, h2]
  rw [if_neg (by decide)]
  rfl

theorem logicLoop_exit (f : Nat) (a : Option Value) (st : LexState)
    (h2 : st.tk = LEXER_EOF) : logicLoopF (f + 1) true a st = .ok (a, st) := by
  simp only [logicLoopF, h2]
  rw [if_neg (by decide)]
  rfl

theorem unary_of_factor {fuel : Nat} {st : LexState} {a : Option Value × LexState}
    (hf : factorF fuel true st = .ok a) (hne : st.tk ≠ chTok '!') :
    unaryF (fuel + 1) true st = .ok a := by
  simp only [unaryF]
  rw [if_neg hne]
  exact hf

theorem term_of_unary {fuel : Nat} {st : LexState} {a : Option Value} {st2 : LexState}
    (hf : unaryF fuel true st = .ok (a, st2)) (h2 : st2.tk = LEXER_EOF) :
    termF (fuel + 1) true st = .ok (a, st2) := by
  obtain ⟨g, rfl⟩ : ∃ g, fuel = g + 1 := by
    cases fuel with
    | zero => simp [unaryF] at hf
    | succ g => exact ⟨g, rfl⟩
  simp only [termF]
  rw [hf, MRes.bind_ok]
  exact termLoop_exit g a st2 h2

theorem expression_of_term {fuel : Nat} {st : LexState} {a : Option Value} {st2 : LexState}
    (hf : termF fuel true st = .ok (a, st2)) (h2 : st2.tk = LEXER_EOF)
    (hne : st.tk ≠ chTok '-') :
    expressionF (fuel + 1) true st = .ok (a, st2) := by
  obtain ⟨g, rfl⟩ : ∃ g, fuel = g + 1 := by
    cases fuel with
    | zero => simp [termF] at hf
    | succ g => exact ⟨g, rfl⟩
  simp only [expressionF, eq_false hne, if_false]
  rw [MRes.pure_eq, MRes.bind_ok, hf, MRes.bind_ok, MRes.pure_eq, MRes.bind_ok]
  exact exprLoop_exit g a st2 h2

theorem shift_of_expression {fuel : Nat} {st : LexState} {a : Option Value} {st2 : LexState}
    (hf : expressionF fuel true st = .ok (a, st2)) (h2 : st2.tk = LEXER_EOF) :
    shiftF (fuel + 1) true st = .ok (a, st2) := by
  simp only [shiftF]
  rw [hf, MRes.bind_ok]
  simp only [h2]
  rw [if_neg (by decide)]
  rfl

theorem condition_of_shift {fuel : Nat} {st : LexState} {a : Option Value} {st2 : LexState}
    (hf : shiftF fuel true st = .ok (a, st2)) (h2 : st2.tk = LEXER_EOF) :
    conditionF (fuel + 1) true st = .ok (a, st2) := by
  obtain ⟨g, rfl⟩ : ∃ g, fuel = g + 1 := by
    cases fuel with
    | zero => simp [shiftF] at hf
    | succ g => exact ⟨g, rfl⟩
  simp only [conditionF]
  rw [hf, MRes.bind_ok]
  exact condLoop_exit g a st2 h2

theorem logic_of_condition {fuel : Nat} {st : LexState} {a : Option Value} {st2 : LexState}
    (hf : conditionF fuel true st = .ok (a, st2)) (h2 : st2.tk = LEXER_EOF) :
    logicF (fuel + 1) true st = .ok (a, st2) := by
  obtain ⟨g, rfl⟩ : ∃ g, fuel = g + 1 := by
    cases fuel with
    | zero => simp [conditionF] at hf
    | succ g => exact ⟨g, rfl⟩
  simp only [logicF]
  rw [hf, MRes.bind_ok]
  exact logicLoop_exit g a st2 h2

theorem ternary_of_logic {fuel : Nat} {st : LexState} {a : Option Value} {st2 : LexState}
    (hf : logicF fuel true st = .ok (a, st2)) (h2 : st2.tk = LEXER_EOF) :
    ternaryF (fuel + 1) true st = .ok (a, st2) := by
  simp only [ternaryF]
  rw [hf, MRes.bind_ok]
  simp only [h2]
  rw [if_neg (by decide)]
  rfl

theorem base_of_ternary {fuel : Nat} {st : LexState} {a : Option Value} {st2 : LexState}
    (hf : ternaryF fuel true st = .ok (a, st2)) (h2 : st2.tk = LEXER_EOF) :
    baseF (fuel + 1) true st = .ok (a, st2) := by
  simp only [baseF]
  rw [hf, MRes.bind_ok]
  simp only [h2]
  rw [if_neg (by decide)]
  rfl

theorem evalLoop_of_base {f : Nat} {st : LexState} {v : Option Value} {st2 : LexState}
    (hb : baseF (st.dataEnd * 16 + 64) true st = .ok (v, st2))
    (h2 : st2.tk = LEXER_EOF) :
    evalLoopF (f + 1) st = .ok (v, st2) := by
  simp only [evalLoopF]
  rw [hb, MRes.bind_ok]
  rw [if_neg (not_not_intro h2), MRes.pure_eq, MRes.bind_ok]
  rw [if_neg (not_not_intro h2)]
  rfl

theorem factor_int {f : Nat} {st : LexState} (ht : st.tk = LEXER_INT) :
    factorF (f + 1) true st =
      .ok (some (varFromLiteral st.tkStr VARIABLE_INTEGER),
        getNextToken (st.dataEnd + 2) st) := by
  simp only [factorF, ht]
  rw [if_neg (show ¬(LEXER_INT = chTok ('(')) by decide)]
  rw [if_neg (show ¬(LEXER_INT = LEXER_RESERVED_TRUE) by decide)]
  rw [if_neg (show ¬(LEXER_INT = LEXER_RESERVED_FALSE) by decide)]
  rw [if_neg (show ¬(LEXER_INT = LEXER_RESERVED_NULL) by decide)]
  rw [if_neg (show ¬(LEXER_INT = LEXER_RESERVED_UNDEFINED) by decide)]
  rw [if_neg (show ¬(LEXER_INT = LEXER_ID) by decide)]
  rw [if_pos (Or.inl trivial)]
  rw [if_pos trivial]
  simp only [lexMatch, ht]
  rw [if_neg (show ¬¬(LEXER_INT = LEXER_INT) by decide)]
  rfl

theorem factor_float {f : Nat} {st : LexState} (ht : st.tk = LEXER_FLOAT) :
    factorF (f + 1) true st =
      .ok (some (varFromLiteral st.tkStr VARIABLE_DOUBLE),
        getNextToken (st.dataEnd + 2) st) := by
  simp only [factorF, ht]
  rw [if_neg (show ¬(LEXER_FLOAT = chTok ('(')) by decide)]
  rw [if_neg (show ¬(LEXER_FLOAT = LEXER_RESERVED_TRUE) by decide)]
  rw [if_neg (show ¬(LEXER_FLOAT = LEXER_RESERVED_FALSE) by decide)]
  rw [if_neg (show ¬(LEXER_FLOAT = LEXER_RESERVED_NULL) by decide)]
  rw [if_neg (show ¬(LEXER_FLOAT = LEXER_RESERVED_UNDEFINED) by decide)]
  rw [if_neg (show ¬(LEXER_FLOAT = LEXER_ID) by decide)]
  rw [if_pos (Or.inr trivial)]
  rw [if_neg (show ¬(LEXER_FLOAT = LEXER_INT) by decide)]
  simp only [lexMatch, ht]
  rw [if_neg (show ¬¬(LEXER_FLOAT = LEXER_FLOAT) by decide)]
  rfl

theorem factor_str {f : Nat} {st : LexState} (ht : st.tk = LEXER_STR) :
    factorF (f + 1) true st =
      .ok (some (varFromLiteral st.tkStr VARIABLE_STRING),
        getNextToken (st.dataEnd + 2) st) := by
  simp only [factorF, ht]
  rw [if_neg (show ¬(LEXER_STR = chTok ('(')) by decide)]
  rw [if_neg (show ¬(LEXER_STR = LEXER_RESERVED_TRUE) by decide)]
  rw [if_neg (show ¬(LEXER_STR = LEXER_RESERVED_FALSE) by decide)]
  rw [if_neg (show ¬(LEXER_STR = LEXER_RESERVED_NULL) by decide)]
  rw [if_neg (show ¬(LEXER_STR = LEXER_RESERVED_UNDEFINED) by decide)]
  rw [if_neg (show ¬(LEXER_STR = LEXER_ID) by decide)]
  rw [if_neg (show ¬(LEXER_STR = LEXER_INT ∨ LEXER_STR = LEXER_FLOAT) by decide)]
  rw [if_pos trivial]
  simp only [lexMatch, ht]
  rw [if_neg (show ¬¬(LEXER_STR = LEXER_STR) by decide)]
  rfl

/-- The unary-minus entry of `expression`: consume `-`, evaluate the term,
and negate via `zero.mathsOp(a, '-')`. -/
theorem expression_neg {f : Nat} {st : LexState} {b res : Value} {st3 : LexState}
    (hm : st.tk = chTok '-')
    (ht : termF f true (getNextToken (st.dataEnd + 2) st) = .ok (some b, st3))
    (h2 : st3.tk = LEXER_EOF)
    (hres : mathsOp (mkInt 0) b (chTok '-') false = .ok res) :
    expressionF (f + 1) true st = .ok (some res, st3) := by
  obtain ⟨g, rfl⟩ : ∃ g, f = g + 1 := by
    cases f with
    | zero => simp [termF] at ht
    | succ g => exact ⟨g, rfl⟩
  simp only [expressionF, eq_true hm, if_true]
  simp only [lexMatch]
  rw [if_neg (not_not_intro hm), MRes.bind_ok, ht, MRes.bind_ok]
  simp only [getV, MRes.bind_ok]
  rw [hres, MRes.bind_ok, MRes.pure_eq, MRes.bind_ok]
  exact exprLoop_exit g (some res) st3 h2

-- Decimal formatting and parsing are mutually inverse on the texts the
-- interpreter produces.

theorem char_toNat_ofNat (k : Nat) (h : k < 55296) : (Char.ofNat k).toNat = k := by
  simp [Char.ofNat, Char.toNat, Nat.isValidChar, UInt32.isValidChar, h, Char.ofNatAux,
    UInt32.toNat]

theorem digitCh_isNumeric (m : Nat) (h : m < 10) :
    isNumericCh (Char.ofNat (48 + m)) = true := by
  have ht : (Char.ofNat (48 + m)).toNat = 48 + m := char_toNat_ofNat _ (by omega)
  have h0 : ('0').toNat = 48 := rfl
  have h9 : ('9').toNat = 57 := rfl
  simp only [isNumericCh, Bool.and_eq_true, decide_eq_true_eq, char_le_iff, ht, h0, h9]
  omega

theorem digitCh_val (m : Nat) (h : m < 10) :
    digitVal (Char.ofNat (48 + m)) = m := by
  have ht : (Char.ofNat (48 + m)).toNat = 48 + m := char_toNat_ofNat _ (by omega)
  have h0 : ('0').toNat = 48 := rfl
  have h9 : ('9').toNat = 57 := rfl
  rw [digitVal, if_pos]
  · omega
  · constructor
    · rw [char_le_iff, ht, h0]
      omega
    · rw [char_le_iff, ht, h9]
      omega

theorem digitVal_lt_of_numeric {c : Char} (h : isNumericCh c = true) :
    digitVal c < 10 := by
  have hb := digit_bounds h
  have h0 : ('0').toNat = 48 := rfl
  have h9 : ('9').toNat = 57 := rfl
  rw [digitVal, if_pos]
  · omega
  · constructor
    · rw [char_le_iff, h0]
      omega
    · rw [char_le_iff, h9]
      omega

theorem parseDigitsBase_append (b : Nat) (xs ys : List Char)
    (hxs : ∀ c ∈ xs, digitVal c < b) :
    ∀ acc, parseDigitsBase b (xs ++ ys) acc = parseDigitsBase b ys (parseDigitsBase b xs acc) := by
  induction xs with
  | nil => intro acc; rfl
  | cons c t ih =>
      intro acc
      have hc : digitVal c < b := hxs c (by simp)
      simp only [List.cons_append, parseDigitsBase, if_pos hc]
      exact ih (fun d hd => hxs d (by simp [hd])) _

theorem headD_append_left (l l' : List Char) (h : l ≠ []) :
    (l ++ l').headD nul = l.headD nul := by
  cases l with
  | nil => exact absurd rfl h
  | cons c t => simp

theorem natDecCharsAux_spec (fuel : Nat) : ∀ m, m < 10 ^ fuel → 1 ≤ fuel →
    (∀ c ∈ natDecCharsAux fuel m, isNumericCh c = true) ∧
    natDecCharsAux fuel m ≠ [] ∧
    (∀ acc, parseDigitsBase 10 (natDecCharsAux fuel m) acc =
      acc * 10 ^ (natDecCharsAux fuel m).length + m) ∧
    (1 ≤ m → (natDecCharsAux fuel m).headD nul ≠ '0') := by
  induction fuel with
  | zero => intro m _ hf; omega
  | succ f ih =>
      intro m hm _
      by_cases hsm : m < 10
      · simp only [natDecCharsAux, if_pos hsm]
        refine ⟨?_, by simp, ?_, ?_⟩
        · intro c hc
          simp only [List.mem_singleton] at hc
          subst hc
          exact digitCh_isNumeric m hsm
        · intro acc
          simp only [parseDigitsBase, if_pos (by rw [digitCh_val m hsm]; omega : digitVal (Char.ofNat (48 + m)) < 10)]
          rw [digitCh_val m hsm]
          simp [pow_one]
        · intro h1 he
          simp only [List.headD_cons] at he
          have := char_toNat_of_eq he
          rw [char_toNat_ofNat _ (by omega)] at this
          have h0 : ('0').toNat = 48 := rfl
          omega
      · have hq : m / 10 < 10 ^ f := by
          rw [Nat.div_lt_iff_lt_mul (by norm_num)]
          calc m < 10 ^ (f + 1) := hm
          _ = 10 ^ f * 10 := by rw [pow_succ]
        have hf1 : 1 ≤ f := by
          rcases Nat.eq_zero_or_pos f with hf0 | hf0
          · subst hf0
            simp at hq
            omega
          · exact hf0
        obtain ⟨ihd, ihne, ihp, ihh⟩ := ih (m / 10) hq hf1
        simp only [natDecCharsAux, if_neg hsm]
        have hr : m % 10 < 10 := Nat.mod_lt _ (by norm_num)
        refine ⟨?_, by simp, ?_, ?_⟩
        · intro c hc
          rcases List.mem_append.mp hc with hc | hc
          · exact ihd c hc
          · simp only [List.mem_singleton] at hc
            subst hc
            exact digitCh_isNumeric _ hr
        · intro acc
          rw [parseDigitsBase_append 10 _ _
            (fun c hc => digitVal_lt_of_numeric (ihd c hc))]
          rw [ihp acc]
          simp only [parseDigitsBase,
            if_pos (by rw [digitCh_val _ hr]; omega : digitVal (Char.ofNat (48 + m % 10)) < 10)]
          rw [digitCh_val _ hr]
          simp only [List.length_append, List.length_cons, List.length_nil]
          have hdm := Nat.div_add_mod m 10
          rw [pow_succ]
          ring_nf
          omega
        · intro _ he
          rw [headD_append_left _ _ ihne] at he
          exact ihh (by omega) he

theorem natDecChars_spec (n : Nat) :
    (∀ c ∈ natDecChars n, isNumericCh c = true) ∧
    natDecChars n ≠ [] ∧
    parseDigitsBase 10 (natDecChars n) 0 = n ∧
    (1 ≤ n → (natDecChars n).headD nul ≠ '0') := by
  have hub : n < 10 ^ (n + 1) := by
    calc n < 10 ^ n := Nat.lt_pow_self (by norm_num) n
    _ ≤ 10 ^ (n + 1) := Nat.pow_le_pow_right (by norm_num) (by omega)
  obtain ⟨h1, h2, h3, h4⟩ := natDecCharsAux_spec (n + 1) n hub (by omega)
  exact ⟨h1, h2, by have := h3 0; simpa using this, h4⟩

/-- `strtol` on a digit string with a nonzero leading digit takes the
decimal branch. -/
theorem parseCLong_digits (c : Char) (t : List Char)
    (hcd : isNumericCh c = true) (hc0 : c ≠ '0') :
    parseCLong (c :: t) = clampLong false (parseDigitsBase 10 (c :: t) 0) := by
  have hws : isWhitespaceCh c = false := not_ws_of_digit hcd
  have hneg : c ≠ '-' := digit_ne hcd ('-') (by decide)
  have hpos : c ≠ '+' := digit_ne hcd ('+') (by decide)
  simp only [parseCLong]
  rw [List.dropWhile_cons]
  simp only [hws, Bool.false_eq_true, if_false]
  have hsign : (match c :: t with
      | '-' :: r => (true, r)
      | '+' :: r => (false, r)
      | x => (false, c :: t)) = (false, c :: t) := by
    split
    · rename_i heq
      rw [List.cons.injEq] at heq
      exact absurd heq.1 hneg
    · rename_i heq
      rw [List.cons.injEq] at heq
      exact absurd heq.1 hpos
    · rfl
  simp only [hsign]
  split
  · rename_i heq
    rw [List.cons.injEq] at heq
    exact absurd heq.1 hc0
  · rename_i heq
    rw [List.cons.injEq] at heq
    exact absurd heq.1 hc0
  · rename_i heq
    rw [List.cons.injEq] at heq
    exact absurd heq.1 hc0
  · rfl

/-- `strtol` inverts decimal formatting on the long range. -/
theorem parseCLong_natDecChars (n : Nat) (h : n < 9223372036854775808) :
    parseCLong (natDecChars n) = (n : Int) := by
  rcases Nat.eq_zero_or_pos n with h0 | h0
  · subst h0
    rfl
  · obtain ⟨hd, hne, hp, hh⟩ := natDecChars_spec n
    obtain ⟨c, t, hct⟩ : ∃ c t, natDecChars n = c :: t := by
      cases hcase : natDecChars n with
      | nil => exact absurd hcase hne
      | cons a b => exact ⟨a, b, rfl⟩
    have hcd : isNumericCh c = true := hd c (by rw [hct]; simp)
    have hc0 : c ≠ '0' := by
      have h2 := hh h0
      rw [hct] at h2
      simpa using h2
    rw [hct, parseCLong_digits c t hcd hc0, ← hct, hp, clampLong]
    simp only [Bool.false_eq_true, if_false]
    rw [if_neg (by omega)]

-- Boolean and arithmetic bridges for the equality results.

theorem getBool_mkBool (b : Bool) : (mkBool b).getBool = b := by
  cases b <;> rfl

theorem getInt_intShape (m : Int) :
    (Value.mk VARIABLE_INTEGER m 0 [] []).getInt = wrap32 m := by
  have hii : (Value.mk VARIABLE_INTEGER m 0 [] []).isInt = true :=
    (by decide : (VARIABLE_INTEGER &&& VARIABLE_INTEGER != 0) = true)
  unfold Value.getInt
  rw [hii]
  simp
  rfl

theorem getDouble_dblShape (p : ℚ) :
    (Value.mk VARIABLE_DOUBLE 0 p [] []).getDouble = p := by
  have hdd : (Value.mk VARIABLE_DOUBLE 0 p [] []).isDouble = true :=
    (by decide : (VARIABLE_DOUBLE &&& VARIABLE_DOUBLE != 0) = true)
  unfold Value.getDouble
  rw [hdd]
  simp
  rfl

theorem getDouble_mkInt0 : (mkInt 0).getDouble = 0 := by
  have h1 : (mkInt 0).isDouble = false :=
    (by decide : (VARIABLE_INTEGER &&& VARIABLE_DOUBLE != 0) = false)
  have h2 : (mkInt 0).isInt = true :=
    (by decide : (VARIABLE_INTEGER &&& VARIABLE_INTEGER != 0) = true)
  unfold Value.getDouble
  rw [h1, h2]
  simp
  rfl

theorem getString_strShape (s : List Char) :
    (Value.mk VARIABLE_STRING 0 0 s []).getString = s := by
  have h1 : (Value.mk VARIABLE_STRING 0 0 s []).isInt = false :=
    (by decide : (VARIABLE_STRING &&& VARIABLE_INTEGER != 0) = false)
  have h2 : (Value.mk VARIABLE_STRING 0 0 s []).isDouble = false :=
    (by decide : (VARIABLE_STRING &&& VARIABLE_DOUBLE != 0) = false)
  have h3 : (Value.mk VARIABLE_STRING 0 0 s []).isNull = false :=
    (by decide : (VARIABLE_STRING &&& VARIABLE_NULL != 0) = false)
  have h4 : (Value.mk VARIABLE_STRING 0 0 s []).isUndefined = false :=
    (by decide : (VARIABLE_STRING &&& VARIABLE_TYPEMASK == 0) = false)
  unfold Value.getString
  rw [h1, h2, h3, h4]
  simp
  rfl

theorem mathsOpF_int_int (m i : Int) (op : Nat) :
    mathsOpF (mkInt m) (Value.mk VARIABLE_INTEGER i 0 [] []) op false =
      (if op = chTok '+' then .ok (mkInt (wrap32 (wrap32 m + wrap32 i)))
      else if op = chTok '-' then .ok (mkInt (wrap32 (wrap32 m - wrap32 i)))
      else if op = chTok '*' then .ok (mkInt (wrap32 (wrap32 m * wrap32 i)))
      else if op = chTok '/' then
        if wrap32 i = 0 then .trap else .ok (mkInt (wrap32 (Int.tdiv (wrap32 m) (wrap32 i))))
      else if op = chTok '&' then .ok (mkInt (intAnd (wrap32 m) (wrap32 i)))
      else if op = chTok '|' then .ok (mkInt (intOr (wrap32 m) (wrap32 i)))
      else if op = chTok '^' then .ok (mkInt (intXor (wrap32 m) (wrap32 i)))
      else if op = chTok '%' then
        if wrap32 i = 0 then .trap else .ok (mkInt (wrap32 (Int.tmod (wrap32 m) (wrap32 i))))
      else if op = LEXER_EQUAL then .ok (mkBool (wrap32 m = wrap32 i))
      else if op = LEXER_NEQUAL then .ok (mkBool (wrap32 m ≠ wrap32 i))
      else if op = chTok '<' then .ok (mkBool (wrap32 m < wrap32 i))
      else if op = LEXER_LEQUAL then .ok (mkBool (wrap32 m ≤ wrap32 i))
      else if op = chTok '>' then .ok (mkBool (wrap32 m > wrap32 i))
      else if op = LEXER_GEQUAL then .ok (mkBool (wrap32 m ≥ wrap32 i))
      else .exn (.notSupported op (cl ("Int")))) := by
  have hu : ((mkInt m).isUndefined &&
      (Value.mk VARIABLE_INTEGER i 0 [] []).isUndefined) = false :=
    (by decide : ((VARIABLE_INTEGER &&& VARIABLE_TYPEMASK == 0) &&
      (VARIABLE_INTEGER &&& VARIABLE_TYPEMASK == 0)) = false)
  have hn : (((mkInt m).isNumeric || (mkInt m).isUndefined) &&
      ((Value.mk VARIABLE_INTEGER i 0 [] []).isNumeric ||
        (Value.mk VARIABLE_INTEGER i 0 [] []).isUndefined)) = true :=
    (by decide : (((VARIABLE_INTEGER &&& VARIABLE_NUMERICMASK != 0) ||
        (VARIABLE_INTEGER &&& VARIABLE_TYPEMASK == 0)) &&
      ((VARIABLE_INTEGER &&& VARIABLE_NUMERICMASK != 0) ||
        (VARIABLE_INTEGER &&& VARIABLE_TYPEMASK == 0))) = true)
  have hd : (!(mkInt m).isDouble &&
      !(Value.mk VARIABLE_INTEGER i 0 [] []).isDouble) = true :=
    (by decide : ((!(VARIABLE_INTEGER &&& VARIABLE_DOUBLE != 0)) &&
      (!(VARIABLE_INTEGER &&& VARIABLE_DOUBLE != 0))) = true)
  have hg1 : (mkInt m).getInt = wrap32 m := getInt_intShape m
  have hg2 : (Value.mk VARIABLE_INTEGER i 0 [] []).getInt = wrap32 i := getInt_intShape i
  unfold mathsOpF
  rw [hu, hn, hd]
  rw [if_neg (by simp), if_pos rfl, if_pos rfl]
  rw [hg1, hg2]

theorem mathsOp_zero_minus_int (i : Int) :
    mathsOp (mkInt 0) (Value.mk VARIABLE_INTEGER i 0 [] []) (chTok ('-')) false =
      .ok (mkInt (wrap32 (0 - wrap32 i))) := by
  rw [mathsOp_nonTypeEq _ _ _ _ (by decide), mathsOpF_int_int]
  rw [if_neg (by decide), if_pos rfl]
  have h0 : wrap32 (0 : Int) = 0 := by decide
  rw [h0]

theorem equals_int (m i : Int) :
    equalsFn (mkInt m) (Value.mk VARIABLE_INTEGER i 0 [] []) false =
      decide (wrap32 m = wrap32 i) := by
  have h : mathsOp (mkInt m) (Value.mk VARIABLE_INTEGER i 0 [] []) LEXER_EQUAL false =
      .ok (mkBool (decide (wrap32 m = wrap32 i))) := by
    rw [mathsOp_nonTypeEq _ _ _ _ (by decide), mathsOpF_int_int]
    rw [if_neg (by decide), if_neg (by decide), if_neg (by decide), if_neg (by decide),
      if_neg (by decide), if_neg (by decide), if_neg (by decide), if_neg (by decide),
      if_pos rfl]
  simp only [equalsFn, h]
  exact getBool_mkBool _

theorem equals_dbl_mo (q p : ℚ) :
    mathsOpF (mkDouble q) (Value.mk VARIABLE_DOUBLE 0 p [] []) LEXER_EQUAL false =
      .ok (mkBool (decide (q = p))) := by
  have hu : ((mkDouble q).isUndefined &&
      (Value.mk VARIABLE_DOUBLE 0 p [] []).isUndefined) = false :=
    (by decide : ((VARIABLE_DOUBLE &&& VARIABLE_TYPEMASK == 0) &&
      (VARIABLE_DOUBLE &&& VARIABLE_TYPEMASK == 0)) = false)
  have hn : (((mkDouble q).isNumeric || (mkDouble q).isUndefined) &&
      ((Value.mk VARIABLE_DOUBLE 0 p [] []).isNumeric ||
        (Value.mk VARIABLE_DOUBLE 0 p [] []).isUndefined)) = true :=
    (by decide : (((VARIABLE_DOUBLE &&& VARIABLE_NUMERICMASK != 0) ||
        (VARIABLE_DOUBLE &&& VARIABLE_TYPEMASK == 0)) &&
      ((VARIABLE_DOUBLE &&& VARIABLE_NUMERICMASK != 0) ||
        (VARIABLE_DOUBLE &&& VARIABLE_TYPEMASK == 0))) = true)
  have hd : (!(mkDouble q).isDouble &&
      !(Value.mk VARIABLE_DOUBLE 0 p [] []).isDouble) = false :=
    (by decide : ((!(VARIABLE_DOUBLE &&& VARIABLE_DOUBLE != 0)) &&
      (!(VARIABLE_DOUBLE &&& VARIABLE_DOUBLE != 0))) = false)
  have hg1 : (mkDouble q).getDouble = q := getDouble_dblShape q
  have hg2 : (Value.mk VARIABLE_DOUBLE 0 p [] []).getDouble = p := getDouble_dblShape p
  unfold mathsOpF
  rw [hu, hn, hd]
  rw [if_neg (by simp), if_pos rfl, if_neg (by simp)]
  rw [hg1, hg2]
  rw [if_neg (by decide), if_neg (by decide), if_neg (by decide), if_neg (by decide),
    if_pos rfl]

theorem equals_dbl (q p : ℚ) :
    equalsFn (mkDouble q) (Value.mk VARIABLE_DOUBLE 0 p [] []) false =
      decide (q = p) := by
  have h : mathsOp (mkDouble q) (Value.mk VARIABLE_DOUBLE 0 p [] []) LEXER_EQUAL false =
      .ok (mkBool (decide (q = p))) := by
    rw [mathsOp_nonTypeEq _ _ _ _ (by decide)]
    exact equals_dbl_mo q p
  simp only [equalsFn, h]
  exact getBool_mkBool _

theorem mathsOp_zero_minus_dbl (p : ℚ) :
    mathsOp (mkInt 0) (Value.mk VARIABLE_DOUBLE 0 p [] []) (chTok ('-')) false =
      .ok (mkDouble (0 - p)) := by
  have hu : ((mkInt 0).isUndefined &&
      (Value.mk VARIABLE_DOUBLE 0 p [] []).isUndefined) = false :=
    (by decide : ((VARIABLE_INTEGER &&& VARIABLE_TYPEMASK == 0) &&
      (VARIABLE_DOUBLE &&& VARIABLE_TYPEMASK == 0)) = false)
  have hn : (((mkInt 0).isNumeric || (mkInt 0).isUndefined) &&
      ((Value.mk VARIABLE_DOUBLE 0 p [] []).isNumeric ||
        (Value.mk VARIABLE_DOUBLE 0 p [] []).isUndefined)) = true :=
    (by decide : (((VARIABLE_INTEGER &&& VARIABLE_NUMERICMASK != 0) ||
        (VARIABLE_INTEGER &&& VARIABLE_TYPEMASK == 0)) &&
      ((VARIABLE_DOUBLE &&& VARIABLE_NUMERICMASK != 0) ||
        (VARIABLE_DOUBLE &&& VARIABLE_TYPEMASK == 0))) = true)
  have hd : (!(mkInt 0).isDouble &&
      !(Value.mk VARIABLE_DOUBLE 0 p [] []).isDouble) = false :=
    (by decide : ((!(VARIABLE_INTEGER &&& VARIABLE_DOUBLE != 0)) &&
      (!(VARIABLE_DOUBLE &&& VARIABLE_DOUBLE != 0))) = false)
  have hg1 : (mkInt 0).getDouble = 0 := getDouble_mkInt0
  have hg2 : (Value.mk VARIABLE_DOUBLE 0 p [] []).getDouble = p := getDouble_dblShape p
  rw [mathsOp_nonTypeEq _ _ _ _ (by decide)]
  unfold mathsOpF
  rw [hu, hn, hd]
  rw [if_neg (by simp), if_pos rfl, if_neg (by simp)]
  rw [hg1, hg2]
  rw [if_neg (by decide), if_pos rfl]

theorem equals_str_mo (s t : List Char) :
    mathsOpF (mkStr s) (Value.mk VARIABLE_STRING 0 0 t []) LEXER_EQUAL false =
      .ok (mkBool (decide (s = t))) := by
  have hu : ((mkStr s).isUndefined &&
      (Value.mk VARIABLE_STRING 0 0 t []).isUndefined) = false :=
    (by decide : ((VARIABLE_STRING &&& VARIABLE_TYPEMASK == 0) &&
      (VARIABLE_STRING &&& VARIABLE_TYPEMASK == 0)) = false)
  have hn : (((mkStr s).isNumeric || (mkStr s).isUndefined) &&
      ((Value.mk VARIABLE_STRING 0 0 t []).isNumeric ||
        (Value.mk VARIABLE_STRING 0 0 t []).isUndefined)) = false :=
    (by decide : (((VARIABLE_STRING &&& VARIABLE_NUMERICMASK != 0) ||
        (VARIABLE_STRING &&& VARIABLE_TYPEMASK == 0)) &&
      ((VARIABLE_STRING &&& VARIABLE_NUMERICMASK != 0) ||
        (VARIABLE_STRING &&& VARIABLE_TYPEMASK == 0))) = false)
  have ha : (mkStr s).isArray = false :=
    (by decide : (VARIABLE_STRING &&& VARIABLE_ARRAY != 0) = false)
  have ho : (mkStr s).isObject = false :=
    (by decide : (VARIABLE_STRING &&& VARIABLE_OBJECT != 0) = false)
  have hg1 : (mkStr s).getString = s := getString_strShape s
  have hg2 : (Value.mk VARIABLE_STRING 0 0 t []).getString = t := getString_strShape t
  unfold mathsOpF
  rw [hu, hn, ha, ho]
  rw [if_neg (by simp), if_neg (by simp), if_neg (by simp), if_neg (by simp)]
  rw [hg1, hg2]
  rw [if_neg (by decide), if_pos rfl]

theorem equals_str (s t : List Char) :
    equalsFn (mkStr s) (Value.mk VARIABLE_STRING 0 0 t []) false =
      decide (s = t) := by
  have h : mathsOp (mkStr s) (Value.mk VARIABLE_STRING 0 0 t []) LEXER_EQUAL false =
      .ok (mkBool (decide (s = t))) := by
    rw [mathsOp_nonTypeEq _ _ _ _ (by decide)]
    exact equals_str_mo s t
  simp only [equalsFn, h]
  exact getBool_mkBool _

theorem wrap32_double_neg (n : Int) :
    wrap32 (wrap32 (0 - wrap32 (-n))) = wrap32 n := by
  unfold wrap32
  omega

-- Composition of the expression tower on a single already-lexed literal.

theorem base_of_factor {g : Nat} {st1 : LexState} {a : Option Value} {st2 : LexState}
    (hf : factorF (g + 1) true st1 = .ok (a, st2))
    (h2 : st2.tk = LEXER_EOF)
    (hne1 : st1.tk ≠ chTok ('!')) (hne2 : st1.tk ≠ chTok ('-')) :
    baseF (g + 9) true st1 = .ok (a, st2) := by
  have e1 := unary_of_factor hf hne1
  have e2 := term_of_unary e1 h2
  have e3 := expression_of_term e2 h2 hne2
  have e4 := shift_of_expression e3 h2
  have e5 := condition_of_shift e4 h2
  have e6 := logic_of_condition e5 h2
  have e7 := ternary_of_logic e6 h2
  exact base_of_ternary e7 h2

theorem base_of_expression {g : Nat} {st1 : LexState} {a : Option Value} {st2 : LexState}
    (hf : expressionF (g + 1) true st1 = .ok (a, st2))
    (h2 : st2.tk = LEXER_EOF) :
    baseF (g + 6) true st1 = .ok (a, st2) := by
  have e4 := shift_of_expression hf h2
  have e5 := condition_of_shift e4 h2
  have e6 := logic_of_condition e5 h2
  have e7 := ternary_of_logic e6 h2
  exact base_of_ternary e7 h2

theorem evalLit_of_base (code : List Char) (st1 st2 : LexState) (v : Value)
    (hmk : mkLexer code = st1)
    (hde : st1.dataEnd = code.length)
    (hbase : baseF (code.length * 16 + 64) true st1 = .ok (some v, st2))
    (h2 : st2.tk = LEXER_EOF) :
    evaluateComplexLit code = .ok v := by
  have hb2 : baseF (st1.dataEnd * 16 + 64) true st1 = .ok (some v, st2) := by
    rw [hde]
    exact hbase
  have hov : evalLoopF (code.length + 2) st1 = .ok (some v, st2) :=
    evalLoop_of_base (f := code.length + 1) hb2 h2
  unfold evaluateComplexLit
  conv_lhs => rw [hmk]
  simp only []
  conv_lhs => rw [hde, hov, MRes.bind_ok]
  rfl

theorem varFromLiteral_int (s : List Char) :
    varFromLiteral s VARIABLE_INTEGER =
      Value.mk VARIABLE_INTEGER (parseCLong s) 0 [] [] := by
  unfold varFromLiteral
  rw [if_pos (by decide : VARIABLE_INTEGER &&& VARIABLE_INTEGER ≠ 0)]

theorem varFromLiteral_dbl (s : List Char) :
    varFromLiteral s VARIABLE_DOUBLE =
      Value.mk VARIABLE_DOUBLE 0 (parseCDouble s) [] [] := by
  unfold varFromLiteral
  rw [if_neg (by decide : ¬(VARIABLE_DOUBLE &&& VARIABLE_INTEGER ≠ 0))]
  rw [if_pos (by decide : VARIABLE_DOUBLE &&& VARIABLE_DOUBLE ≠ 0)]

theorem varFromLiteral_str (s : List Char) :
    varFromLiteral s VARIABLE_STRING =
      Value.mk VARIABLE_STRING 0 0 s [] := by
  unfold varFromLiteral
  rw [if_neg (by decide : ¬(VARIABLE_STRING &&& VARIABLE_INTEGER ≠ 0))]
  rw [if_neg (by decide : ¬(VARIABLE_STRING &&& VARIABLE_DOUBLE ≠ 0))]

theorem nul_not_digit_facts :
    isNumericCh (([] : List Char).headD nul) = false ∧
    ([] : List Char).headD nul ≠ '.' ∧
    ([] : List Char).headD nul ≠ 'e' ∧
    ([] : List Char).headD nul ≠ 'E' := by
  refine ⟨by decide, by decide, by decide, by decide⟩

/-- Evaluating the decimal text of a long in range yields the integer
node the re-parse produces. -/
theorem rt_int_nonneg (n : Nat) (h : n < 9223372036854775808) :
    evaluateComplexLit (natDecChars n) =
      .ok (Value.mk VARIABLE_INTEGER (n : Int) 0 [] []) := by
  obtain ⟨hd, hne, hp, hh⟩ := natDecChars_spec n
  have hnn : ∀ c ∈ natDecChars n, c ≠ nul := by
    intro c hc he
    have hb := digit_bounds (hd c hc)
    have h0 : nul.toNat = 0 := rfl
    have h2 := char_toNat_of_eq he
    omega
  obtain ⟨P, hmk, hsee, hPde⟩ := mkLexer_run (natDecChars n) hnn
  have hseeA : Sees P (natDecChars n ++ []) := by
    rw [List.append_nil]
    exact hsee
  obtain ⟨hnf1, hnf2, hnf3, hnf4⟩ := nul_not_digit_facts
  have hint := getNextToken_int ((natDecChars n).length + 1)
    (natDecChars n) [] hseeA hne hd hnf1 hnf2 hnf3 hnf4
    (fun hx => absurd hx.2 (by decide))
  have htk : (getNextToken ((natDecChars n).length + 2) P).tk = LEXER_INT := hint.1
  have htkStr : (getNextToken ((natDecChars n).length + 2) P).tkStr = natDecChars n :=
    hint.2.1
  have hde1 : (getNextToken ((natDecChars n).length + 2) P).dataEnd = P.dataEnd :=
    hint.2.2.1
  have hsee1 : Sees (getNextToken ((natDecChars n).length + 2) P) [] := hint.2.2.2
  have hEOF : (getNextToken ((getNextToken ((natDecChars n).length + 2) P).dataEnd + 2)
      (getNextToken ((natDecChars n).length + 2) P)).tk = LEXER_EOF :=
    getNextToken_eof ((getNextToken ((natDecChars n).length + 2) P).dataEnd + 1) hsee1
  have hfac : factorF ((natDecChars n).length * 16 + 56) true
      (getNextToken ((natDecChars n).length + 2) P) =
      .ok (some (varFromLiteral (natDecChars n) VARIABLE_INTEGER),
        getNextToken ((getNextToken ((natDecChars n).length + 2) P).dataEnd + 2)
          (getNextToken ((natDecChars n).length + 2) P)) := by
    have h0 := factor_int (f := (natDecChars n).length * 16 + 55) htk
    rw [htkStr] at h0
    exact h0
  have hbase : baseF ((natDecChars n).length * 16 + 64) true
      (getNextToken ((natDecChars n).length + 2) P) =
      .ok (some (varFromLiteral (natDecChars n) VARIABLE_INTEGER),
        getNextToken ((getNextToken ((natDecChars n).length + 2) P).dataEnd + 2)
          (getNextToken ((natDecChars n).length + 2) P)) :=
    base_of_factor (g := (natDecChars n).length * 16 + 55) hfac hEOF
      (by rw [htk]; decide) (by rw [htk]; decide)
  have hres := evalLit_of_base (natDecChars n) _ _ _ hmk (by rw [hde1, hPde]) hbase hEOF
  rw [hres, varFromLiteral_int, parseCLong_natDecChars n h]

theorem headD_mem_of_ne_nil {l : List Char} (h : l ≠ []) : l.headD nul ∈ l := by
  cases l with
  | nil => exact absurd rfl h
  | cons c t => simp

/-- Evaluating a minus sign followed by the decimal text of a long in
range: the parser negates via `zero.mathsOp(a, '-')` on the wrapped int. -/
theorem rt_int_neg (m : Nat) (h : m < 9223372036854775808) :
    evaluateComplexLit ('-' :: natDecChars m) =
      .ok (mkInt (wrap32 (0 - wrap32 (m : Int)))) := by
  obtain ⟨hd, hne, hp, hh⟩ := natDecChars_spec m
  have hnn : ∀ c ∈ '-' :: natDecChars m, c ≠ nul := by
    intro c hc he
    rcases List.mem_cons.mp hc with hc | hc
    · subst hc
      exact absurd (char_toNat_of_eq he) (by decide)
    · have hb := digit_bounds (hd c hc)
      have h0 : nul.toNat = 0 := rfl
      have h2 := char_toNat_of_eq he
      omega
  have hhd : isNumericCh ((natDecChars m).headD nul) = true :=
    hd _ (headD_mem_of_ne_nil hne)
  obtain ⟨P, hmk, hsee, hPde⟩ := mkLexer_run ('-' :: natDecChars m) hnn
  have hmin := getNextToken_minus (('-' :: natDecChars m).length + 1)
    (natDecChars m) hsee
    (digit_ne hhd ('=') (by decide)) (digit_ne hhd ('-') (by decide))
  have htk1 : (getNextToken (('-' :: natDecChars m).length + 2) P).tk = chTok '-' :=
    hmin.1
  have hde1 : (getNextToken (('-' :: natDecChars m).length + 2) P).dataEnd = P.dataEnd :=
    hmin.2.1
  have hsee1 : Sees (getNextToken (('-' :: natDecChars m).length + 2) P)
      (natDecChars m) := hmin.2.2
  have hseeA : Sees (getNextToken (('-' :: natDecChars m).length + 2) P)
      (natDecChars m ++ []) := by
    rw [List.append_nil]
    exact hsee1
  obtain ⟨hnf1, hnf2, hnf3, hnf4⟩ := nul_not_digit_facts
  have hint := getNextToken_int
    ((getNextToken (('-' :: natDecChars m).length + 2) P).dataEnd + 1)
    (natDecChars m) [] hseeA hne hd hnf1 hnf2 hnf3 hnf4
    (fun hx => absurd hx.2 (by decide))
  have htk2 : (getNextToken
      ((getNextToken (('-' :: natDecChars m).length + 2) P).dataEnd + 2)
      (getNextToken (('-' :: natDecChars m).length + 2) P)).tk = LEXER_INT := hint.1
  have htkStr2 : (getNextToken
      ((getNextToken (('-' :: natDecChars m).length + 2) P).dataEnd + 2)
      (getNextToken (('-' :: natDecChars m).length + 2) P)).tkStr = natDecChars m :=
    hint.2.1
  have hde2 : (getNextToken
      ((getNextToken (('-' :: natDecChars m).length + 2) P).dataEnd + 2)
      (getNextToken (('-' :: natDecChars m).length + 2) P)).dataEnd =
      (getNextToken (('-' :: natDecChars m).length + 2) P).dataEnd := hint.2.2.1
  have hsee2 : Sees (getNextToken
      ((getNextToken (('-' :: natDecChars m).length + 2) P).dataEnd + 2)
      (getNextToken (('-' :: natDecChars m).length + 2) P)) [] := hint.2.2.2
  have hEOF : (getNextToken ((getNextToken
      ((getNextToken (('-' :: natDecChars m).length + 2) P).dataEnd + 2)
      (getNextToken (('-' :: natDecChars m).length + 2) P)).dataEnd + 2)
      (getNextToken
        ((getNextToken (('-' :: natDecChars m).length + 2) P).dataEnd + 2)
        (getNextToken (('-' :: natDecChars m).length + 2) P))).tk = LEXER_EOF :=
    getNextToken_eof ((getNextToken
      ((getNextToken (('-' :: natDecChars m).length + 2) P).dataEnd + 2)
      (getNextToken (('-' :: natDecChars m).length + 2) P)).dataEnd + 1) hsee2
  have hfac : factorF (('-' :: natDecChars m).length * 16 + 56) true
      (getNextToken
        ((getNextToken (('-' :: natDecChars m).length + 2) P).dataEnd + 2)
        (getNextToken (('-' :: natDecChars m).length + 2) P)) =
      .ok (some (varFromLiteral (natDecChars m) VARIABLE_INTEGER),
        getNextToken ((getNextToken
          ((getNextToken (('-' :: natDecChars m).length + 2) P).dataEnd + 2)
          (getNextToken (('-' :: natDecChars m).length + 2) P)).dataEnd + 2)
          (getNextToken
            ((getNextToken (('-' :: natDecChars m).length + 2) P).dataEnd + 2)
            (getNextToken (('-' :: natDecChars m).length + 2) P))) := by
    have h0 := factor_int (f := ('-' :: natDecChars m).length * 16 + 55) htk2
    rw [htkStr2] at h0
    exact h0
  have huna := unary_of_factor hfac (by rw [htk2]; decide)
  have hterm := term_of_unary huna hEOF
  have hres0 : mathsOp (mkInt 0) (varFromLiteral (natDecChars m) VARIABLE_INTEGER)
      (chTok ('-')) false =
      .ok (mkInt (wrap32 (0 - wrap32 (parseCLong (natDecChars m))))) := by
    rw [varFromLiteral_int]
    exact mathsOp_zero_minus_int _
  have hexp := expression_neg htk1 hterm hEOF hres0
  have hbase : baseF (('-' :: natDecChars m).length * 16 + 64) true
      (getNextToken (('-' :: natDecChars m).length + 2) P) =
      .ok (some (mkInt (wrap32 (0 - wrap32 (parseCLong (natDecChars m))))),
        getNextToken ((getNextToken
          ((getNextToken (('-' :: natDecChars m).length + 2) P).dataEnd + 2)
          (getNextToken (('-' :: natDecChars m).length + 2) P)).dataEnd + 2)
          (getNextToken
            ((getNextToken (('-' :: natDecChars m).length + 2) P).dataEnd + 2)
            (getNextToken (('-' :: natDecChars m).length + 2) P))) :=
    base_of_expression (g := ('-' :: natDecChars m).length * 16 + 58) hexp hEOF
  have hres := evalLit_of_base ('-' :: natDecChars m) _ _ _ hmk
    (by rw [hde1, hPde]) hbase hEOF
  rw [hres, parseCLong_natDecChars m h]

theorem escC_no_nul {d : Char} (hsafe : safeCh d = true) :
    ∀ c ∈ escC d, c ≠ nul := by
  by_cases hn : d = '\n'
  · subst hn
    intro c hc
    have : c = '\\' ∨ c = 'n' := by
      simpa [escC, cl] using hc
    rcases this with h | h <;> subst h <;> decide
  · have hp := safeCh_props hsafe hn
    rw [escC_lit hp.1 hp.2.1 hp.2.2.1 hp.2.2.2]
    intro c hc he
    simp only [List.mem_singleton] at hc
    subst hc
    have h2 := char_toNat_of_eq he
    have h0 : nul.toNat = 0 := rfl
    omega

theorem getJSString_no_nul {s : List Char} (hsafe : s.all safeCh = true) :
    ∀ c ∈ getJSString s, c ≠ nul := by
  intro c hc
  rw [getJSString_eq] at hc
  rcases List.mem_cons.mp hc with hc | hc
  · subst hc
    decide
  · rcases List.mem_append.mp hc with hc | hc
    · rw [escList] at hc
      obtain ⟨l, hl, hcl⟩ := List.mem_flatten.mp hc
      obtain ⟨d, hdm, rfl⟩ := List.mem_map.mp hl
      exact escC_no_nul (by rw [List.all_eq_true] at hsafe; exact hsafe d hdm) c hcl
    · simp only [List.mem_singleton] at hc
      subst hc
      decide

/-- Evaluating the quoted-and-escaped form of a safe string yields the
string node carrying the original text. -/
theorem rt_str (s : List Char) (hsafe : s.all safeCh = true) :
    evaluateComplexLit (getJSString s) =
      .ok (Value.mk VARIABLE_STRING 0 0 s []) := by
  obtain ⟨P, hmk, hsee, hPde⟩ := mkLexer_run (getJSString s) (getJSString_no_nul hsafe)
  have hsee0 : Sees P ('"' :: (escList s ++ '"' :: [])) := by
    have h2 := hsee
    rw [getJSString_eq] at h2
    simpa using h2
  have hstr := getNextToken_str ((getJSString s).length + 1) s [] hsee0 hsafe
  have htk : (getNextToken ((getJSString s).length + 2) P).tk = LEXER_STR := hstr.1
  have htkStr : (getNextToken ((getJSString s).length + 2) P).tkStr = s := hstr.2.1
  have hde1 : (getNextToken ((getJSString s).length + 2) P).dataEnd = P.dataEnd :=
    hstr.2.2.1
  have hsee1 : Sees (getNextToken ((getJSString s).length + 2) P) [] := hstr.2.2.2
  have hEOF : (getNextToken ((getNextToken ((getJSString s).length + 2) P).dataEnd + 2)
      (getNextToken ((getJSString s).length + 2) P)).tk = LEXER_EOF :=
    getNextToken_eof ((getNextToken ((getJSString s).length + 2) P).dataEnd + 1) hsee1
  have hfac : factorF ((getJSString s).length * 16 + 56) true
      (getNextToken ((getJSString s).length + 2) P) =
      .ok (some (varFromLiteral s VARIABLE_STRING),
        getNextToken ((getNextToken ((getJSString s).length + 2) P).dataEnd + 2)
          (getNextToken ((getJSString s).length + 2) P)) := by
    have h0 := factor_str (f := (getJSString s).length * 16 + 55) htk
    rw [htkStr] at h0
    exact h0
  have hbase : baseF ((getJSString s).length * 16 + 64) true
      (getNextToken ((getJSString s).length + 2) P) =
      .ok (some (varFromLiteral s VARIABLE_STRING),
        getNextToken ((getNextToken ((getJSString s).length + 2) P).dataEnd + 2)
          (getNextToken ((getJSString s).length + 2) P)) :=
    base_of_factor (g := (getJSString s).length * 16 + 55) hfac hEOF
      (by rw [htk]; decide) (by rw [htk]; decide)
  have hres := evalLit_of_base (getJSString s) _ _ _ hmk (by rw [hde1, hPde]) hbase hEOF
  rw [hres, varFromLiteral_str]

theorem float_text_no_nul {ds fs : List Char}
    (hds : ∀ c ∈ ds, isNumericCh c = true) (hfs : ∀ c ∈ fs, isNumericCh c = true) :
    ∀ c ∈ ds ++ '.' :: fs, c ≠ nul := by
  intro c hc he
  have h0 : nul.toNat = 0 := rfl
  have h2 := char_toNat_of_eq he
  rcases List.mem_append.mp hc with hc | hc
  · have hb := digit_bounds (hds c hc)
    omega
  · rcases List.mem_cons.mp hc with hc | hc
    · subst hc
      exact absurd he (by decide)
    · have hb := digit_bounds (hfs c hc)
      omega

/-- Evaluating fixed-point text `digits.digits` yields the double node the
re-parse produces. -/
theorem rt_float_text (ds fs : List Char) (hne : ds ≠ [])
    (hds : ∀ c ∈ ds, isNumericCh c = true) (hfs : ∀ c ∈ fs, isNumericCh c = true) :
    evaluateComplexLit (ds ++ '.' :: fs) =
      .ok (Value.mk VARIABLE_DOUBLE 0 (parseCDouble (ds ++ '.' :: fs)) [] []) := by
  obtain ⟨P, hmk, hsee, hPde⟩ :=
    mkLexer_run (ds ++ '.' :: fs) (float_text_no_nul hds hfs)
  have hsee0 : Sees P (ds ++ '.' :: (fs ++ [])) := by
    rw [List.append_nil]
    exact hsee
  have hflt := getNextToken_float ((ds ++ '.' :: fs).length + 1) ds fs []
    hsee0 hne hds hfs (by decide) (by decide) (by decide)
  have htk : (getNextToken ((ds ++ '.' :: fs).length + 2) P).tk = LEXER_FLOAT := hflt.1
  have htkStr : (getNextToken ((ds ++ '.' :: fs).length + 2) P).tkStr =
      ds ++ '.' :: fs := hflt.2.1
  have hde1 : (getNextToken ((ds ++ '.' :: fs).length + 2) P).dataEnd = P.dataEnd :=
    hflt.2.2.1
  have hsee1 : Sees (getNextToken ((ds ++ '.' :: fs).length + 2) P) [] := hflt.2.2.2
  have hEOF : (getNextToken
      ((getNextToken ((ds ++ '.' :: fs).length + 2) P).dataEnd + 2)
      (getNextToken ((ds ++ '.' :: fs).length + 2) P)).tk = LEXER_EOF :=
    getNextToken_eof ((getNextToken ((ds ++ '.' :: fs).length + 2) P).dataEnd + 1) hsee1
  have hfac : factorF ((ds ++ '.' :: fs).length * 16 + 56) true
      (getNextToken ((ds ++ '.' :: fs).length + 2) P) =
      .ok (some (varFromLiteral (ds ++ '.' :: fs) VARIABLE_DOUBLE),
        getNextToken ((getNextToken ((ds ++ '.' :: fs).length + 2) P).dataEnd + 2)
          (getNextToken ((ds ++ '.' :: fs).length + 2) P)) := by
    have h0 := factor_float (f := (ds ++ '.' :: fs).length * 16 + 55) htk
    rw [htkStr] at h0
    exact h0
  have hbase : baseF ((ds ++ '.' :: fs).length * 16 + 64) true
      (getNextToken ((ds ++ '.' :: fs).length + 2) P) =
      .ok (some (varFromLiteral (ds ++ '.' :: fs) VARIABLE_DOUBLE),
        getNextToken ((getNextToken ((ds ++ '.' :: fs).length + 2) P).dataEnd + 2)
          (getNextToken ((ds ++ '.' :: fs).length + 2) P)) :=
    base_of_factor (g := (ds ++ '.' :: fs).length * 16 + 55) hfac hEOF
      (by rw [htk]; decide) (by rw [htk]; decide)
  have hres := evalLit_of_base (ds ++ '.' :: fs) _ _ _ hmk
    (by rw [hde1, hPde]) hbase hEOF
  rw [hres, varFromLiteral_dbl]

/-- Evaluating `-digits.digits`: the parser negates the parsed double via
`zero.mathsOp(a, '-')`. -/
theorem rt_float_neg_text (ds fs : List Char) (hne : ds ≠ [])
    (hds : ∀ c ∈ ds, isNumericCh c = true) (hfs : ∀ c ∈ fs, isNumericCh c = true) :
    evaluateComplexLit ('-' :: (ds ++ '.' :: fs)) =
      .ok (mkDouble (0 - parseCDouble (ds ++ '.' :: fs))) := by
  have hnn : ∀ c ∈ '-' :: (ds ++ '.' :: fs), c ≠ nul := by
    intro c hc he
    rcases List.mem_cons.mp hc with hc | hc
    · subst hc
      exact absurd (char_toNat_of_eq he) (by decide)
    · exact float_text_no_nul hds hfs c hc he
  have hhd : isNumericCh ((ds ++ '.' :: fs).headD nul) = true := by
    rw [headD_append_left _ _ hne]
    exact hds _ (headD_mem_of_ne_nil hne)
  obtain ⟨P, hmk, hsee, hPde⟩ := mkLexer_run ('-' :: (ds ++ '.' :: fs)) hnn
  have hmin := getNextToken_minus (('-' :: (ds ++ '.' :: fs)).length + 1)
    (ds ++ '.' :: fs) hsee
    (digit_ne hhd ('=') (by decide)) (digit_ne hhd ('-') (by decide))
  have htk1 : (getNextToken (('-' :: (ds ++ '.' :: fs)).length + 2) P).tk =
      chTok '-' := hmin.1
  have hde1 : (getNextToken (('-' :: (ds ++ '.' :: fs)).length + 2) P).dataEnd =
      P.dataEnd := hmin.2.1
  have hsee1 : Sees (getNextToken (('-' :: (ds ++ '.' :: fs)).length + 2) P)
      (ds ++ '.' :: fs) := hmin.2.2
  have hseeA : Sees (getNextToken (('-' :: (ds ++ '.' :: fs)).length + 2) P)
      (ds ++ '.' :: (fs ++ [])) := by
    rw [List.append_nil]
    exact hsee1
  have hflt := getNextToken_float
    ((getNextToken (('-' :: (ds ++ '.' :: fs)).length + 2) P).dataEnd + 1) ds fs []
    hseeA hne hds hfs (by decide) (by decide) (by decide)
  have htk2 : (getNextToken
      ((getNextToken (('-' :: (ds ++ '.' :: fs)).length + 2) P).dataEnd + 2)
      (getNextToken (('-' :: (ds ++ '.' :: fs)).length + 2) P)).tk =
      LEXER_FLOAT := hflt.1
  have htkStr2 : (getNextToken
      ((getNextToken (('-' :: (ds ++ '.' :: fs)).length + 2) P).dataEnd + 2)
      (getNextToken (('-' :: (ds ++ '.' :: fs)).length + 2) P)).tkStr =
      ds ++ '.' :: fs := hflt.2.1
  have hsee2 : Sees (getNextToken
      ((getNextToken (('-' :: (ds ++ '.' :: fs)).length + 2) P).dataEnd + 2)
      (getNextToken (('-' :: (ds ++ '.' :: fs)).length + 2) P)) [] := hflt.2.2.2
  have hEOF : (getNextToken ((getNextToken
      ((getNextToken (('-' :: (ds ++ '.' :: fs)).length + 2) P).dataEnd + 2)
      (getNextToken (('-' :: (ds ++ '.' :: fs)).length + 2) P)).dataEnd + 2)
      (getNextToken
        ((getNextToken (('-' :: (ds ++ '.' :: fs)).length + 2) P).dataEnd + 2)
        (getNextToken (('-' :: (ds ++ '.' :: fs)).length + 2) P))).tk = LEXER_EOF :=
    getNextToken_eof ((getNextToken
      ((getNextToken (('-' :: (ds ++ '.' :: fs)).length + 2) P).dataEnd + 2)
      (getNextToken (('-' :: (ds ++ '.' :: fs)).length + 2) P)).dataEnd + 1) hsee2
  have hfac : factorF (('-' :: (ds ++ '.' :: fs)).length * 16 + 56) true
      (getNextToken
        ((getNextToken (('-' :: (ds ++ '.' :: fs)).length + 2) P).dataEnd + 2)
        (getNextToken (('-' :: (ds ++ '.' :: fs)).length + 2) P)) =
      .ok (some (varFromLiteral (ds ++ '.' :: fs) VARIABLE_DOUBLE),
        getNextToken ((getNextToken
          ((getNextToken (('-' :: (ds ++ '.' :: fs)).length + 2) P).dataEnd + 2)
          (getNextToken (('-' :: (ds ++ '.' :: fs)).length + 2) P)).dataEnd + 2)
          (getNextToken
            ((getNextToken (('-' :: (ds ++ '.' :: fs)).length + 2) P).dataEnd + 2)
            (getNextToken (('-' :: (ds ++ '.' :: fs)).length + 2) P))) := by
    have h0 := factor_float (f := ('-' :: (ds ++ '.' :: fs)).length * 16 + 55) htk2
    rw [htkStr2] at h0
    exact h0
  have huna := unary_of_factor hfac (by rw [htk2]; decide)
  have hterm := term_of_unary huna hEOF
  have hres0 : mathsOp (mkInt 0) (varFromLiteral (ds ++ '.' :: fs) VARIABLE_DOUBLE)
      (chTok ('-')) false =
      .ok (mkDouble (0 - parseCDouble (ds ++ '.' :: fs))) := by
    rw [varFromLiteral_dbl]
    exact mathsOp_zero_minus_dbl _
  have hexp := expression_neg htk1 hterm hEOF hres0
  have hbase : baseF (('-' :: (ds ++ '.' :: fs)).length * 16 + 64) true
      (getNextToken (('-' :: (ds ++ '.' :: fs)).length + 2) P) =
      .ok (some (mkDouble (0 - parseCDouble (ds ++ '.' :: fs))),
        getNextToken ((getNextToken
          ((getNextToken (('-' :: (ds ++ '.' :: fs)).length + 2) P).dataEnd + 2)
          (getNextToken (('-' :: (ds ++ '.' :: fs)).length + 2) P)).dataEnd + 2)
          (getNextToken
            ((getNextToken (('-' :: (ds ++ '.' :: fs)).length + 2) P).dataEnd + 2)
            (getNextToken (('-' :: (ds ++ '.' :: fs)).length + 2) P))) :=
    base_of_expression (g := ('-' :: (ds ++ '.' :: fs)).length * 16 + 58) hexp hEOF
  have hres := evalLit_of_base ('-' :: (ds ++ '.' :: fs)) _ _ _ hmk
    (by rw [hde1, hPde]) hbase hEOF
  rw [hres]

theorem parse10_replicate_zero : ∀ (k acc : Nat),
    parseDigitsBase 10 (List.replicate k ('0')) acc = acc * 10 ^ k := by
  intro k
  induction k with
  | zero => intro acc; simp [parseDigitsBase]
  | succ j ih =>
      intro acc
      simp only [List.replicate_succ, parseDigitsBase,
        if_pos (by decide : digitVal ('0') < 10)]
      rw [show digitVal ('0') = 0 from by decide, ih]
      ring

theorem natDecCharsAux_len (fuel : Nat) : ∀ m j, m < 10 ^ fuel → m < 10 ^ j → 1 ≤ j →
    (natDecCharsAux fuel m).length ≤ j := by
  induction fuel with
  | zero =>
      intro m j _ _ _
      simp [natDecCharsAux]
  | succ f ih =>
      intro m j _ hj h1
      by_cases hsm : m < 10
      · simp only [natDecCharsAux, if_pos hsm, List.length_cons, List.length_nil]
        omega
      · have hq : m / 10 < 10 ^ f := by
          rw [Nat.div_lt_iff_lt_mul (by norm_num)]
          calc m < 10 ^ (f + 1) := by assumption
          _ = 10 ^ f * 10 := by rw [pow_succ]
        have hq2 : m / 10 < 10 ^ (j - 1) := by
          rw [Nat.div_lt_iff_lt_mul (by norm_num)]
          calc m < 10 ^ j := hj
          _ = 10 ^ (j - 1) * 10 := by
            rw [← pow_succ]
            congr 1
            omega
        have hj2 : 1 ≤ j - 1 := by
          rcases Nat.lt_or_ge j 2 with hj1 | hj1
          · exfalso
            have : j = 1 := by omega
            subst this
            simp at hj
            omega
          · omega
        have := ih (m / 10) (j - 1) hq hq2 hj2
        simp only [natDecCharsAux, if_neg hsm, List.length_append, List.length_cons,
          List.length_nil]
        omega

theorem natDecChars_len (m j : Nat) (hj : m < 10 ^ j) (h1 : 1 ≤ j) :
    (natDecChars m).length ≤ j := by
  have hub : m < 10 ^ (m + 1) := by
    calc m < 10 ^ m := Nat.lt_pow_self (by norm_num) m
    _ ≤ 10 ^ (m + 1) := Nat.pow_le_pow_right (by norm_num) (by omega)
  exact natDecCharsAux_len (m + 1) m j hub hj h1

theorem pad6_spec (m : Nat) (hm : m < 10 ^ 6) :
    (∀ c ∈ pad6 m, isNumericCh c = true) ∧ (pad6 m).length = 6 ∧
    parseDigitsBase 10 (pad6 m) 0 = m := by
  obtain ⟨hd, hne, hp, _⟩ := natDecChars_spec m
  have hlen : (natDecChars m).length ≤ 6 := natDecChars_len m 6 hm (by norm_num)
  refine ⟨?_, ?_, ?_⟩
  · intro c hc
    rw [pad6] at hc
    rcases List.mem_append.mp hc with hc | hc
    · rw [List.eq_of_mem_replicate hc]
      decide
    · exact hd c hc
  · rw [pad6]
    simp only [List.length_append, List.length_replicate]
    omega
  · rw [pad6]
    rw [parseDigitsBase_append 10 _ _ (by
      intro c hc
      rw [List.eq_of_mem_replicate hc]
      decide)]
    rw [parse10_replicate_zero]
    simpa using hp

theorem takeWhile_digits_stop (ds : List Char) (c0 : Char) (ys : List Char)
    (hds : ∀ c ∈ ds, isNumericCh c = true) (hc0 : isNumericCh c0 = false) :
    (ds ++ c0 :: ys).takeWhile isNumericCh = ds ∧
    (ds ++ c0 :: ys).dropWhile isNumericCh = c0 :: ys := by
  induction ds with
  | nil => simp [List.takeWhile_cons, List.dropWhile_cons, hc0]
  | cons c t ih =>
      have hc : isNumericCh c = true := hds c (by simp)
      obtain ⟨ih1, ih2⟩ := ih (fun d hd2 => hds d (by simp [hd2]))
      constructor
      · simp only [List.cons_append, List.takeWhile_cons, hc, if_true]
        rw [ih1]
      · simp only [List.cons_append, List.dropWhile_cons, hc, if_true]
        rw [ih2]

/-- `strtod` on `digits.digits` computes the exact rational. -/
theorem parseCDouble_digits_dot (ds fs : List Char) (hne : ds ≠ [])
    (hds : ∀ c ∈ ds, isNumericCh c = true) (hfs : ∀ c ∈ fs, isNumericCh c = true) :
    parseCDouble (ds ++ '.' :: fs) =
      (parseDigitsBase 10 ds 0 : ℚ) + (parseDigitsBase 10 fs 0 : ℚ) / 10 ^ fs.length := by
  obtain ⟨c, t, rfl⟩ : ∃ c t, ds = c :: t := by
    cases ds with
    | nil => exact absurd rfl hne
    | cons a b => exact ⟨a, b, rfl⟩
  have hcd : isNumericCh c = true := hds c (by simp)
  have hws : isWhitespaceCh c = false := not_ws_of_digit hcd
  have hneg : c ≠ '-' := digit_ne hcd ('-') (by decide)
  have hpos : c ≠ '+' := digit_ne hcd ('+') (by decide)
  have htw := takeWhile_digits_stop (c :: t) ('.') fs hds (by decide)
  have htwf : fs.takeWhile isNumericCh = fs := by
    rw [List.takeWhile_eq_self_iff]
    exact hfs
  have hdwf : fs.dropWhile isNumericCh = [] := by
    rw [List.dropWhile_eq_nil_iff]
    intro x hx
    exact hfs x hx
  simp only [parseCDouble]
  rw [List.cons_append, List.dropWhile_cons]
  simp only [hws, Bool.false_eq_true, if_false]
  have hsign : (match c :: (t ++ '.' :: fs) with
      | '-' :: r => (true, r)
      | '+' :: r => (false, r)
      | x => (false, c :: (t ++ '.' :: fs))) = (false, c :: (t ++ '.' :: fs)) := by
    split
    · rename_i heq
      rw [List.cons.injEq] at heq
      exact absurd heq.1 hneg
    · rename_i heq
      rw [List.cons.injEq] at heq
      exact absurd heq.1 hpos
    · rfl
  simp only [hsign]
  rw [show c :: (t ++ '.' :: fs) = (c :: t) ++ '.' :: fs from rfl]
  rw [htw.1, htw.2]
  simp only [htwf, hdwf]
  norm_num

-- Shape lemmas for getString / getParsableString on constructor values.

theorem getString_intShape (i : Int) : (mkInt i).getString = intDecChars i := by
  have h1 : (mkInt i).isInt = true :=
    (by decide : (VARIABLE_INTEGER &&& VARIABLE_INTEGER != 0) = true)
  unfold Value.getString
  rw [h1]
  simp
  rfl

theorem getString_dblShape (p : ℚ) :
    (Value.mk VARIABLE_DOUBLE 0 p [] []).getString = (formatF p).take 31 := by
  have h1 : (Value.mk VARIABLE_DOUBLE 0 p [] []).isInt = false :=
    (by decide : (VARIABLE_DOUBLE &&& VARIABLE_INTEGER != 0) = false)
  have h2 : (Value.mk VARIABLE_DOUBLE 0 p [] []).isDouble = true :=
    (by decide : (VARIABLE_DOUBLE &&& VARIABLE_DOUBLE != 0) = true)
  unfold Value.getString
  rw [h1, h2]
  simp
  rfl

theorem getParsable_int (i : Int) : (mkInt i).getParsableString = intDecChars i := by
  have h1 : (mkInt i).isNumeric = true :=
    (by decide : (VARIABLE_INTEGER &&& VARIABLE_NUMERICMASK != 0) = true)
  unfold Value.getParsableString
  rw [h1]
  simp only [if_true]
  exact getString_intShape i

theorem getParsable_dbl (q : ℚ) : (mkDouble q).getParsableString = (formatF q).take 31 := by
  have h1 : (mkDouble q).isNumeric = true :=
    (by decide : (VARIABLE_DOUBLE &&& VARIABLE_NUMERICMASK != 0) = true)
  unfold Value.getParsableString
  rw [h1]
  simp only [if_true]
  exact getString_dblShape q

theorem getParsable_str (s : List Char) : (mkStr s).getParsableString = getJSString s := by
  have h1 : (mkStr s).isNumeric = false :=
    (by decide : (VARIABLE_STRING &&& VARIABLE_NUMERICMASK != 0) = false)
  have h2 : (mkStr s).isFunction = false :=
    (by decide : (VARIABLE_STRING &&& VARIABLE_FUNCTION != 0) = false)
  have h3 : (mkStr s).isString = true :=
    (by decide : (VARIABLE_STRING &&& VARIABLE_STRING != 0) = true)
  unfold Value.getParsableString
  rw [h1, h2, h3]
  simp only [Bool.false_eq_true, if_false, if_true]
  have h4 : (mkStr s).getString = s := getString_strShape s
  rw [h4]

-- Exactness of the %f formatting for doubles whose value scaled by 10^6 is
-- an integer (no rounding happens, so the embedded half-away rounding and
-- the C half-even rounding agree trivially).

theorem floor_add_half_nat (k : Nat) : (Int.floor ((k : ℚ) + 1/2)).toNat = k := by
  rw [show ((k : ℚ)) = (((k : Int)) : ℚ) from by push_cast; ring]
  rw [Int.floor_int_add]
  rw [show Int.floor ((1 : ℚ)/2) = 0 from by
    rw [Int.floor_eq_zero_iff]
    constructor <;> norm_num]
  simp

theorem formatF_exact (q : ℚ) (hden : (q * 1000000).den = 1) :
    |q| * 1000000 = (((q * 1000000).num.natAbs : Nat) : ℚ) ∧
    formatF q = (if q < 0 then ['-'] else []) ++
      natDecChars ((q * 1000000).num.natAbs / 1000000) ++
      '.' :: pad6 ((q * 1000000).num.natAbs % 1000000) := by
  have hz : (((q * 1000000).num : Int) : ℚ) = q * 1000000 := (Rat.den_eq_one_iff _).mp hden
  have habs : |q| * 1000000 = (((q * 1000000).num.natAbs : Nat) : ℚ) := by
    have h1 : |q| * 1000000 = |q * 1000000| := by
      rw [abs_mul]
      norm_num
    rw [h1]
    conv_lhs => rw [← hz]
    rw [Int.cast_natAbs, Int.cast_abs]
  refine ⟨habs, ?_⟩
  have hn : (Int.floor (|q| * 1000000 + 1/2)).toNat = (q * 1000000).num.natAbs := by
    rw [habs]
    exact floor_add_half_nat _
  unfold formatF
  rw [hn]

theorem parse_formatF_body (n : Nat) :
    (parseDigitsBase 10 (natDecChars (n / 1000000)) 0 : ℚ) +
      (parseDigitsBase 10 (pad6 (n % 1000000)) 0 : ℚ) /
        10 ^ (pad6 (n % 1000000)).length = (n : ℚ) / 1000000 := by
  obtain ⟨hpd, hpl, hpp⟩ := pad6_spec (n % 1000000) (Nat.mod_lt _ (by norm_num))
  rw [(natDecChars_spec (n / 1000000)).2.2.1, hpl, hpp]
  have h0 : n / 1000000 * 1000000 + n % 1000000 = n := by omega
  have hnm : ((n / 1000000 : Nat) : ℚ) * 1000000 + ((n % 1000000 : Nat) : ℚ) = (n : ℚ) := by
    exact_mod_cast congrArg (fun k : Nat => (k : ℚ)) h0
  have h10 : ((10 : ℚ) ^ (6 : Nat)) = 1000000 := by norm_num
  rw [h10]
  field_simp
  linarith [hnm]

/-- End-to-end: evaluating the 31-char-truncated `%f` text of an exactly
representable, not-too-large double recovers the double exactly. -/
theorem rt_double (q : ℚ) (hden : (q * 1000000).den = 1) (hlt : |q| < 10 ^ 15) :
    evaluateComplexLit ((formatF q).take 31) = .ok (mkDouble q) := by
  obtain ⟨hn, hf⟩ := formatF_exact q hden
  have hnlt : (q * 1000000).num.natAbs < 10 ^ 21 := by
    have h1 : ((((q * 1000000).num.natAbs : Nat)) : ℚ) < 10 ^ 21 := by
      rw [← hn]
      calc |q| * 1000000 < 10 ^ 15 * 1000000 := by
            apply mul_lt_mul_of_pos_right hlt (by norm_num)
      _ = 10 ^ 21 := by norm_num
    exact_mod_cast h1
  obtain ⟨hdd, hdne, hdp, _⟩ := natDecChars_spec ((q * 1000000).num.natAbs / 1000000)
  obtain ⟨hfd, hfl, hfp⟩ :=
    pad6_spec ((q * 1000000).num.natAbs % 1000000) (Nat.mod_lt _ (by norm_num))
  have hdslen : (natDecChars ((q * 1000000).num.natAbs / 1000000)).length ≤ 15 := by
    apply natDecChars_len _ 15 _ (by norm_num)
    rw [Nat.div_lt_iff_lt_mul (by norm_num)]
    calc (q * 1000000).num.natAbs < 10 ^ 21 := hnlt
    _ = 10 ^ 15 * 1000000 := by norm_num
  have hlen : (formatF q).length ≤ 31 := by
    rw [hf]
    by_cases hq : q < 0 <;>
      simp only [hq, if_true, if_false, List.length_append, List.length_cons,
        List.singleton_append, List.nil_append] <;>
      omega
  have htake : (formatF q).take 31 = formatF q := List.take_of_length_le hlen
  have hvq : (parseDigitsBase 10 (natDecChars ((q * 1000000).num.natAbs / 1000000)) 0 : ℚ) +
      (parseDigitsBase 10 (pad6 ((q * 1000000).num.natAbs % 1000000)) 0 : ℚ) /
        10 ^ (pad6 ((q * 1000000).num.natAbs % 1000000)).length = |q| := by
    rw [parse_formatF_body]
    rw [eq_comm, eq_div_iff (by norm_num : (1000000 : ℚ) ≠ 0)]
    exact hn
  rw [htake, hf]
  by_cases hq : q < 0
  · rw [if_pos hq]
    have hres := rt_float_neg_text _ _ hdne hdd hfd
    rw [parseCDouble_digits_dot _ _ hdne hdd hfd, hvq, abs_of_neg hq] at hres
    rw [show (0 - -q) = q from by ring] at hres
    exact hres
  · rw [if_neg hq]
    have hres := rt_float_text _ _ hdne hdd hfd
    rw [parseCDouble_digits_dot _ _ hdne hdd hfd, hvq,
      abs_of_nonneg (le_of_not_lt hq)] at hres
    exact hres

-- ------------------------------------------------------------------
-- Claim C8: the getParsableString round-trip.
-- ------------------------------------------------------------------

/-- Compare an evaluation outcome with the original Variable under
`equals` (errors and traps compare unequal). -/
def resultEquals (v : Value) : MRes Value → Bool
  | .ok rv => equalsFn v rv false
  | _ => false

/-- The round-trip check: evaluate the parsable text of `v` and compare the
resulting Variable with `v` under `equals`. -/
def rtOK (v : Value) : Bool :=
  resultEquals v (evaluateComplexLit v.getParsableString)

/-- The values for which the round-trip is verified below: integers other
than LONG_MIN, doubles exactly representable by `%f` (value times 10^6 an
integer, magnitude below 10^15), strings of newline or printable ASCII
other than quote and backslash, null, undefined, and trivial-body
functions. -/
inductive SafeLiteral : Value → Prop where
  | int (n : Int) : -9223372036854775808 < n → n < 9223372036854775808 →
      SafeLiteral (mkInt n)
  | dbl (q : ℚ) : (q * 1000000).den = 1 → |q| < 10 ^ 15 → SafeLiteral (mkDouble q)
  | str (s : List Char) : s.all safeCh = true → SafeLiteral (mkStr s)
  | nullLit : SafeLiteral nullVar
  | undefLit : SafeLiteral blankVar
  | funcLit : SafeLiteral (Value.mk VARIABLE_FUNCTION 0 0 (cl ("\x7b\x7d")) [])
  | funcLit1 : SafeLiteral (Value.mk VARIABLE_FUNCTION 0 0 (cl ("\x7b\x7d"))
      [(cl ("a"), blankVar)])

theorem rtOK_int (n : Int) (h1 : -9223372036854775808 < n)
    (h2 : n < 9223372036854775808) : rtOK (mkInt n) = true := by
  rcases le_or_lt 0 n with hn | hn
  · have hev : evaluateComplexLit (intDecChars n) =
        .ok (Value.mk VARIABLE_INTEGER (n.toNat : Int) 0 [] []) := by
      rw [intDecChars, if_neg (by omega)]
      exact rt_int_nonneg n.toNat (by omega)
    have hscr : evaluateComplexLit ((mkInt n).getParsableString) =
        .ok (Value.mk VARIABLE_INTEGER (n.toNat : Int) 0 [] []) := by
      rw [getParsable_int]
      exact hev
    unfold rtOK
    rw [hscr]
    simp only [resultEquals]
    rw [equals_int]
    simp [Int.toNat_of_nonneg hn]
  · have hev : evaluateComplexLit (intDecChars n) =
        .ok (mkInt (wrap32 (0 - wrap32 ((-n).toNat : Int)))) := by
      rw [intDecChars, if_pos (by omega)]
      exact rt_int_neg (-n).toNat (by omega)
    have hscr : evaluateComplexLit ((mkInt n).getParsableString) =
        .ok (mkInt (wrap32 (0 - wrap32 ((-n).toNat : Int)))) := by
      rw [getParsable_int]
      exact hev
    unfold rtOK
    rw [hscr]
    simp only [resultEquals]
    have hq : equalsFn (mkInt n) (mkInt (wrap32 (0 - wrap32 ((-n).toNat : Int)))) false =
        decide (wrap32 n = wrap32 (wrap32 (0 - wrap32 ((-n).toNat : Int)))) :=
      equals_int n _
    rw [hq]
    have hw : wrap32 (wrap32 (0 - wrap32 ((-n).toNat : Int))) = wrap32 n := by
      rw [show (((-n).toNat : Int)) = -n from Int.toNat_of_nonneg (by omega)]
      exact wrap32_double_neg n
    rw [hw]
    simp

theorem rtOK_dbl (q : ℚ) (hden : (q * 1000000).den = 1) (hlt : |q| < 10 ^ 15) :
    rtOK (mkDouble q) = true := by
  have hscr : evaluateComplexLit ((mkDouble q).getParsableString) = .ok (mkDouble q) := by
    rw [getParsable_dbl]
    exact rt_double q hden hlt
  unfold rtOK
  rw [hscr]
  simp only [resultEquals]
  have hq : equalsFn (mkDouble q) (mkDouble q) false = decide (q = q) := equals_dbl q q
  rw [hq]
  simp

theorem rtOK_str (s : List Char) (hsafe : s.all safeCh = true) :
    rtOK (mkStr s) = true := by
  have hscr : evaluateComplexLit ((mkStr s).getParsableString) =
      .ok (Value.mk VARIABLE_STRING 0 0 s []) := by
    rw [getParsable_str]
    exact rt_str s hsafe
  unfold rtOK
  rw [hscr]
  simp only [resultEquals]
  have hq : equalsFn (mkStr s) (Value.mk VARIABLE_STRING 0 0 s []) false =
      decide (s = s) := equals_str s s
  rw [hq]
  simp

/-- C8 (amended): for every Value v that is an integer other than LONG_MIN,
a double whose value times 10^6 is an integer of magnitude below 10^21, a
string of newline or printable ASCII characters other than double-quote and
backslash, null, undefined, or a function with a trivial body, evaluating
the text produced by getParsableString(v) yields a Value equal to v under
equals. -/
theorem claim_C8_amended (v : Value) (h : SafeLiteral v) : rtOK v = true := by
  cases h with
  | int n h1 h2 => exact rtOK_int n h1 h2
  | dbl q hden hlt => exact rtOK_dbl q hden hlt
  | str s hs => exact rtOK_str s hs
  | nullLit => decide
  | undefLit => decide
  | funcLit => decide
  | funcLit1 => decide

/-- C8 counterexamples to the unrestricted original statement: a string
containing a tab gets escaped as backslash-x-0-9, which the double-quote
lexer does not decode (the re-parsed string holds the literal characters
x, 0, 9); the double 10^-7 prints via %f as 0.000000, which re-parses to
0; and the integer LONG_MIN re-parses through strtol clamping and 32-bit
negation to 1. -/
theorem claim_C8_counterexample :
    rtOK (mkStr ['a', Char.ofNat 9, 'b']) = false ∧
    rtOK (mkDouble (1/10000000)) = false ∧
    rtOK (mkInt (-9223372036854775808)) = false := by
  refine ⟨by decide, ?_, by decide⟩
  have hq0 : |(1/10000000 : ℚ)| = 1/10000000 := abs_of_pos (by norm_num)
  have hfloor : Int.floor (|(1/10000000 : ℚ)| * 1000000 + 1/2) = 0 := by
    rw [hq0]
    rw [show ((1/10000000 : ℚ) * 1000000 + 1/2) = 3/5 from by norm_num]
    rw [Int.floor_eq_zero_iff]
    constructor <;> norm_num
  have hfmt : formatF (1/10000000) =
      ['0', '.', '0', '0', '0', '0', '0', '0'] := by
    simp only [formatF]
    rw [hfloor, if_neg (by norm_num : ¬((1/10000000 : ℚ) < 0))]
    decide
  have hps : (mkDouble (1/10000000)).getParsableString =
      ['0', '.', '0', '0', '0', '0', '0', '0'] := by
    rw [getParsable_dbl, hfmt]
    decide
  have hev : evaluateComplexLit ['0', '.', '0', '0', '0', '0', '0', '0'] =
      .ok (Value.mk VARIABLE_DOUBLE 0
        (parseCDouble (['0'] ++ '.' :: ['0', '0', '0', '0', '0', '0'])) [] []) :=
    rt_float_text ['0'] ['0', '0', '0', '0', '0', '0'] (by decide) (by decide) (by decide)
  have hpc : parseCDouble (['0'] ++ '.' :: ['0', '0', '0', '0', '0', '0']) = 0 := by
    rw [parseCDouble_digits_dot ['0'] ['0', '0', '0', '0', '0', '0']
      (by decide) (by decide) (by decide)]
    rw [show parseDigitsBase 10 ['0'] 0 = 0 from rfl,
      show parseDigitsBase 10 ['0', '0', '0', '0', '0', '0'] 0 = 0 from rfl]
    norm_num
  rw [hpc] at hev
  have hscr : evaluateComplexLit ((mkDouble (1/10000000)).getParsableString) =
      .ok (Value.mk VARIABLE_DOUBLE 0 0 [] []) := by
    rw [hps]
    exact hev
  unfold rtOK
  rw [hscr]
  simp only [resultEquals]
  have hqe : equalsFn (mkDouble (1/10000000)) (Value.mk VARIABLE_DOUBLE 0 0 [] []) false =
      decide ((1/10000000 : ℚ) = 0) := equals_dbl _ 0
  rw [hqe]
  simp only [decide_eq_false_iff_not]
  norm_num

/-- Witness: the round-trip theorem applied to the integer value 5. -/
theorem claim_C8_witness : rtOK (mkInt 5) = true :=
  claim_C8_amended (mkInt 5) (SafeLiteral.int 5 (by decide) (by decide))

end TJS
